import Mathlib

/-!
# The module linker of the nasal toolchain

A shallow embedding of `src/nasal_ast.h` (the node taxonomy) and of
`src/nasal_import.cpp` (the linker), followed by the properties proved of it.

Conventions of the embedding

* `std::string` is `String`, one `char` being one `Char`; positions and
  lengths are `Nat`, with `usize` arithmetic taken modulo `2 ^ 64` where it
  can wrap.
* An owning child pointer that the parser always sets is a plain field, one
  that is null by design is an `Option`.  `delete`, `new` are not modelled:
  nodes are values; of the releases only those of the loop of `load` are
  kept, as the list `load_deleted`.
* The members of `linker` form the record `linker`; a member function that
  writes a member takes the record and returns the new one.
* What the linker calls but does not define (the platform test, `access`,
  the lexer, the parser, the symbol finder) is gathered in `World`; what
  `getenv("PATH")` returns is an argument of the constructor `linker_new`.
* A function that can leave the defined behaviour of C++ or end the process
  returns in `Except fault`.
-/

namespace nasal

/-! ## Source locations and diagnostics -/

/-- Source span of a node, as used by `nasal_ast.h` and `nasal_import.cpp`:
    `nd_loc.begin_line`, `begin_column`, `end_line`, `end_column`, `file`, and
    the aggregate `{0, 0, 0, 0, filename}`. The lines and columns are `u32`. -/
structure span where
  begin_line : Nat
  begin_column : Nat
  end_line : Nat
  end_column : Nat
  file : String
deriving DecidableEq, Repr, Inhabited

/-- Severity of a diagnostic: `err.err` records a fatal one, `err.warn` a
    warning. -/
inductive severity
  | warning
  | fatal
deriving DecidableEq, Repr, Inhabited

/-- Modelled from the spec: the diagnostics record of `nasal_err.h`, which is
    not among the sources: phase tag, message and severity. The linker passes
    no location to `err.err` and `err.warn`. -/
structure diagnostic where
  level : severity
  stage : String
  info : String
deriving DecidableEq, Repr, Inhabited

/-- Modelled from the spec: the append-only diagnostics channel `error` of
    `nasal_err.h`. -/
abbrev error := List diagnostic

/-- The call `err.err(stage, info)`. -/
def error.err (e : error) (stage info : String) : error :=
  e ++ [{ level := severity.fatal, stage := stage, info := info }]

/-- The call `err.warn(stage, info)`. -/
def error.warn (e : error) (stage info : String) : error :=
  e ++ [{ level := severity.warning, stage := stage, info := info }]

/-! ## The node taxonomy of `nasal_ast.h` -/

/-- The discriminant `enum class expr_type`. -/
inductive expr_type
  | ast_null | ast_block | ast_nil | ast_num | ast_str | ast_id | ast_bool
  | ast_func | ast_hash | ast_vec | ast_pair | ast_call | ast_callh
  | ast_callv | ast_callf | ast_subvec | ast_param | ast_ternary
  | ast_binary | ast_unary | ast_for | ast_forei | ast_while | ast_iter
  | ast_cond | ast_if | ast_multi_id | ast_tuple | ast_def | ast_assign
  | ast_multi_assign | ast_continue | ast_break | ast_ret
deriving DecidableEq, Repr, Inhabited

/-- An `f64`, kept as its 64 bit pattern; the linker never looks into it. -/
structure f64 where
  bits : Nat
deriving DecidableEq, Repr, Inhabited

/-- The class `number_literal`. -/
structure number_literal where
  nd_loc : span
  number : f64
deriving DecidableEq, Repr, Inhabited

/-- The class `string_literal`. -/
structure string_literal where
  nd_loc : span
  content : String
deriving DecidableEq, Repr, Inhabited

/-- The class `identifier`. -/
structure identifier where
  nd_loc : span
  name : String
deriving DecidableEq, Repr, Inhabited

/-- The class `multi_identifier`. -/
structure multi_identifier where
  nd_loc : span
  vars : List identifier
deriving DecidableEq, Repr, Inhabited

/-- The enumeration `parameter::param_type`. -/
inductive param_type
  | normal_parameter | default_parameter | dynamic_parameter
deriving DecidableEq, Repr, Inhabited

/-- The enumeration `binary_operator::binary_type`. -/
inductive binary_type
  | add | sub | mult | div | concat | cmpeq | cmpneq | less | leq | grt | geq
  | bitwise_or | bitwise_xor | bitwise_and | condition_and | condition_or
deriving DecidableEq, Repr, Inhabited

/-- The enumeration `unary_operator::unary_type`. -/
inductive unary_type
  | negative | logical_not | bitwise_not
deriving DecidableEq, Repr, Inhabited

/-- The enumeration `assignment_expr::assign_type`. -/
inductive assign_type
  | equal | add_equal | sub_equal | mult_equal | div_equal | concat_equal
  | bitwise_and_equal | bitwise_or_equal | bitwise_xor_equal
deriving DecidableEq, Repr, Inhabited

/-- The enumeration `forei_expr::forei_loop_type`. -/
inductive forei_loop_type
  | foreach | forindex
deriving DecidableEq, Repr, Inhabited

mutual
/-- Every dynamic class below `expr`: one constructor per class. A class that
    some member or function names as a pointer type of its own
    (`code_block*`, `call_expr*`, `call*`, ...) is a type of its own and
    enters `expr` through its constructor (the upcast). -/
inductive expr : Type
  | null_expr (nd_loc : span)
  | nil_expr (nd_loc : span)
  | number_literal (n : nasal.number_literal)
  | string_literal (s : nasal.string_literal)
  | identifier (i : nasal.identifier)
  | bool_literal (nd_loc : span) (flag : Bool)
  | vector_expr (nd_loc : span) (elements : List nasal.expr)
  | hash_expr (nd_loc : span) (members : List nasal.hash_pair)
  | hash_pair (p : nasal.hash_pair)
  | function (nd_loc : span) (parameter_list : List nasal.parameter)
      (block : nasal.code_block)
  | code_block (b : nasal.code_block)
  | parameter (p : nasal.parameter)
  | ternary_operator (nd_loc : span) (condition left right : nasal.expr)
  | binary_operator (nd_loc : span) (type : binary_type) (left right : nasal.expr)
      (optimized_const_number : Option nasal.number_literal)
      (optimized_const_string : Option nasal.string_literal)
  | unary_operator (nd_loc : span) (type : unary_type) (value : nasal.expr)
      (optimized_number : Option nasal.number_literal)
  | call_expr (c : nasal.call_expr)
  | call (c : nasal.call)
  | slice_vector (v : nasal.slice_vector)
  | definition_expr (nd_loc : span) (variable_name : Option nasal.identifier)
      (vars : Option nasal.multi_identifier) (tuple : Option nasal.tuple_expr)
      (value : nasal.expr)
  | assignment_expr (nd_loc : span) (type : assign_type) (left right : nasal.expr)
  | multi_identifier (m : nasal.multi_identifier)
  | tuple_expr (t : nasal.tuple_expr)
  | multi_assign (nd_loc : span) (tuple : nasal.tuple_expr) (value : nasal.expr)
  | while_expr (nd_loc : span) (condition : nasal.expr) (block : nasal.code_block)
  | for_expr (nd_loc : span) (initializing condition step : Option nasal.expr)
      (block : nasal.code_block)
  | iter_expr (i : nasal.iter_expr)
  | forei_expr (nd_loc : span) (type : forei_loop_type)
      (iterator : nasal.iter_expr) (vector_node : nasal.expr)
      (block : nasal.code_block)
  | condition_expr (nd_loc : span) (if_stmt : nasal.if_expr)
      (elsif_stmt : List nasal.if_expr) (else_stmt : Option nasal.if_expr)
  | if_expr (i : nasal.if_expr)
  | continue_expr (nd_loc : span)
  | break_expr (nd_loc : span)
  | return_expr (nd_loc : span) (value : Option nasal.expr)
/-- The class `call` with its three subclasses `call_hash` (`id.name`),
    `call_vector` (`id[index]`) and `call_function` (`id()`). -/
inductive call : Type
  | call_hash (nd_loc : span) (field : String)
  | call_vector (nd_loc : span) (calls : List nasal.slice_vector)
  | call_function (nd_loc : span) (args : List nasal.expr)
/-- The class `code_block`. -/
inductive code_block : Type
  | mk (nd_loc : span) (expressions : List nasal.expr)
/-- The class `call_expr`: a primary expression and its postfix operations. -/
inductive call_expr : Type
  | mk (nd_loc : span) (first : nasal.expr) (calls : List nasal.call)
/-- The class `hash_pair`. -/
inductive hash_pair : Type
  | mk (nd_loc : span) (name : String) (value : Option nasal.expr)
/-- The class `parameter`. -/
inductive parameter : Type
  | mk (nd_loc : span) (type : param_type) (name : String)
      (default_value : Option nasal.expr)
/-- The class `slice_vector`. -/
inductive slice_vector : Type
  | mk (nd_loc : span) (begin_ : nasal.expr) (end_ : Option nasal.expr)
/-- The class `tuple_expr`. -/
inductive tuple_expr : Type
  | mk (nd_loc : span) (elements : List nasal.expr)
/-- The class `if_expr`; the condition is absent in an `else` branch. -/
inductive if_expr : Type
  | mk (nd_loc : span) (condition : Option nasal.expr) (block : nasal.code_block)
/-- The class `iter_expr`. -/
inductive iter_expr : Type
  | mk (nd_loc : span) (is_iterator_definition : Bool)
      (name : Option nasal.identifier) (call : Option nasal.call_expr)
end

/-! ### Accessors -/

/-- The member `expr::get_type` of a `call` node. -/
def call.get_type : call → expr_type
  | call.call_hash _ _ => expr_type.ast_callh
  | call.call_vector _ _ => expr_type.ast_callv
  | call.call_function _ _ => expr_type.ast_callf

/-- The member `expr::get_location` of a `call` node. -/
def call.get_location : call → span
  | call.call_hash l _ => l
  | call.call_vector l _ => l
  | call.call_function l _ => l

/-- The member `expr::get_type`: the tag each constructor of `nasal_ast.h`
    hands to the constructor of `expr`. -/
def expr.get_type : expr → expr_type
  | expr.null_expr _ => expr_type.ast_null
  | expr.nil_expr _ => expr_type.ast_nil
  | expr.number_literal _ => expr_type.ast_num
  | expr.string_literal _ => expr_type.ast_str
  | expr.identifier _ => expr_type.ast_id
  | expr.bool_literal _ _ => expr_type.ast_bool
  | expr.vector_expr _ _ => expr_type.ast_vec
  | expr.hash_expr _ _ => expr_type.ast_hash
  | expr.hash_pair _ => expr_type.ast_pair
  | expr.function _ _ _ => expr_type.ast_func
  | expr.code_block _ => expr_type.ast_block
  | expr.parameter _ => expr_type.ast_param
  | expr.ternary_operator _ _ _ _ => expr_type.ast_ternary
  | expr.binary_operator _ _ _ _ _ _ => expr_type.ast_binary
  | expr.unary_operator _ _ _ _ => expr_type.ast_unary
  | expr.call_expr _ => expr_type.ast_call
  | expr.call c => c.get_type
  | expr.slice_vector _ => expr_type.ast_subvec
  | expr.definition_expr _ _ _ _ _ => expr_type.ast_def
  | expr.assignment_expr _ _ _ _ => expr_type.ast_assign
  | expr.multi_identifier _ => expr_type.ast_multi_id
  | expr.tuple_expr _ => expr_type.ast_tuple
  | expr.multi_assign _ _ _ => expr_type.ast_multi_assign
  | expr.while_expr _ _ _ => expr_type.ast_while
  | expr.for_expr _ _ _ _ _ => expr_type.ast_for
  | expr.iter_expr _ => expr_type.ast_iter
  | expr.forei_expr _ _ _ _ _ => expr_type.ast_forei
  | expr.condition_expr _ _ _ _ => expr_type.ast_cond
  | expr.if_expr _ => expr_type.ast_if
  | expr.continue_expr _ => expr_type.ast_continue
  | expr.break_expr _ => expr_type.ast_break
  | expr.return_expr _ _ => expr_type.ast_ret

/-- The member `expr::get_location`. -/
def expr.get_location : expr → span
  | expr.null_expr l => l
  | expr.nil_expr l => l
  | expr.number_literal n => n.nd_loc
  | expr.string_literal s => s.nd_loc
  | expr.identifier i => i.nd_loc
  | expr.bool_literal l _ => l
  | expr.vector_expr l _ => l
  | expr.hash_expr l _ => l
  | expr.hash_pair (hash_pair.mk l _ _) => l
  | expr.function l _ _ => l
  | expr.code_block (code_block.mk l _) => l
  | expr.parameter (parameter.mk l _ _ _) => l
  | expr.ternary_operator l _ _ _ => l
  | expr.binary_operator l _ _ _ _ _ => l
  | expr.unary_operator l _ _ _ => l
  | expr.call_expr (call_expr.mk l _ _) => l
  | expr.call c => c.get_location
  | expr.slice_vector (slice_vector.mk l _ _) => l
  | expr.definition_expr l _ _ _ _ => l
  | expr.assignment_expr l _ _ _ => l
  | expr.multi_identifier m => m.nd_loc
  | expr.tuple_expr (tuple_expr.mk l _) => l
  | expr.multi_assign l _ _ => l
  | expr.while_expr l _ _ => l
  | expr.for_expr l _ _ _ _ => l
  | expr.iter_expr (iter_expr.mk l _ _ _) => l
  | expr.forei_expr l _ _ _ _ => l
  | expr.condition_expr l _ _ _ => l
  | expr.if_expr (if_expr.mk l _ _) => l
  | expr.continue_expr l => l
  | expr.break_expr l => l
  | expr.return_expr l _ => l

/-- The member `code_block::get_location`. -/
def code_block.get_location : code_block → span
  | code_block.mk l _ => l

/-- The member `code_block::get_expressions`. -/
def code_block.get_expressions : code_block → List expr
  | code_block.mk _ es => es

/-- The member `code_block::add_expression`: `expressions.push_back(node)`. -/
def code_block.add_expression : code_block → expr → code_block
  | code_block.mk l es, node => code_block.mk l (es ++ [node])

/-- The member `call_expr::get_location`. -/
def call_expr.get_location : call_expr → span
  | call_expr.mk l _ _ => l

/-- The member `call_expr::get_first`. -/
def call_expr.get_first : call_expr → expr
  | call_expr.mk _ f _ => f

/-- The member `call_expr::get_calls`. -/
def call_expr.get_calls : call_expr → List call
  | call_expr.mk _ _ cs => cs

/-! ## What the linker takes from outside -/

/-- The record `symbol_finder::do_find` reports for one top-level symbol; the
    linker reads its `name` only. -/
structure symbol_info where
  name : String
deriving DecidableEq, Repr, Inhabited

/-- The collaborators of the linker that `nasal_import.cpp` calls and does not
    define. The file system is the same during one run of the linker. -/
structure World where
  /-- Result of `is_windows()`. -/
  is_windows : Bool
  /-- Whether `access(path, F_OK) != -1`. -/
  access : String → Bool
  /-- Whether `lex.scan(filename).geterr()` is non-zero. -/
  scan_geterr : String → Bool
  /-- Whether `par.compile(lex).geterr()` is non-zero, `lex` having scanned the
      named file. -/
  compile_geterr : String → Bool
  /-- The tree `par.swap(nullptr)` hands out after the named file compiled. -/
  parse_result : String → code_block
  /-- The records `symbol_finder::do_find` reports for a block, in its order. -/
  do_find : code_block → List symbol_info

/-- The separator `is_windows()? "\\":"/"` that `get_path` and `find_file`
    put between path segments. -/
def World.sep (W : World) : String :=
  if W.is_windows then "\\" else "/"

/-- Why a call returns no value: the model ran out of `fuel`, the process
    ended through `std::exit`, or the code left the defined behaviour of C++
    (an index beyond a vector, a cast to a class the node does not have,
    `pop_back` on an empty vector). -/
inductive fault
  | out_of_fuel
  | process_exit
  | undefined_behaviour
deriving DecidableEq, Repr, Inhabited

/-- The members of `class linker`. -/
structure linker where
  show_path : Bool
  lib_loaded : Bool
  this_file : String
  lib_path : String
  envpath : List String
  files : List String
  module_load_stack : List String
  err : error
deriving DecidableEq, Repr, Inhabited

/-! ## `nasal_import.cpp` -/

/-- The cast `(call_hash*)i` followed by `get_field()`: defined only for a
    field access. -/
def call.as_call_hash_field : call → Option String
  | call.call_hash _ field => some field
  | _ => none

/-- The loop of `linker::get_path` over the postfix list:
    `fpath += sep + ((call_hash*)i)->get_field()`. -/
def get_path_loop (W : World) : List call → String → Option String
  | [], fpath => some fpath
  | i :: rest, fpath =>
    match i.as_call_hash_field with
    | some field => get_path_loop W rest (fpath ++ (W.sep ++ field))
    | none => none

/-- The function `linker::get_path`. The result is `none` where the C++ is
    undefined: no postfix at all (`get_calls()[0]`), an invocation without
    argument (`get_argument()[0]`), an argument that is no `string_literal`,
    or a postfix of the dotted form that is no `call_hash`. -/
def get_path (W : World) (node : call_expr) : Option String :=
  match node.get_calls with
  | [] => none
  | c0 :: _ =>
    if c0.get_type = expr_type.ast_callf then
      match c0 with
      | call.call_function _ (expr.string_literal str :: _) => some str.content
      | _ => none
    else
      match get_path_loop W node.get_calls "." with
      | some fpath => some (fpath ++ ".nas")
      | none => none

/-- The function `linker::import_check`. -/
def import_check (node : expr) : Bool :=
  if node.get_type ≠ expr_type.ast_call then false else
  match node with
  | expr.call_expr tmp =>
    if tmp.get_first.get_type ≠ expr_type.ast_id then false else
    match tmp.get_first with
    | expr.identifier id =>
      if id.name ≠ "import" then false else
      if tmp.get_calls.length = 0 then false else
      match tmp.get_calls with
      | [] => false
      | c0 :: _ =>
        -- import.xxx.xxx;
        if c0.get_type = expr_type.ast_callh then
          tmp.get_calls.all (fun i => decide (i.get_type = expr_type.ast_callh))
        else
        -- import("xxx");
        if tmp.get_calls.length ≠ 1 then false else
        if c0.get_type ≠ expr_type.ast_callf then false else
        match c0 with
        | call.call_function _ args =>
          if args.length ≠ 1 then false else
          match args with
          | a0 :: _ => if a0.get_type ≠ expr_type.ast_str then false else true
          | [] => false
        | _ => false
    | _ => false
  | _ => false

/-! ### `std::string` -/

/-- Width of `usize`, 64 bit. -/
def usize_width : Nat := 2 ^ 64

/-- Subtraction of `usize` values, modulo the width. -/
def usize_sub (a b : Nat) : Nat :=
  (a + usize_width - b % usize_width) % usize_width

/-- Loop of `std::string::find(pat)`: the least position, counted from `pos`,
    at which `pat` starts. -/
def string_find_loop (pat : List Char) : List Char → Nat → Option Nat
  | [], pos => if pat.isEmpty then some pos else none
  | c :: cs, pos =>
    if pat.isPrefixOf (c :: cs) then some pos
    else string_find_loop pat cs (pos + 1)

/-- The call `s.find(pat)`; `none` is `std::string::npos`. -/
def string_find (s pat : String) : Option Nat :=
  string_find_loop pat.data s.data 0

/-- Loop of `std::string::find_last_of(chars)`: the greatest position holding
    one of `chars`, `last` being the greatest one before `pos`. -/
def string_find_last_of_loop (chars : List Char) :
    List Char → Nat → Option Nat → Option Nat
  | [], _, last => last
  | c :: cs, pos, last =>
    string_find_last_of_loop chars cs (pos + 1)
      (if chars.contains c then some pos else last)

/-- The call `s.find_last_of(chars)`; `none` is `std::string::npos`. -/
def string_find_last_of (s chars : String) : Option Nat :=
  string_find_last_of_loop chars.data s.data 0 none

/-- The call `s.substr(pos, len)` for `pos <= s.length()`: at most `len`
    characters from `pos` on. -/
def string_substr (s : String) (pos len : Nat) : String :=
  ⟨(s.data.drop pos).take len⟩

/-! ### Resolving a file name -/

/-- The candidate paths of `linker::find_file`: the name itself, then every
    entry of `envpath` joined with the name. -/
def find_file_fpath (W : World) (s : linker) (filename : String) : List String :=
  [filename] ++ s.envpath.map (fun p => p ++ W.sep ++ filename)

/-- The text `paths` that `linker::find_file` builds when `show_path` is set. -/
def find_file_paths (fpath : List String) : String :=
  fpath.foldl (fun paths i => paths ++ ("  -> " ++ i ++ "\n")) ""

/-- Body of `linker::find_file`, the recursive call being `retry`. -/
def find_file_once (W : World) (retry : String → span → linker → String × linker)
    (filename : String) (location : span) (s : linker) : String × linker :=
  -- first add file name itself into the file path
  -- generate search path from environ path
  let fpath := find_file_fpath W s filename
  -- search file
  match fpath.find? (fun i => W.access i) with
  | some i => (i, s)
  | none =>
    -- we will find lib.nas in nasal std directory
    if filename = "lib.nas" then
      (if W.is_windows then retry "std\\lib.nas" location s
       else retry "std/lib.nas" location s)
    else if ¬ s.show_path then
      ("", { s with err := (s.err.err "link"
              ("in <" ++ location.file ++ ">: " ++
               "cannot find file <" ++ filename ++ ">, " ++
               "use <-d> to get detail search path")) })
    else
      ("", { s with err := (s.err.err "link"
              ("in <" ++ location.file ++ ">: " ++
               "cannot find file <" ++ filename ++ "> in these paths:\n" ++
               find_file_paths fpath)) })

/-- The function `linker::find_file`. Its recursion is unrolled twice, the
    innermost call being a stub; by `find_file_unfold` this function solves
    the recursive equation of the source, and by `find_file_stub_irrelevant`
    the stub is never reached. -/
def find_file (W : World) (filename : String) (location : span) (s : linker) :
    String × linker :=
  find_file_once W (find_file_once W (fun _ _ s => ("", s))) filename location s

/-! ### The session state -/

/-- The function `linker::exist`: whether `file` is in `files`, appending it
    when it is not. -/
def exist (file : String) (s : linker) : Bool × linker :=
  -- avoid importing the same file
  if s.files.any (fun fname => file == fname) then (true, s)
  else (false, { s with files := s.files ++ [file] })

/-- Loop of `linker::find`: the first `i`, counted from `pos`, with
    `files[i] == file`. -/
def find_loop (file : String) : List String → Nat → Option Nat
  | [], _ => none
  | f :: rest, i => if f = file then some i else find_loop file rest (i + 1)

/-- The function `linker::find`: `static_cast<u16>(i)` for the first match,
    `std::exit(-1)` without one. -/
def find (file : String) (s : linker) : Except fault Nat :=
  match find_loop file s.files 0 with
  | some i => Except.ok (i % 65536)
  | none => Except.error fault.process_exit

/-- The function `linker::check_self_import`. -/
def check_self_import (s : linker) (file : String) : Bool :=
  s.module_load_stack.any (fun i => file == i)

/-- The function `linker::generate_self_import_path`. -/
def generate_self_import_path (s : linker) (filename : String) : String :=
  let res := s.module_load_stack.foldl (fun res i => res ++ ("[" ++ i ++ "] -> ")) ""
  res ++ ("[" ++ filename ++ "]")

/-- The function `linker::link(code_block*, code_block*)`: the pair of the
    new root and the old root after the call. -/
def link_block (new_tree_root old_tree_root : code_block) : code_block × code_block :=
  -- add children of add_root to the back of root
  let new_tree_root := old_tree_root.get_expressions.foldl
    (fun root i => root.add_expression i) new_tree_root
  -- clean old root
  (new_tree_root, code_block.mk old_tree_root.get_location [])

/-! ### Wrapping a module -/

/-- The function `linker::generate_module_name`. -/
def generate_module_name (file_path : String) (s : linker) : String × linker :=
  let error_name := "module@[" ++ file_path ++ "]"
  if file_path.length = 0 then (error_name, s) else
  -- check file suffix and get file suffix position
  match string_find file_path ".nas" with
  | none =>
    (error_name, { s with err := (s.err.warn "link"
      ("get invalid module name from <" ++ file_path ++ ">, " ++
       "will not be easily accessed. " ++
       "\".nas\" suffix is required.")) })
  | some suffix_position =>
    if suffix_position + 4 ≠ file_path.length then
      (error_name, { s with err := (s.err.warn "link"
        ("get invalid module name from <" ++ file_path ++ ">, " ++
         "will not be easily accessed. " ++
         "only one \".nas\" suffix is required in the path.")) })
    else
    -- only get the file name as module name, directory path is not included
    let split_position := string_find_last_of file_path "/"
    -- find "\\" in windows platform
    let split_position :=
      if split_position = none then string_find_last_of file_path "\\"
      else split_position
    -- split file path to get module name
    let module_name :=
      match split_position with
      | none => string_substr file_path 0 suffix_position
      | some split_position =>
        string_substr file_path (split_position + 1)
          (usize_sub (usize_sub suffix_position split_position) 1)
    -- check validation of module name
    let s :=
      if module_name.length = 0 then
        { s with err := (s.err.warn "link"
          ("get empty module name from <" ++ file_path ++ ">, " ++
           "will not be easily accessed.")) }
      else s
    let s :=
      if module_name.length ≠ 0 ∧ '0' ≤ module_name.data.headD ' '
          ∧ module_name.data.headD ' ' ≤ '9' then
        { s with err := (s.err.warn "link"
          ("get module <" ++ module_name ++ "> from <" ++ file_path ++ ">, " ++
           "will not be easily accessed.")) }
      else s
    let s :=
      if module_name.length ≠ 0 ∧ string_find module_name "." ≠ none then
        { s with err := (s.err.warn "link"
          ("get module <" ++ module_name ++ "> from <" ++ file_path ++ ">, " ++
           "will not be easily accessed.")) }
      else s
    (module_name, s)

/-- Loop of `linker::generate_module_return` over the symbols found. -/
def generate_module_return_loop (loc : span) :
    List symbol_info → List hash_pair → List hash_pair
  | [], members => members
  | i :: rest, members =>
    -- do not export symbol begins with '_'
    if i.name.length ≠ 0 ∧ i.name.data.headD ' ' = '_' then
      generate_module_return_loop loc rest members
    else
      generate_module_return_loop loc rest
        (members ++ [hash_pair.mk loc i.name
          (some (expr.identifier { nd_loc := loc, name := i.name }))])

/-- The function `linker::generate_module_return`. -/
def generate_module_return (W : World) (block : code_block) : expr :=
  expr.return_expr block.get_location
    (some (expr.hash_expr block.get_location
      (generate_module_return_loop block.get_location (W.do_find block) [])))

/-- The function `linker::generate_module_definition`. -/
def generate_module_definition (W : World) (block : code_block) (s : linker) :
    expr × linker :=
  let (name, s) := generate_module_name block.get_location.file s
  let func := expr.function block.get_location []
    (block.add_expression (generate_module_return W block))
  let call := call_expr.mk block.get_location func
    [call.call_function block.get_location []]
  (expr.definition_expr block.get_location
     (some { nd_loc := block.get_location, name := name }) none none
     (expr.call_expr call), s)

/-! ### Loading -/

/-- Type of `linker::load`, as the functions that call it see it. -/
abbrev load_fn := code_block → Nat → linker → Except fault (code_block × linker)

/-- The function `linker::import_regular_file`, its call of `linker::load`
    being `load`. The source first empties `node` (its postfix list is
    deleted, its primary replaced by a `nil_expr`); `linker::load` deletes
    that node right after the call and reads only its span, which stays, so
    the emptied node is not part of the result. -/
def import_regular_file (W : World) (load : load_fn) (node : call_expr)
    (s : linker) : Except fault (code_block × linker) :=
  -- get filename
  match get_path W node with
  | none => Except.error fault.undefined_behaviour
  | some filename =>
    -- avoid infinite loading loop
    let (filename, s) := find_file W filename node.get_location s
    if filename.length = 0 then
      Except.ok (code_block.mk ⟨0, 0, 0, 0, filename⟩ [], s)
    else if check_self_import s filename then
      Except.ok (code_block.mk ⟨0, 0, 0, 0, filename⟩ [],
        { s with err := (s.err.err "link"
            ("self-referenced module <" ++ filename ++ ">:\n" ++
             "    reference path: " ++ generate_self_import_path s filename)) })
    else
    let s := (exist filename s).2
    let s := { s with module_load_stack := s.module_load_stack ++ [filename] }
    -- start importing...
    if W.scan_geterr filename then
      Except.ok (code_block.mk ⟨0, 0, 0, 0, filename⟩ [],
        { s with err := (s.err.err "link"
            ("error occurred when analysing <" ++ filename ++ ">")) })
    else if W.compile_geterr filename then
      Except.ok (code_block.mk ⟨0, 0, 0, 0, filename⟩ [],
        { s with err := (s.err.err "link"
            ("error occurred when analysing <" ++ filename ++ ">")) })
    else
    let parse_result := W.parse_result filename
    -- check if parse result has 'import'
    match find filename s with
    | Except.error f => Except.error f
    | Except.ok fileindex =>
      match load parse_result fileindex s with
      | Except.error f => Except.error f
      | Except.ok (result, s) =>
        if s.module_load_stack.isEmpty then
          Except.error fault.undefined_behaviour
        else
          Except.ok (result,
            { s with module_load_stack := s.module_load_stack.dropLast })

/-- The function `linker::import_nasal_lib`, its call of `linker::load` being
    `load`. -/
def import_nasal_lib (W : World) (load : load_fn) (s : linker) :
    Except fault (code_block × linker) :=
  match s.files with
  | [] => Except.error fault.undefined_behaviour
  | files_0 :: _ =>
    let (filename, s) := find_file W "lib.nas" ⟨0, 0, 0, 0, files_0⟩ s
    if filename.length = 0 then
      Except.ok (code_block.mk ⟨0, 0, 0, 0, filename⟩ [], s)
    else
    let s := { s with lib_path := filename }
    -- avoid infinite loading library
    let (found, s) := exist filename s
    if found then
      Except.ok (code_block.mk ⟨0, 0, 0, 0, filename⟩ [], s)
    else
    -- start importing...
    if W.scan_geterr filename then
      Except.ok (code_block.mk ⟨0, 0, 0, 0, filename⟩ [],
        { s with err := (s.err.err "link"
            ("error occurred when analysing library <" ++ filename ++ ">")) })
    else if W.compile_geterr filename then
      Except.ok (code_block.mk ⟨0, 0, 0, 0, filename⟩ [],
        { s with err := (s.err.err "link"
            ("error occurred when analysing library <" ++ filename ++ ">")) })
    else
    let parse_result := W.parse_result filename
    -- check if library has 'import' (in fact it should not)
    match find filename s with
    | Except.error f => Except.error f
    | Except.ok fileindex => load parse_result fileindex s

/-- The loop of `linker::load` over the statements of `program_root`: the
    statements as the loop leaves them, the new tree and the state. -/
def load_imports (W : World) (load : load_fn) :
    List expr → code_block → linker → Except fault (List expr × code_block × linker)
  | [], tree, s => Except.ok ([], tree, s)
  | import_ast_node :: rest, tree, s =>
    if ¬ import_check import_ast_node then
      Except.ok (import_ast_node :: rest, tree, s)
    else
    match import_ast_node with
    | expr.call_expr node =>
      match import_regular_file W load node s with
      | Except.error f => Except.error f
      | Except.ok (module_code_block, s) =>
        -- after importing the regular file as module, delete this node
        let loc := import_ast_node.get_location
        -- and replace the node with null_expr node
        let import_ast_node := expr.null_expr loc
        -- then we generate a function warping the code block,
        -- and export the necessary global symbols in this code block
        -- by generate a return statement, with a hashmap return value
        let (definition, s) := generate_module_definition W module_code_block s
        let tree := tree.add_expression definition
        match load_imports W load rest tree s with
        | Except.error f => Except.error f
        | Except.ok (rest, tree, s) => Except.ok (import_ast_node :: rest, tree, s)
    | _ => Except.error fault.undefined_behaviour

/-- The first step of `linker::load`: while the library is not loaded, the
    block `import_nasal_lib` returns is spliced into `tree` and `lib_loaded` is
    set. -/
def load_library (W : World) (load : load_fn) (tree : code_block) (s : linker) :
    Except fault (code_block × linker) :=
  -- load library, this ast will be linked with root directly
  -- so no extra namespace is generated
  if ¬ s.lib_loaded then
    match import_nasal_lib W load s with
    | Except.error f => Except.error f
    | Except.ok (nasal_lib_code_block, s) =>
      -- insert nasal lib code to the back of tree
      Except.ok ((link_block tree nasal_lib_code_block).1,
        { s with lib_loaded := true })
  else Except.ok (tree, s)

/-- Body of `linker::load`, the nested calls of `linker::load` being `load`.
    `fileindex` is a `u16`. -/
def load_body (W : World) (load : load_fn) (program_root : code_block)
    (fileindex : Nat) (s : linker) : Except fault (code_block × linker) :=
  match s.files[fileindex]? with
  | none => Except.error fault.undefined_behaviour
  | some file =>
    match load_library W load (code_block.mk ⟨0, 0, 0, 0, file⟩ []) s with
    | Except.error f => Except.error f
    | Except.ok (tree, s) =>
      -- load imported modules
      match load_imports W load program_root.get_expressions tree s with
      | Except.error f => Except.error f
      | Except.ok (expressions, tree, s) =>
        -- insert program root to the back of tree
        Except.ok ((link_block tree
          (code_block.mk program_root.get_location expressions)).1, s)

/-- The function `linker::load`. `fuel` bounds how deep calls of `load` nest
    below this one: at `fuel = 0` a nested call is `out_of_fuel`. -/
def load (W : World) : Nat → load_fn
  | 0 => load_body W (fun _ _ _ => Except.error fault.out_of_fuel)
  | fuel + 1 => load_body W (load W fuel)

/-- The assignments that open `linker::link(parse&, self, spath)`. -/
def link_init (s : linker) (self : String) (spath : Bool) : linker :=
  { s with show_path := spath, this_file := self, files := [self],
           module_load_stack := [self] }

/-- The function `linker::link(parse&, self, spath)`: `program_root` is
    `parse.tree()`; the result is the root that `parse.swap` installs and the
    linker afterwards, whose `err` is the value returned. -/
def link (W : World) (fuel : Nat) (s : linker) (program_root : code_block)
    (self : String) (spath : Bool) : Except fault (code_block × linker) :=
  -- scan root and import files
  -- then generate a new ast and return to import_ast
  -- the main file's index is 0
  load W fuel program_root 0 (link_init s self spath)

/-- The loader that a call `load W fuel` hands to its body for the nested
    calls: `load W fuel = load_body W (load_nested W fuel)`. -/
def load_nested (W : World) : Nat → load_fn
  | 0 => fun _ _ _ => Except.error fault.out_of_fuel
  | fuel + 1 => load W fuel

/-- The state of a linker that its constructor leaves, `envpath` being the
    list the constructor builds from the environment. -/
def linker_fresh (envpath : List String) : linker :=
  { show_path := false, lib_loaded := false, this_file := "", lib_path := "",
    envpath := envpath, files := [], module_load_stack := [], err := [] }

/-! ## Specification side -/

/-- What the specification says of a run of import statements: each is
    handed to `import_regular_file` once, in source order, and the block that
    comes back is wrapped into one module definition. The result lists these
    definitions in that order. -/
def import_each (W : World) (load : load_fn) :
    List expr → linker → Except fault (List expr × linker)
  | [], s => Except.ok ([], s)
  | expr.call_expr node :: rest, s =>
    match import_regular_file W load node s with
    | Except.error f => Except.error f
    | Except.ok (module_code_block, s) =>
      match import_each W load rest
        (generate_module_definition W module_code_block s).2 with
      | Except.error f => Except.error f
      | Except.ok (definitions, s1) =>
        Except.ok ((generate_module_definition W module_code_block s).1 :: definitions, s1)
  | _ :: _, _ => Except.error fault.undefined_behaviour

/-- The placeholder that `linker::load` leaves where an import statement was:
    a `null_expr` with the span of the statement. -/
def import_placeholder (node : expr) : expr :=
  expr.null_expr node.get_location

/-- What a module wrapper binds and holds: the identifier it defines and
    the tags of the statements of the wrapped function; `none` for a node of
    another shape. -/
def wrapper_summary : expr → Option (String × List expr_type)
  | expr.definition_expr _ (some id) _ _
      (expr.call_expr (call_expr.mk _ (expr.function _ _ block) _)) =>
    some (id.name, block.get_expressions.map expr.get_type)
  | _ => none

/-! ## Example programs and file systems -/

/-- The statement `import("file");` as the parser builds it. -/
def import_call (loc : span) (file : String) : expr :=
  expr.call_expr (call_expr.mk loc
    (expr.identifier { nd_loc := loc, name := "import" })
    [call.call_function loc
      [expr.string_literal { nd_loc := loc, content := file }]])

/-- The statement `var name = <number>;` as the parser builds it. -/
def var_definition (loc : span) (name : String) (value : f64) : expr :=
  expr.definition_expr loc (some { nd_loc := loc, name := name }) none none
    (expr.number_literal { nd_loc := loc, number := value })

/-- The name a statement defines at top level, for the example symbol finder. -/
def defined_symbol : expr → Option symbol_info
  | expr.definition_expr _ (some id) _ _ _ => some { name := id.name }
  | _ => none

/-- A world without Windows whose file system is the given table: a file
    exists when the table names it, its entry is `none` when the lexer fails
    on it and its statements otherwise. -/
def world_of (table : List (String × Option (List expr))) : World :=
  { is_windows := false
    access := fun path => (table.lookup path).isSome
    scan_geterr := fun path =>
      match table.lookup path with
      | some none => true
      | _ => false
    compile_geterr := fun _ => false
    parse_result := fun path =>
      code_block.mk ⟨0, 0, 0, 0, path⟩ (((table.lookup path).getD none).getD [])
    do_find := fun block => block.get_expressions.filterMap defined_symbol }

/-- The number `1` as an `f64`. -/
def f64_one : f64 := { bits := 0x3FF0000000000000 }

/-- The number `2` as an `f64`. -/
def f64_two : f64 := { bits := 0x4000000000000000 }

/-- The file `b.nas` of scenario 1: `var y = 2;`. -/
def file_b : List expr :=
  [var_definition ⟨1, 0, 1, 10, "b.nas"⟩ "y" f64_two]

/-- A file system that holds `b.nas` only. -/
def world_b : World := world_of [("b.nas", some file_b)]

/-- The entry file `a.nas` of scenario 1: `import("b.nas"); var x = 1;`. -/
def entry_a : code_block :=
  code_block.mk ⟨1, 0, 2, 10, "a.nas"⟩
    [import_call ⟨1, 0, 1, 17, "a.nas"⟩ "b.nas",
     var_definition ⟨2, 0, 2, 10, "a.nas"⟩ "x" f64_one]

/-- An entry file with an import after a statement:
    `import("b.nas"); var x = 1; import("b.nas");`. -/
def entry_late_import : code_block :=
  code_block.mk ⟨1, 0, 3, 17, "a.nas"⟩
    [import_call ⟨1, 0, 1, 17, "a.nas"⟩ "b.nas",
     var_definition ⟨2, 0, 2, 10, "a.nas"⟩ "x" f64_one,
     import_call ⟨3, 0, 3, 17, "a.nas"⟩ "b.nas"]

/-- An entry file that imports one file twice:
    `import("b.nas"); import("b.nas");`. -/
def entry_twice : code_block :=
  code_block.mk ⟨1, 0, 2, 17, "a.nas"⟩
    [import_call ⟨1, 0, 1, 17, "a.nas"⟩ "b.nas",
     import_call ⟨2, 0, 2, 17, "a.nas"⟩ "b.nas"]

/-- The node of `import("b.nas");` in the first line of `a.nas`. -/
def node_import_b : call_expr :=
  call_expr.mk ⟨1, 0, 1, 17, "a.nas"⟩
    (expr.identifier { nd_loc := ⟨1, 0, 1, 17, "a.nas"⟩, name := "import" })
    [call.call_function ⟨1, 0, 1, 17, "a.nas"⟩
      [expr.string_literal { nd_loc := ⟨1, 0, 1, 17, "a.nas"⟩, content := "b.nas" }]]

/-- An entry file made of one import: `import("b.nas");`. -/
def entry_single : code_block :=
  code_block.mk ⟨1, 0, 1, 17, "a.nas"⟩ [expr.call_expr node_import_b]

/-- A file system without any file. -/
def world_empty : World := world_of []

/-- A file system that holds `bad.nas` only, on which the lexer fails. -/
def world_bad : World := world_of [("bad.nas", none)]

/-- The node of `import("bad.nas");`. -/
def node_import_bad : call_expr :=
  call_expr.mk ⟨1, 0, 1, 19, "a.nas"⟩
    (expr.identifier { nd_loc := ⟨1, 0, 1, 19, "a.nas"⟩, name := "import" })
    [call.call_function ⟨1, 0, 1, 19, "a.nas"⟩
      [expr.string_literal { nd_loc := ⟨1, 0, 1, 19, "a.nas"⟩, content := "bad.nas" }]]

/-- The node of `import("a.nas");` inside `b.nas`. -/
def node_import_a : call_expr :=
  call_expr.mk ⟨1, 0, 1, 17, "b.nas"⟩
    (expr.identifier { nd_loc := ⟨1, 0, 1, 17, "b.nas"⟩, name := "import" })
    [call.call_function ⟨1, 0, 1, 17, "b.nas"⟩
      [expr.string_literal { nd_loc := ⟨1, 0, 1, 17, "b.nas"⟩, content := "a.nas" }]]

/-- A file system in which `a.nas` and `b.nas` import each other. -/
def world_cycle : World :=
  world_of [("a.nas", some [import_call ⟨1, 0, 1, 17, "a.nas"⟩ "b.nas"]),
            ("b.nas", some [import_call ⟨1, 0, 1, 17, "b.nas"⟩ "a.nas"])]

/-- The linker while `a.nas`, the entry file, is importing `b.nas`. -/
def linker_in_b : linker :=
  { show_path := false, lib_loaded := true, this_file := "a.nas", lib_path := "",
    envpath := [], files := ["a.nas", "b.nas"],
    module_load_stack := ["a.nas", "b.nas"], err := [] }

/-! ## Invariant and measure of the session state -/

/-- The file the library resolves to in the search path of `s`; empty when
    there is none. -/
def lib_file (W : World) (s : linker) : String :=
  (find_file W "lib.nas" ⟨0, 0, 0, 0, ""⟩ s).1

/-- Whether `load` would still descend into the library from `s`: `1` when
    the library is not loaded, resolves, and is not in `files`, else `0`. -/
def lib_pending (W : World) (s : linker) : Nat :=
  if s.lib_loaded = true ∨ (lib_file W s).length = 0 ∨ lib_file W s ∈ s.files then 0 else 1

/-- A bound on how deep `load` can still nest from `s` when the active stack
    holds at most `bound` files. -/
def load_measure (W : World) (bound : Nat) (s : linker) : Nat :=
  (bound - s.module_load_stack.length) + lib_pending W s

/-- The invariant of the session state during `link`: `files` is not empty,
    and the active stack has no file twice and holds files of `U` only. -/
structure linker_inv (U : List String) (s : linker) : Prop where
  files_ne : s.files ≠ []
  nodup : s.module_load_stack.Nodup
  sub : ∀ f ∈ s.module_load_stack, f ∈ U

/-- How a call of the linker may change the session state. -/
structure linker_le (U : List String) (s s1 : linker) : Prop where
  envpath : s1.envpath = s.envpath
  files : ∀ f ∈ s.files, f ∈ s1.files
  lib : s.lib_loaded = true → s1.lib_loaded = true
  depth : s.module_load_stack.length ≤ s1.module_load_stack.length
  inv : linker_inv U s1

/-- A nested loader that returns whenever the measure of the state is below
    `c`. -/
def load_returns_below (W : World) (U : List String) (ld : load_fn) (c : Nat) : Prop :=
  ∀ b i s, linker_inv U s → i < s.files.length → load_measure W U.length s < c →
    ∃ t s1, ld b i s = Except.ok (t, s1) ∧ linker_le U s s1

/-- The state in which `import_regular_file` starts to lex `file`: `file`
    is recorded in `files` and pushed on the active stack. -/
def enter_file (file : String) (s : linker) : linker :=
  { (exist file s).2 with
    module_load_stack := (exist file s).2.module_load_stack ++ [file] }

/-- The invariant of the active stack: no file name twice. -/
def stack_nodup (s : linker) : Prop := s.module_load_stack.Nodup

/-- A loader that returns a duplicate-free stack when given one. -/
def keeps_stack_nodup (ld : load_fn) : Prop :=
  ∀ b i s t s1, stack_nodup s → ld b i s = Except.ok (t, s1) → stack_nodup s1

/-- Two loaders that agree on every state whose stack is duplicate-free. -/
def agree_on_stack_nodup (ld ld1 : load_fn) : Prop :=
  ∀ b i s, stack_nodup s → ld b i s = ld1 b i s

/-- The loader `ld1` returns what `ld` returns wherever `ld` returns. -/
def load_extends (ld ld1 : load_fn) : Prop :=
  ∀ b i s r, ld b i s = Except.ok r → ld1 b i s = Except.ok r

/-! ## Properties that every write of the session state keeps -/

/-- A property of the session state that every write the linker makes keeps:
    a write of `err`, of `lib_path`, of `lib_loaded`, a file appended to
    `files` that was not in it, a push on the active stack of a file that was
    not on it, and a pop. -/
structure state_closed (P : linker → Prop) : Prop where
  err : ∀ s e, P s → P { s with err := e }
  lib_path : ∀ s p, P s → P { s with lib_path := p }
  lib_loaded : ∀ s, P s → P { s with lib_loaded := true }
  add_file : ∀ s f, f ∉ s.files → P s → P { s with files := s.files ++ [f] }
  push : ∀ s f, f ∉ s.module_load_stack → P s →
    P { s with module_load_stack := s.module_load_stack ++ [f] }
  pop : ∀ s, P s → P { s with module_load_stack := s.module_load_stack.dropLast }

/-- A loader that returns a state with `P` when given one. -/
def keeps (P : linker → Prop) (ld : load_fn) : Prop :=
  ∀ b i s t s1, P s → ld b i s = Except.ok (t, s1) → P s1

/-- Two loaders that agree on every state with `P`. -/
def agree_on (P : linker → Prop) (ld ld1 : load_fn) : Prop :=
  ∀ b i s, P s → ld b i s = ld1 b i s

/-! ## Parts of the functions by name, and further examples -/

/-- The name `find_file` retries with when it is called with `lib.nas` and
    finds no candidate: the operand of `is_windows()? ... : ...`. -/
def lib_retry_name (W : World) : String :=
  if W.is_windows then "std\\lib.nas" else "std/lib.nas"

/-- A world without Windows in which only the listed paths exist. -/
def world_with (paths : List String) : World :=
  { world_empty with access := fun p => paths.contains p }

/-- A fresh linker with the search path `envpath` and `show_path` set. -/
def linker_show_path (envpath : List String) : linker :=
  { linker_fresh envpath with show_path := true }

/-- The span `{0, 0, 0, 0, "a.nas"}`. -/
def loc_a : span := ⟨0, 0, 0, 0, "a.nas"⟩

/-- The member `hash_pair::get_name`. -/
def hash_pair.get_name : hash_pair → String
  | hash_pair.mk _ name _ => name

/-- The value of `split_position` in `generate_module_name` after both
    searches: the last `/`, or without one the last `\`. -/
def module_split_position (file_path : String) : Option Nat :=
  if string_find_last_of file_path "/" = none then string_find_last_of file_path "\\"
  else string_find_last_of file_path "/"

/-- The value of `module_name` in `generate_module_name`, the suffix being
    at `suffix_position`. -/
def module_name_at (file_path : String) (suffix_position : Nat) : String :=
  match module_split_position file_path with
  | none => string_substr file_path 0 suffix_position
  | some split_position =>
    string_substr file_path (split_position + 1)
      (usize_sub (usize_sub suffix_position split_position) 1)

/-- The warnings of the three checks that end `generate_module_name`, in
    their order. -/
def module_name_warnings (file_path module_name : String) : List diagnostic :=
  (if module_name.length = 0 then
    [{ level := severity.warning, stage := "link",
       info := "get empty module name from <" ++ file_path ++ ">, " ++
         "will not be easily accessed." }]
   else []) ++
  (if module_name.length ≠ 0 ∧ '0' ≤ module_name.data.headD ' '
      ∧ module_name.data.headD ' ' ≤ '9' then
    [{ level := severity.warning, stage := "link",
       info := "get module <" ++ module_name ++ "> from <" ++ file_path ++ ">, " ++
         "will not be easily accessed." }]
   else []) ++
  (if module_name.length ≠ 0 ∧ string_find module_name "." ≠ none then
    [{ level := severity.warning, stage := "link",
       info := "get module <" ++ module_name ++ "> from <" ++ file_path ++ ">, " ++
         "will not be easily accessed." }]
   else [])

/-- A loader that never ends the process. -/
def never_exits (ld : load_fn) : Prop :=
  ∀ b i s, ld b i s ≠ Except.error fault.process_exit

/-- A list of 65536 file names, all different, none of them `f.nas`. -/
def many_files : List String :=
  (List.range 65536).map (fun n => String.mk ('m' :: List.replicate n 'a'))

/-- The file `std/lib.nas` of the examples: `var print = 1;`. -/
def file_lib : List expr :=
  [var_definition ⟨1, 0, 1, 14, "std/lib.nas"⟩ "print" f64_one]

/-- A world without Windows that holds `std/lib.nas` and `b.nas`. -/
def world_lib : World := world_of [("std/lib.nas", some file_lib), ("b.nas", some file_b)]

/-- The entry file `import("missing.nas"); import("b.nas"); var x = 1;`. -/
def entry_missing_first : code_block :=
  code_block.mk ⟨1, 0, 3, 10, "a.nas"⟩
    [import_call ⟨1, 0, 1, 23, "a.nas"⟩ "missing.nas",
     import_call ⟨2, 0, 2, 17, "a.nas"⟩ "b.nas",
     var_definition ⟨3, 0, 3, 10, "a.nas"⟩ "x" f64_one]

/-- The nodes that the loop of `linker::load` hands to `delete`, in the
    order of the loop: `delete import_ast_node` is reached once in every round
    that passes `import_check`, and the loop ends at the first node that does
    not pass. -/
def load_deleted : List expr → List expr
  | [] => []
  | import_ast_node :: rest =>
    if ¬ import_check import_ast_node then []
    else import_ast_node :: load_deleted rest

/-- Loop of `std::string::find(c, pos)` for a character: the least position,
    counted from `i`, that holds `c`. -/
def string_find_char_loop (c : Char) : List Char → Nat → Option Nat
  | [], _ => none
  | d :: ds, i => if d = c then some i else string_find_char_loop c ds (i + 1)

/-- The call `s.find(c, pos)`; `none` is `std::string::npos`. -/
def string_find_char (s : String) (c : Char) (pos : Nat) : Option Nat :=
  string_find_char_loop c (s.data.drop pos) pos

/-- The call `s.substr(pos)` for `pos <= s.length()`: the characters from
    `pos` on. -/
def string_substr_from (s : String) (pos : Nat) : String :=
  ⟨s.data.drop pos⟩

/-- The `while` loop of the constructor `linker::linker`, entered with `last`,
    `pos` and `envpath`: the values of `last` and `envpath` when it ends.
    `fuel` bounds the rounds. -/
def linker_envpath_loop (PATH : String) (sep : Char) :
    Nat → Nat → Option Nat → List String → Except fault (Nat × List String)
  | _, last, none, envpath => Except.ok (last, envpath)
  | 0, _, some _, _ => Except.error fault.out_of_fuel
  | fuel + 1, last, some pos, envpath =>
    let dirpath := string_substr PATH last (usize_sub pos last)
    let envpath := if dirpath.length ≠ 0 then envpath ++ [dirpath] else envpath
    let last := (pos + 1) % usize_width
    linker_envpath_loop PATH sep fuel last (string_find_char PATH sep last) envpath

/-- The list `envpath` that the constructor `linker::linker` builds from the
    text `PATH` with the separator `sep`. -/
def linker_envpath (PATH : String) (sep : Char) (fuel : Nat) : Except fault (List String) :=
  match linker_envpath_loop PATH sep fuel 0 (string_find_char PATH sep 0) [] with
  | Except.error f => Except.error f
  | Except.ok (last, envpath) =>
    Except.ok (if last ≠ PATH.length then envpath ++ [string_substr_from PATH last]
      else envpath)

/-- The constructor `linker::linker`. `getenv_PATH` is what `getenv("PATH")`
    returns, `none` being the null pointer, from which no `std::string` can
    be built. -/
def linker_new (W : World) (getenv_PATH : Option String) (fuel : Nat) :
    Except fault linker :=
  let sep := if W.is_windows then ';' else ':'
  match getenv_PATH with
  | none => Except.error fault.undefined_behaviour
  | some PATH =>
    match linker_envpath PATH sep fuel with
    | Except.error f => Except.error f
    | Except.ok envpath =>
      Except.ok { show_path := false, lib_loaded := false, this_file := "", lib_path := "",
                  envpath := envpath, files := [], module_load_stack := [], err := [] }

/-- What the specification says of the search path: the segments of `PATH`
    between separators, in order, without the empty ones. -/
def spec_search_path (PATH : String) (sep : Char) : List String :=
  ((PATH.data.splitOn sep).filter (fun seg => decide (seg ≠ []))).map String.mk

/-- The `2 ^ n` lists of `n` binary digits, all different. -/
def bit_names : Nat → List (List Char)
  | 0 => [[]]
  | n + 1 => (bit_names n).map (fun l => '0' :: l) ++ (bit_names n).map (fun l => '1' :: l)

/-- The first `n` of the 65536 file names that are an `m` followed by 16
    binary digits, all different. -/
def module_names (n : Nat) : List String :=
  ((bit_names 16).take n).map (fun l => String.mk ('m' :: l))

/-- A world without Windows that holds `lib.nas`, `b.nas` and 65534 further
    files: `lib.nas` is one `import("...")` for each of the 65534 files, in
    their order, `b.nas` is `var y = 2;`, and the 65534 files hold no
    statement. No file has a lexical or a syntax error. -/
def world_many : World :=
  { is_windows := false
    access := fun path =>
      decide (path = "lib.nas" ∨ path = "b.nas" ∨ path ∈ module_names 65534)
    scan_geterr := fun _ => false
    compile_geterr := fun _ => false
    parse_result := fun path =>
      if path = "lib.nas" then
        code_block.mk ⟨0, 0, 0, 0, path⟩
          ((module_names 65534).map (import_call ⟨0, 0, 0, 0, "lib.nas"⟩))
      else if path = "b.nas" then code_block.mk ⟨0, 0, 0, 0, path⟩ file_b
      else code_block.mk ⟨0, 0, 0, 0, path⟩ []
    do_find := fun block => block.get_expressions.filterMap defined_symbol }

/-! # Properties -/

/-! ## Recognising an import statement -/

theorem call_get_type_callh (c : call) :
    c.get_type = expr_type.ast_callh ↔ ∃ l field, c = call.call_hash l field := by
  cases c <;> simp [call.get_type]

theorem expr_get_type_str (e : expr) :
    e.get_type = expr_type.ast_str ↔ ∃ str, e = expr.string_literal str := by
  cases e <;> simp [expr.get_type]
  case call c => cases c <;> simp [call.get_type]

theorem import_check_call_expr (loc idloc : span) (name : String) (calls : List call) :
    import_check (expr.call_expr
        (call_expr.mk loc (expr.identifier { nd_loc := idloc, name := name }) calls)) = true ↔
      name = "import" ∧
        ((calls ≠ [] ∧ ∀ c ∈ calls, ∃ l field, c = call.call_hash l field) ∨
         (∃ l str, calls = [call.call_function l [expr.string_literal str]])) := by
  by_cases hname : name = "import"
  · subst hname
    cases calls with
    | nil => simp [import_check, expr.get_type, call_expr.get_first, call_expr.get_calls]
    | cons c0 rest =>
      cases c0 with
      | call_hash l field =>
        simp [import_check, expr.get_type, call_expr.get_first, call_expr.get_calls,
          call_get_type_callh]
      | call_vector l sl =>
        simp [import_check, expr.get_type, call_expr.get_first, call_expr.get_calls,
          call.get_type]
      | call_function l args =>
        cases rest with
        | cons c1 rest1 =>
          simp [import_check, expr.get_type, call_expr.get_first, call_expr.get_calls,
            call.get_type]
        | nil =>
          cases args with
          | nil =>
            simp [import_check, expr.get_type, call_expr.get_first, call_expr.get_calls,
              call.get_type]
          | cons a0 args1 =>
            cases args1 with
            | cons a1 args2 =>
              simp [import_check, expr.get_type, call_expr.get_first, call_expr.get_calls,
                call.get_type]
            | nil =>
              cases a0 with
              | call c =>
                cases c <;>
                simp [import_check, expr.get_type, call_expr.get_first,
                  call_expr.get_calls, call.get_type]
              | _ =>
                simp [import_check, expr.get_type, call_expr.get_first,
                  call_expr.get_calls, call.get_type]
  · simp [import_check, expr.get_type, call_expr.get_first, call_expr.get_calls, hname]

theorem import_check_shape (node : expr) (h : import_check node = true) :
    ∃ loc idloc name calls, node = expr.call_expr
        (call_expr.mk loc (expr.identifier { nd_loc := idloc, name := name }) calls) := by
  cases node
  case call_expr c =>
    obtain ⟨loc, first, calls⟩ := c
    cases first
    case identifier id => exact ⟨loc, id.nd_loc, id.name, calls, rfl⟩
    all_goals simp [import_check, expr.get_type, call_expr.get_first] at h
  case call c => cases c <;> simp [import_check, expr.get_type, call.get_type] at h
  all_goals simp [import_check, expr.get_type] at h

theorem import_check_iff_forms (node : expr) :
    import_check node = true ↔
      ∃ loc idloc calls,
        node = expr.call_expr
          (call_expr.mk loc (expr.identifier { nd_loc := idloc, name := "import" }) calls) ∧
        ((calls ≠ [] ∧ ∀ c ∈ calls, ∃ l field, c = call.call_hash l field) ∨
         (∃ l str, calls = [call.call_function l [expr.string_literal str]])) := by
  constructor
  · intro h
    obtain ⟨loc, idloc, name, calls, rfl⟩ := import_check_shape node h
    obtain ⟨hn, hc⟩ := (import_check_call_expr loc idloc name calls).1 h
    subst hn
    exact ⟨loc, idloc, calls, rfl, hc⟩
  · rintro ⟨loc, idloc, calls, rfl, hc⟩
    exact (import_check_call_expr loc idloc "import" calls).2 ⟨rfl, hc⟩

/-- C1: `import_check` accepts a node exactly when it is a call chain whose
    primary is the identifier `import` and whose postfix list is either
    non-empty and made of field accesses only, or one invocation with one
    string literal as its only argument. Rejected in particular: `import`
    without postfix, `import("a","b")`, `import(x)`, `import("a").b` and
    `import.a("b")`. -/
theorem import_check_accepts_exactly (node : expr) (l : span) (x : String) :
    (import_check node = true ↔
      ∃ loc idloc calls,
        node = expr.call_expr
          (call_expr.mk loc (expr.identifier { nd_loc := idloc, name := "import" }) calls) ∧
        ((calls ≠ [] ∧ ∀ c ∈ calls, ∃ l field, c = call.call_hash l field) ∨
         (∃ l str, calls = [call.call_function l [expr.string_literal str]]))) ∧
    import_check (expr.call_expr (call_expr.mk l
      (expr.identifier { nd_loc := l, name := "import" }) [])) = false ∧
    import_check (expr.call_expr (call_expr.mk l
      (expr.identifier { nd_loc := l, name := "import" })
      [call.call_function l [expr.string_literal { nd_loc := l, content := "a" },
        expr.string_literal { nd_loc := l, content := "b" }]])) = false ∧
    import_check (expr.call_expr (call_expr.mk l
      (expr.identifier { nd_loc := l, name := "import" })
      [call.call_function l [expr.identifier { nd_loc := l, name := x }]])) = false ∧
    import_check (expr.call_expr (call_expr.mk l
      (expr.identifier { nd_loc := l, name := "import" })
      [call.call_function l [expr.string_literal { nd_loc := l, content := "a" }],
        call.call_hash l "b"])) = false ∧
    import_check (expr.call_expr (call_expr.mk l
      (expr.identifier { nd_loc := l, name := "import" })
      [call.call_hash l "a",
        call.call_function l [expr.string_literal { nd_loc := l, content := "b" }]])) = false := by
  refine ⟨import_check_iff_forms node, ?_, ?_, ?_, ?_, ?_⟩ <;>
    simp [import_check, expr.get_type, call_expr.get_first, call_expr.get_calls,
      call.get_type]

/-! ## The path of an import statement -/

theorem string_join_cons (a : String) (l : List String) :
    String.join (a :: l) = a ++ String.join l := by
  have h : ∀ (l : List String) (acc : String),
      List.foldl (fun r s => r ++ s) acc l = acc ++ List.foldl (fun r s => r ++ s) "" l := by
    intro l
    induction l with
    | nil => intro acc; simp
    | cons b l ih =>
      intro acc
      simp only [List.foldl_cons]
      rw [ih (acc ++ b), ih ("" ++ b)]
      simp [String.append_assoc]
  simp only [String.join, List.foldl_cons]
  rw [h l ("" ++ a)]
  simp

theorem foldl_append_eq_join (g : String → String) (l : List String) (acc : String) :
    List.foldl (fun res i => res ++ g i) acc l = acc ++ String.join (l.map g) := by
  induction l generalizing acc with
  | nil => simp [String.join]
  | cons a l ih =>
    simp only [List.foldl_cons, List.map_cons, string_join_cons]
    rw [ih]
    simp [String.append_assoc]

theorem get_path_loop_fields (W : World) (fields : List (span × String)) (fpath : String) :
    get_path_loop W (fields.map (fun p => call.call_hash p.1 p.2)) fpath =
      some (fpath ++ String.join (fields.map (fun p => W.sep ++ p.2))) := by
  induction fields generalizing fpath with
  | nil => simp [get_path_loop, String.join]
  | cons p fields ih =>
    simp only [List.map_cons, get_path_loop, call.as_call_hash_field, string_join_cons]
    rw [ih]
    simp [String.append_assoc]

theorem all_call_hash_fields (calls : List call)
    (h : ∀ c ∈ calls, ∃ l field, c = call.call_hash l field) :
    ∃ fields : List (span × String), calls = fields.map (fun p => call.call_hash p.1 p.2) := by
  induction calls with
  | nil => exact ⟨[], rfl⟩
  | cons c calls ih =>
    obtain ⟨l, field, rfl⟩ := h c (List.mem_cons_self _ _)
    obtain ⟨fields, rfl⟩ := ih (fun c hc => h c (List.mem_cons_of_mem _ hc))
    exact ⟨(l, field) :: fields, rfl⟩

theorem get_path_dotted (W : World) (loc : span) (first : expr)
    (fields : List (span × String)) (hne : fields ≠ []) :
    get_path W (call_expr.mk loc first (fields.map (fun p => call.call_hash p.1 p.2))) =
      some ("." ++ String.join (fields.map (fun p => W.sep ++ p.2)) ++ ".nas") := by
  cases fields with
  | nil => exact absurd rfl hne
  | cons p fields =>
    have h := get_path_loop_fields W (p :: fields) "."
    simp only [List.map_cons] at h
    simp only [get_path, call_expr.get_calls, List.map_cons, call.get_type, h]
    simp

theorem get_path_call (W : World) (loc l : span) (first : expr) (str : string_literal) :
    get_path W (call_expr.mk loc first [call.call_function l [expr.string_literal str]]) =
      some str.content := by
  simp [get_path, call_expr.get_calls, call.get_type]

/-- C2: for a node that `import_check` accepts, `get_path` is defined and
    yields, for the dotted form with the fields `f1 .. fn`, `n >= 1`, the text
    `.` followed by separator and `fi` for each field in order and then
    `.nas`; for the call form the content of the string literal, unchanged.
    Without Windows `import.std.lib` gives `./std/lib.nas`. -/
theorem get_path_of_import (W : World) (node : call_expr) (l : span)
    (h : import_check (expr.call_expr node) = true) :
    ((∃ fields : List (span × String), fields ≠ [] ∧
        node.get_calls = fields.map (fun p => call.call_hash p.1 p.2) ∧
        get_path W node =
          some ("." ++ String.join (fields.map (fun p => W.sep ++ p.2)) ++ ".nas")) ∨
     (∃ loc str, node.get_calls = [call.call_function loc [expr.string_literal str]] ∧
        get_path W node = some str.content)) ∧
    get_path { W with is_windows := false } (call_expr.mk l
      (expr.identifier { nd_loc := l, name := "import" })
      [call.call_hash l "std", call.call_hash l "lib"]) = some "./std/lib.nas" := by
  refine ⟨?_, ?_⟩
  · obtain ⟨loc, first, calls⟩ := node
    obtain ⟨loc1, idloc, calls1, heq, hc⟩ := (import_check_iff_forms _).1 h
    injection heq with heq
    injection heq with h1 h2 h3
    subst h1 h2 h3
    rcases hc with ⟨hne, hall⟩ | ⟨l1, str, rfl⟩
    · obtain ⟨fields, rfl⟩ := all_call_hash_fields calls hall
      have hf : fields ≠ [] := by
        intro hnil
        exact hne (by simp [hnil])
      exact Or.inl ⟨fields, hf, rfl, get_path_dotted W loc _ fields hf⟩
    · exact Or.inr ⟨l1, str, rfl, get_path_call W loc l1 _ str⟩
  · have h := get_path_dotted { W with is_windows := false } l
      (expr.identifier { nd_loc := l, name := "import" }) [(l, "std"), (l, "lib")]
      (by simp)
    simpa [World.sep, string_join_cons, String.join] using h

/-- Witness of C2 on `import("b.nas")`. -/
theorem get_path_of_import_witness :
    import_check (expr.call_expr (call_expr.mk ⟨1, 0, 1, 15, "a.nas"⟩
        (expr.identifier { nd_loc := ⟨1, 0, 1, 6, "a.nas"⟩, name := "import" })
        [call.call_function ⟨1, 6, 1, 15, "a.nas"⟩
          [expr.string_literal { nd_loc := ⟨1, 7, 1, 14, "a.nas"⟩, content := "b.nas" }]]))
      = true ∧
    get_path ⟨false, fun _ => false, fun _ => false, fun _ => false,
        fun f => code_block.mk ⟨0, 0, 0, 0, f⟩ [], fun _ => []⟩
      (call_expr.mk ⟨1, 0, 1, 15, "a.nas"⟩
        (expr.identifier { nd_loc := ⟨1, 0, 1, 6, "a.nas"⟩, name := "import" })
        [call.call_function ⟨1, 6, 1, 15, "a.nas"⟩
          [expr.string_literal { nd_loc := ⟨1, 7, 1, 14, "a.nas"⟩, content := "b.nas" }]])
      = some "b.nas" :=
  ⟨by decide, by
    have h := (get_path_of_import ⟨false, fun _ => false, fun _ => false, fun _ => false,
        fun f => code_block.mk ⟨0, 0, 0, 0, f⟩ [], fun _ => []⟩
      (call_expr.mk ⟨1, 0, 1, 15, "a.nas"⟩
        (expr.identifier { nd_loc := ⟨1, 0, 1, 6, "a.nas"⟩, name := "import" })
        [call.call_function ⟨1, 6, 1, 15, "a.nas"⟩
          [expr.string_literal { nd_loc := ⟨1, 7, 1, 14, "a.nas"⟩, content := "b.nas" }]])
      ⟨0, 0, 0, 0, ""⟩ (by decide)).1
    rcases h with ⟨fields, _, hc, _⟩ | ⟨loc, str, hc, hp⟩
    · cases fields <;> simp [call_expr.get_calls] at hc
    · simp only [call_expr.get_calls, List.cons.injEq, call.call_function.injEq,
        expr.string_literal.injEq, and_true] at hc
      rw [hp, ← hc.2]⟩

/-! ## The chain reported for a cycle -/

theorem generate_self_import_path_eq (s : linker) (filename : String) :
    generate_self_import_path s filename =
      String.join (s.module_load_stack.map (fun i => "[" ++ i ++ "] -> ")) ++
        "[" ++ filename ++ "]" := by
  simp only [generate_self_import_path]
  rw [foldl_append_eq_join (fun i => "[" ++ i ++ "] -> ")]
  simp [String.append_assoc]

/-- C8: `generate_self_import_path` of `f` is every entry of the active
    stack, in the order pushed, between brackets and followed by ` -> `, then
    `f` between brackets: `[a] -> [b] -> [a]` for the stack `a, b` and `a`,
    and `[f]` for the empty stack. -/
theorem generate_self_import_path_chain (s : linker) (f a b : String) :
    generate_self_import_path s f =
      String.join (s.module_load_stack.map (fun i => "[" ++ i ++ "] -> ")) ++
        "[" ++ f ++ "]" ∧
    generate_self_import_path { s with module_load_stack := [a, b] } a =
      "[" ++ a ++ "] -> " ++ "[" ++ b ++ "] -> " ++ "[" ++ a ++ "]" ∧
    generate_self_import_path { s with module_load_stack := ["a", "b"] } "a" =
      "[a] -> [b] -> [a]" ∧
    generate_self_import_path { s with module_load_stack := [] } f = "[" ++ f ++ "]" := by
  refine ⟨generate_self_import_path_eq s f, ?_, ?_, ?_⟩
  · simp only [generate_self_import_path, List.foldl_cons, List.foldl_nil,
      String.append_assoc, String.empty_append]
  · simp [generate_self_import_path]
  · simp [generate_self_import_path]

/-! ## Resolving a file name -/

theorem find_file_once_inner (W : World) (g : String → span → linker → String × linker)
    (filename : String) (location : span) (s : linker) (h : filename ≠ "lib.nas") :
    find_file_once W g filename location s =
      find_file_once W (fun _ _ s => ("", s)) filename location s := by
  simp only [find_file_once, h, if_false]

theorem find_file_once_congr (W : World)
    (g g1 : String → span → linker → String × linker)
    (filename : String) (location : span) (s : linker)
    (h1 : g "std\\lib.nas" location s = g1 "std\\lib.nas" location s)
    (h2 : g "std/lib.nas" location s = g1 "std/lib.nas" location s) :
    find_file_once W g filename location s = find_file_once W g1 filename location s := by
  simp only [find_file_once, h1, h2]

/-- The stub that ends the unrolled recursion of `find_file` is never reached. -/
theorem find_file_stub_irrelevant (W : World)
    (g : String → span → linker → String × linker)
    (filename : String) (location : span) (s : linker) :
    find_file_once W (find_file_once W g) filename location s =
      find_file W filename location s :=
  find_file_once_congr W _ _ filename location s
    (find_file_once_inner W g _ location s (by decide))
    (find_file_once_inner W g _ location s (by decide))

/-- The function `find_file` solves the recursive equation of the source. -/
theorem find_file_unfold (W : World) (filename : String) (location : span) (s : linker) :
    find_file W filename location s =
      find_file_once W (find_file W) filename location s := by
  have h := find_file_stub_irrelevant W (find_file_once W (fun _ _ s => ("", s)))
    filename location s
  rw [← h]
  rfl




theorem find_file_once_some (W : World)
    (g : String → span → linker → String × linker)
    (filename : String) (location : span) (s : linker) (i : String)
    (h : List.find? (fun i => W.access i) (find_file_fpath W s filename) = some i) :
    find_file_once W g filename location s = (i, s) := by
  simp only [find_file_once, h]

theorem find_file_once_none_lib (W : World)
    (g : String → span → linker → String × linker)
    (location : span) (s : linker)
    (h : List.find? (fun i => W.access i) (find_file_fpath W s "lib.nas") = none) :
    find_file_once W g "lib.nas" location s =
      g (if W.is_windows then "std\\lib.nas" else "std/lib.nas") location s := by
  simp only [find_file_once, h, if_true]
  split_ifs <;> rfl

theorem find_file_once_none_other (W : World)
    (g : String → span → linker → String × linker)
    (filename : String) (location : span) (s : linker)
    (h : List.find? (fun i => W.access i) (find_file_fpath W s filename) = none)
    (hn : filename ≠ "lib.nas") :
    ∃ e, find_file_once W g filename location s = ("", { s with err := e }) := by
  simp only [find_file_once, h, hn, if_false]
  split_ifs
  · exact ⟨_, rfl⟩
  · exact ⟨_, rfl⟩

theorem find_file_once_frame (W : World)
    (g : String → span → linker → String × linker)
    (hg : ∀ f l s, ∃ e, (g f l s).2 = { s with err := e })
    (filename : String) (location : span) (s : linker) :
    ∃ e, (find_file_once W g filename location s).2 = { s with err := e } := by
  cases h : List.find? (fun i => W.access i) (find_file_fpath W s filename) with
  | some i => rw [find_file_once_some W g filename location s i h]; exact ⟨s.err, rfl⟩
  | none =>
    by_cases hn : filename = "lib.nas"
    · subst hn
      rw [find_file_once_none_lib W g location s h]
      exact hg _ _ _
    · obtain ⟨e, he⟩ := find_file_once_none_other W g filename location s h hn
      rw [he]; exact ⟨e, rfl⟩

theorem find_file_frame (W : World) (filename : String) (location : span) (s : linker) :
    ∃ e, (find_file W filename location s).2 = { s with err := e } :=
  find_file_once_frame W _
    (find_file_once_frame W _ (fun _ _ s => ⟨s.err, rfl⟩)) filename location s

theorem find_file_once_found (W : World)
    (g : String → span → linker → String × linker)
    (hg : ∀ f l s, (g f l s).1.length ≠ 0 →
      W.access (g f l s).1 = true ∧ (g f l s).2 = s)
    (filename : String) (location : span) (s : linker)
    (h : (find_file_once W g filename location s).1.length ≠ 0) :
    W.access (find_file_once W g filename location s).1 = true ∧
      (find_file_once W g filename location s).2 = s := by
  cases hf : List.find? (fun i => W.access i) (find_file_fpath W s filename) with
  | some i =>
    rw [find_file_once_some W g filename location s i hf]
    exact ⟨by simpa using List.find?_some hf, rfl⟩
  | none =>
    by_cases hn : filename = "lib.nas"
    · subst hn
      rw [find_file_once_none_lib W g location s hf] at h ⊢
      exact hg _ _ _ h
    · obtain ⟨e, he⟩ := find_file_once_none_other W g filename location s hf hn
      rw [he] at h
      exact absurd rfl h

theorem find_file_found (W : World) (filename : String) (location : span) (s : linker)
    (h : (find_file W filename location s).1.length ≠ 0) :
    W.access (find_file W filename location s).1 = true ∧
      (find_file W filename location s).2 = s :=
  find_file_once_found W _
    (find_file_once_found W _ (fun _ _ _ h => absurd rfl h)) filename location s h

theorem find_file_once_fst_congr (W : World)
    (g : String → span → linker → String × linker)
    (hg : ∀ f l l1 (s s1 : linker), s.envpath = s1.envpath → (g f l s).1 = (g f l1 s1).1)
    (filename : String) (location location1 : span) (s s1 : linker)
    (h : s.envpath = s1.envpath) :
    (find_file_once W g filename location s).1 =
      (find_file_once W g filename location1 s1).1 := by
  have hfp : find_file_fpath W s filename = find_file_fpath W s1 filename := by
    simp [find_file_fpath, h]
  cases hf : List.find? (fun i => W.access i) (find_file_fpath W s filename) with
  | some i =>
    rw [find_file_once_some W g filename location s i hf,
      find_file_once_some W g filename location1 s1 i (hfp ▸ hf)]
  | none =>
    by_cases hn : filename = "lib.nas"
    · subst hn
      rw [find_file_once_none_lib W g location s hf,
        find_file_once_none_lib W g location1 s1 (hfp ▸ hf)]
      exact hg _ _ _ _ _ h
    · obtain ⟨e, he⟩ := find_file_once_none_other W g filename location s hf hn
      obtain ⟨e1, he1⟩ := find_file_once_none_other W g filename location1 s1 (hfp ▸ hf) hn
      rw [he, he1]

theorem find_file_fst_congr (W : World) (filename : String) (location location1 : span)
    (s s1 : linker) (h : s.envpath = s1.envpath) :
    (find_file W filename location s).1 = (find_file W filename location1 s1).1 :=
  find_file_once_fst_congr W (find_file_once W (fun _ _ s => ("", s)))
    (fun f l l1 s s1 h1 =>
      find_file_once_fst_congr W (fun _ _ s => ("", s)) (fun _ _ _ _ _ _ => rfl) f l l1 s s1 h1)
    filename location location1 s s1 h

theorem check_self_import_iff (s : linker) (file : String) :
    check_self_import s file = true ↔ file ∈ s.module_load_stack := by
  simp [check_self_import, List.any_eq_true]

theorem import_regular_file_on_stack (W : World) (load : load_fn) (node : call_expr)
    (s : linker) (path : String)
    (hpath : get_path W node = some path)
    (hres : (find_file W path node.get_location s).1.length ≠ 0)
    (hon : (find_file W path node.get_location s).1 ∈ s.module_load_stack) :
    import_regular_file W load node s =
      Except.ok (code_block.mk ⟨0, 0, 0, 0, (find_file W path node.get_location s).1⟩ [],
        { s with err := s.err ++ [{
            level := severity.fatal, stage := "link",
            info := "self-referenced module <" ++
              (find_file W path node.get_location s).1 ++ ">:\n" ++
              "    reference path: " ++
              generate_self_import_path s (find_file W path node.get_location s).1 }] }) := by
  obtain ⟨_, hs⟩ := find_file_found W path node.get_location s hres
  have hc : check_self_import (find_file W path node.get_location s).2
      (find_file W path node.get_location s).1 = true := by
    rw [hs]; exact (check_self_import_iff _ _).2 hon
  simp only [import_regular_file, hpath]
  simp only [hres, if_false, hc, if_true]
  rw [hs]
  rfl

/-! ## The loop of `load` -/

theorem foldl_add_expression (l : span) (es xs : List expr) :
    List.foldl (fun root i => code_block.add_expression root i) (code_block.mk l es) xs =
      code_block.mk l (es ++ xs) := by
  induction xs generalizing es with
  | nil => simp
  | cons x xs ih =>
    simp only [List.foldl_cons]
    rw [show (code_block.mk l es).add_expression x = code_block.mk l (es ++ [x]) from rfl, ih]
    simp

theorem link_block_fst (new_tree_root old_tree_root : code_block) :
    (link_block new_tree_root old_tree_root).1 =
      code_block.mk new_tree_root.get_location
        (new_tree_root.get_expressions ++ old_tree_root.get_expressions) := by
  obtain ⟨l, es⟩ := new_tree_root
  simp [link_block, foldl_add_expression, code_block.get_location, code_block.get_expressions]

theorem load_eq_load_body (W : World) (fuel : Nat) :
    load W fuel = load_body W (load_nested W fuel) := by
  cases fuel <;> rfl

theorem load_imports_eq (W : World) (load : load_fn) (stmts : List expr)
    (tree : code_block) (s : linker) :
    load_imports W load stmts tree s =
      match import_each W load (stmts.takeWhile import_check) s with
      | Except.error f => Except.error f
      | Except.ok (definitions, s1) =>
        Except.ok ((stmts.takeWhile import_check).map import_placeholder ++
            stmts.dropWhile import_check,
          code_block.mk tree.get_location (tree.get_expressions ++ definitions), s1) := by
  induction stmts generalizing tree s with
  | nil =>
    obtain ⟨l, es⟩ := tree
    simp [load_imports, import_each, code_block.get_location, code_block.get_expressions]
  | cons e rest ih =>
    by_cases hc : import_check e = true
    · obtain ⟨loc, idloc, name, calls, rfl⟩ := import_check_shape e hc
      simp only [load_imports, hc, List.takeWhile_cons, List.dropWhile_cons, if_true,
        import_each, not_true_eq_false, if_false]
      cases hi : import_regular_file W load
          (call_expr.mk loc (expr.identifier { nd_loc := idloc, name := name }) calls) s with
      | error f => rfl
      | ok r =>
        obtain ⟨blk, s1⟩ := r
        simp only []
        rw [ih]
        cases hr : import_each W load (List.takeWhile import_check rest)
            (generate_module_definition W blk s1).2 with
        | error f => rfl
        | ok r2 =>
          obtain ⟨defs, s2⟩ := r2
          obtain ⟨l, es⟩ := tree
          simp [code_block.add_expression, code_block.get_location,
            code_block.get_expressions, import_placeholder]
    · obtain ⟨l, es⟩ := tree
      simp [load_imports, hc, List.takeWhile_cons, List.dropWhile_cons, import_each,
        code_block.get_location, code_block.get_expressions]

theorem import_each_length (W : World) (load : load_fn) (stmts : List expr) (s : linker)
    (definitions : List expr) (s1 : linker)
    (h : import_each W load stmts s = Except.ok (definitions, s1)) :
    definitions.length = stmts.length := by
  induction stmts generalizing s definitions s1 with
  | nil => simp [import_each] at h; simp [h.1.symm]
  | cons e rest ih =>
    cases e with
    | call_expr node =>
      simp only [import_each] at h
      cases hi : import_regular_file W load node s with
      | error f => simp [hi] at h
      | ok r =>
        obtain ⟨blk, s2⟩ := r
        simp only [hi] at h
        cases hr : import_each W load rest (generate_module_definition W blk s2).2 with
        | error f => simp [hr] at h
        | ok r2 =>
          obtain ⟨defs, s3⟩ := r2
          simp only [hr, Except.ok.injEq, Prod.mk.injEq] at h
          rw [← h.1]
          simp [ih _ _ _ hr]
    | _ => simp [import_each] at h

theorem load_library_loaded (W : World) (load : load_fn) (tree : code_block) (s : linker)
    (h : s.lib_loaded = true) : load_library W load tree s = Except.ok (tree, s) := by
  simp [load_library, h]

theorem load_library_not_loaded (W : World) (load : load_fn) (tree : code_block)
    (s : linker) (h : s.lib_loaded = false) :
    load_library W load tree s =
      match import_nasal_lib W load s with
      | Except.error f => Except.error f
      | Except.ok (nasal_lib_code_block, s) =>
        Except.ok ((link_block tree nasal_lib_code_block).1, { s with lib_loaded := true }) := by
  simp only [load_library, h, Bool.false_eq_true, not_false_eq_true, if_true]

theorem load_library_location (W : World) (load : load_fn) (tree libtree : code_block)
    (s s1 : linker) (h : load_library W load tree s = Except.ok (libtree, s1)) :
    libtree.get_location = tree.get_location := by
  cases hl : s.lib_loaded with
  | true =>
    rw [load_library_loaded W load tree s hl] at h
    simp only [Except.ok.injEq, Prod.mk.injEq] at h
    rw [h.1]
  | false =>
    rw [load_library_not_loaded W load tree s hl] at h
    cases hi : import_nasal_lib W load s with
    | error f => simp [hi] at h
    | ok r =>
      obtain ⟨blk, s2⟩ := r
      simp only [hi, Except.ok.injEq, Prod.mk.injEq] at h
      rw [← h.1, link_block_fst]
      rfl

/-- What `load_body` returns, in terms of the split of the statements into
    the leading imports and the rest. -/
theorem load_body_ok (W : World) (load : load_fn) (program_root : code_block)
    (fileindex : Nat) (s : linker) (tree : code_block) (s1 : linker)
    (h : load_body W load program_root fileindex s = Except.ok (tree, s1)) :
    ∃ file libtree s0 definitions,
      s.files[fileindex]? = some file ∧
      load_library W load (code_block.mk ⟨0, 0, 0, 0, file⟩ []) s = Except.ok (libtree, s0) ∧
      import_each W load (program_root.get_expressions.takeWhile import_check) s0 =
        Except.ok (definitions, s1) ∧
      tree = code_block.mk ⟨0, 0, 0, 0, file⟩
        (libtree.get_expressions ++ definitions ++
          ((program_root.get_expressions.takeWhile import_check).map import_placeholder ++
            program_root.get_expressions.dropWhile import_check)) := by
  unfold load_body at h
  cases hf : s.files[fileindex]? with
  | none => simp [hf] at h
  | some file =>
    simp only [hf] at h
    cases hl : load_library W load (code_block.mk ⟨0, 0, 0, 0, file⟩ []) s with
    | error f => simp [hl] at h
    | ok r =>
      obtain ⟨libtree, s0⟩ := r
      simp only [hl] at h
      rw [load_imports_eq] at h
      cases hi : import_each W load
          (program_root.get_expressions.takeWhile import_check) s0 with
      | error f => simp [hi] at h
      | ok r2 =>
        obtain ⟨defs, s2⟩ := r2
        simp only [hi, Except.ok.injEq, Prod.mk.injEq] at h
        refine ⟨file, libtree, s0, defs, rfl, hl, ?_, ?_⟩
        · rw [hi, h.2]
        · rw [← h.1, link_block_fst]
          have hloc := load_library_location W load _ _ _ _ hl
          simp only [code_block.get_location, code_block.get_expressions] at hloc ⊢
          rw [hloc, List.append_assoc]

theorem takeWhile_dropWhile_split (p : expr → Bool) (l : List expr) :
    l = l.takeWhile p ++ l.dropWhile p ∧
    (∀ e ∈ l.takeWhile p, p e = true) ∧
    (∀ e, (l.dropWhile p).head? = some e → p e = false) := by
  refine ⟨(List.takeWhile_append_dropWhile p l).symm, fun e he => List.mem_takeWhile_imp he, ?_⟩
  intro e he
  have := List.head?_dropWhile_not p l
  rw [he] at this
  simpa using this

/-! ## The order of the linked tree -/

/-- C3: `load` hands exactly the longest leading run of statements that pass
    `import_check` to `import_regular_file`, one call and one wrapper each, in
    source order; from the first statement that is no import on, every
    statement, a later import included, is the tail of the new tree,
    unchanged and in order. -/
theorem load_processes_leading_imports (W : World) (fuel : Nat) (program_root : code_block)
    (fileindex : Nat) (s : linker) (tree : code_block) (s1 : linker)
    (h : load W fuel program_root fileindex s = Except.ok (tree, s1)) :
    ∃ (leading rest : List expr) (file : String) (libtree : code_block) (s0 : linker)
        (definitions : List expr),
      program_root.get_expressions = leading ++ rest ∧
      (∀ e ∈ leading, import_check e = true) ∧
      (∀ e, rest.head? = some e → import_check e = false) ∧
      load_library W (load_nested W fuel) (code_block.mk ⟨0, 0, 0, 0, file⟩ []) s =
        Except.ok (libtree, s0) ∧
      import_each W (load_nested W fuel) leading s0 = Except.ok (definitions, s1) ∧
      definitions.length = leading.length ∧
      tree.get_expressions =
        libtree.get_expressions ++ definitions ++
          (leading.map import_placeholder ++ rest) := by
  rw [load_eq_load_body] at h
  obtain ⟨file, libtree, s0, defs, _, hl, hi, ht⟩ := load_body_ok W _ _ _ _ _ _ h
  obtain ⟨h1, h2, h3⟩ := takeWhile_dropWhile_split import_check program_root.get_expressions
  subst ht
  exact ⟨_, _, file, libtree, s0, defs, h1, h2, h3, hl, hi,
    import_each_length W _ _ _ _ _ hi, rfl⟩

set_option maxRecDepth 100000 in
/-- Witness of C3 on `import("b.nas"); var x = 1; import("b.nas");`. -/
theorem load_processes_leading_imports_witness :
    ∃ tree s1,
      load world_b 1 entry_late_import 0 (link_init (linker_fresh []) "a.nas" false) =
        Except.ok (tree, s1) ∧
      ∃ (leading rest : List expr) (file : String) (libtree : code_block) (s0 : linker)
          (definitions : List expr),
        entry_late_import.get_expressions = leading ++ rest ∧
        (∀ e ∈ leading, import_check e = true) ∧
        (∀ e, rest.head? = some e → import_check e = false) ∧
        load_library world_b (load_nested world_b 1) (code_block.mk ⟨0, 0, 0, 0, file⟩ [])
          (link_init (linker_fresh []) "a.nas" false) = Except.ok (libtree, s0) ∧
        import_each world_b (load_nested world_b 1) leading s0 =
          Except.ok (definitions, s1) ∧
        definitions.length = leading.length ∧
        tree.get_expressions =
          libtree.get_expressions ++ definitions ++
            (leading.map import_placeholder ++ rest) :=
  ⟨_, _, rfl, load_processes_leading_imports world_b 1 entry_late_import 0
    (link_init (linker_fresh []) "a.nas" false) _ _ rfl⟩

/-- C4, amended: after `link` on a linker whose library is not loaded yet
    the statements of the new root are, in this order: those of the block
    `import_nasal_lib` returns, then one module wrapper per leading import
    statement of the entry block, in their order and whether or not the import
    resolved, then the statements of the entry block with each leading import
    replaced by its placeholder. -/
theorem link_root_order (W : World) (fuel : Nat) (s : linker) (program_root : code_block)
    (self : String) (spath : Bool) (tree : code_block) (s1 : linker)
    (hfresh : s.lib_loaded = false)
    (h : link W fuel s program_root self spath = Except.ok (tree, s1)) :
    ∃ (lib : code_block) (s0 : linker) (leading rest wrappers : List expr),
      import_nasal_lib W (load_nested W fuel) (link_init s self spath) = Except.ok (lib, s0) ∧
      program_root.get_expressions = leading ++ rest ∧
      (∀ e ∈ leading, import_check e = true) ∧
      (∀ e, rest.head? = some e → import_check e = false) ∧
      import_each W (load_nested W fuel) leading { s0 with lib_loaded := true } =
        Except.ok (wrappers, s1) ∧
      wrappers.length = leading.length ∧
      tree.get_expressions =
        lib.get_expressions ++ wrappers ++ (leading.map import_placeholder ++ rest) := by
  unfold link at h
  rw [load_eq_load_body] at h
  obtain ⟨file, libtree, s0, defs, _, hl, hi, ht⟩ := load_body_ok W _ _ _ _ _ _ h
  obtain ⟨h1, h2, h3⟩ := takeWhile_dropWhile_split import_check program_root.get_expressions
  have hlen := import_each_length W _ _ _ _ _ hi
  rw [load_library_not_loaded _ _ _ _ (by simpa [link_init] using hfresh)] at hl
  cases hlib : import_nasal_lib W (load_nested W fuel) (link_init s self spath) with
  | error f => simp [hlib] at hl
  | ok r =>
    obtain ⟨lib, s2⟩ := r
    simp only [hlib, Except.ok.injEq, Prod.mk.injEq] at hl
    refine ⟨lib, s2, _, _, defs, rfl, h1, h2, h3, ?_, hlen, ?_⟩
    · rw [hl.2]; exact hi
    · rw [ht, ← hl.1, link_block_fst]
      simp [code_block.get_expressions]

set_option maxRecDepth 100000 in
/-- Witness of C4 on scenario 1. -/
theorem link_root_order_witness :
    (linker_fresh []).lib_loaded = false ∧
    ∃ tree s1,
      link world_b 1 (linker_fresh []) entry_a "a.nas" false = Except.ok (tree, s1) ∧
      ∃ (lib : code_block) (s0 : linker) (leading rest wrappers : List expr),
        import_nasal_lib world_b (load_nested world_b 1)
          (link_init (linker_fresh []) "a.nas" false) = Except.ok (lib, s0) ∧
        entry_a.get_expressions = leading ++ rest ∧
        (∀ e ∈ leading, import_check e = true) ∧
        (∀ e, rest.head? = some e → import_check e = false) ∧
        import_each world_b (load_nested world_b 1) leading { s0 with lib_loaded := true } =
          Except.ok (wrappers, s1) ∧
        wrappers.length = leading.length ∧
        tree.get_expressions =
          lib.get_expressions ++ wrappers ++ (leading.map import_placeholder ++ rest) :=
  ⟨rfl, _, _, rfl, link_root_order world_b 1 (linker_fresh []) entry_a "a.nas" false _ _
    rfl rfl⟩

/-- C4 fails as stated: with no file on disk and the entry file
    `import("b.nas");` the library block has no statement, the one leading import
    does not resolve and no statement follows it, so the claim leaves the new
    root empty; yet the new root holds two statements, a wrapper named
    `module@[]` around an empty module and the placeholder left for the
    statement. -/
theorem link_root_order_counterexample :
    (import_nasal_lib world_empty (load_nested world_empty 1)
      (link_init (linker_fresh []) "a.nas" false)).toOption.map
        (fun r => r.1.get_expressions.length) = some 0 ∧
    (entry_single.get_expressions.takeWhile import_check).length = 1 ∧
    get_path world_empty node_import_b = some "b.nas" ∧
    (find_file world_empty "b.nas" node_import_b.get_location
      (link_init (linker_fresh []) "a.nas" false)).1 = "" ∧
    (entry_single.get_expressions.dropWhile import_check).length = 0 ∧
    (link world_empty 1 (linker_fresh []) entry_single "a.nas" false).toOption.map
        (fun r => r.1.get_expressions.map wrapper_summary) =
      some [some ("module@[]", [expr_type.ast_ret]), none] ∧
    (link world_empty 1 (linker_fresh []) entry_single "a.nas" false).toOption.map
        (fun r => r.1.get_expressions.map expr.get_type) =
      some [expr_type.ast_def, expr_type.ast_null] := by
  refine ⟨?_, ?_, ?_, ?_, ?_, ?_, ?_⟩ <;> decide!

/-- C5, the code at the failing input `import("b.nas"); import("b.nas");`:
    the new root holds two wrappers that bind `b`, each around the statement
    of `b.nas` and its `return`, and then the two placeholders; `b.nas` is in
    `files` once. -/
theorem link_imports_file_twice :
    (link world_b 1 (linker_fresh []) entry_twice "a.nas" false).toOption.map
        (fun r => (r.1.get_expressions.map wrapper_summary, r.2.files)) =
      some ([some ("b", [expr_type.ast_def, expr_type.ast_ret]),
             some ("b", [expr_type.ast_def, expr_type.ast_ret]), none, none],
            ["a.nas", "b.nas"]) := by
  decide!

/-- C6, the code at the failing input: `import("bad.nas");` where the lexer
    fails on `bad.nas` returns with `bad.nas` still on the active stack. -/
theorem import_regular_file_keeps_failed_file_on_stack :
    (import_regular_file world_bad (load_nested world_bad 1) node_import_bad
        (link_init (linker_fresh []) "a.nas" false)).toOption.map
        (fun r => (r.1.get_expressions.length, r.2.module_load_stack)) =
      some (0, ["a.nas", "bad.nas"]) ∧
    (link_init (linker_fresh []) "a.nas" false).module_load_stack = ["a.nas"] := by
  constructor <;> decide!

/-! ## An import of a file that is being imported -/

theorem get_path_loop_world (W W1 : World) (hw : W1.is_windows = W.is_windows)
    (calls : List call) (fpath : String) :
    get_path_loop W1 calls fpath = get_path_loop W calls fpath := by
  induction calls generalizing fpath with
  | nil => rfl
  | cons c calls ih =>
    simp only [get_path_loop, World.sep, hw]
    cases c.as_call_hash_field with
    | none => rfl
    | some field => exact ih _

theorem get_path_world (W W1 : World) (hw : W1.is_windows = W.is_windows)
    (node : call_expr) : get_path W1 node = get_path W node := by
  simp only [get_path, get_path_loop_world W W1 hw]

theorem find_file_world (W W1 : World) (hw : W1.is_windows = W.is_windows)
    (ha : W1.access = W.access) (filename : String) (location : span) (s : linker) :
    find_file W1 filename location s = find_file W filename location s := by
  simp only [find_file, find_file_once, find_file_fpath, World.sep, hw, ha]

/-- C7: when the file `F` that an import resolves to is on the active stack,
    `import_regular_file` appends one fatal `link` diagnostic that ends with
    the chain of `generate_self_import_path`, returns a block without
    statement and changes neither `files` nor the active stack; the result is
    the same for every lexer, parser and nested loader, none being used. -/
theorem import_regular_file_cycle (W W1 : World) (load load1 : load_fn) (node : call_expr)
    (s : linker) (path F : String)
    (hw : W1.is_windows = W.is_windows) (ha : W1.access = W.access)
    (hpath : get_path W node = some path)
    (hF : (find_file W path node.get_location s).1 = F)
    (hres : F.length ≠ 0)
    (hon : F ∈ s.module_load_stack) :
    import_regular_file W load node s =
      Except.ok (code_block.mk ⟨0, 0, 0, 0, F⟩ [],
        { s with err := s.err ++ [{
            level := severity.fatal, stage := "link",
            info := "self-referenced module <" ++ F ++ ">:\n" ++
              "    reference path: " ++ generate_self_import_path s F }] }) ∧
    import_regular_file W1 load1 node s = import_regular_file W load node s := by
  subst hF
  have h := import_regular_file_on_stack W load node s path hpath hres hon
  have h1 := import_regular_file_on_stack W1 load1 node s path
    (by rw [get_path_world W W1 hw]; exact hpath)
    (by rw [find_file_world W W1 hw ha]; exact hres)
    (by rw [find_file_world W W1 hw ha]; exact hon)
  rw [find_file_world W W1 hw ha] at h1
  exact ⟨h, h1.trans h.symm⟩

/-- Witness of C7: `b.nas`, imported by the entry file `a.nas`, imports
    `a.nas`. -/
theorem import_regular_file_cycle_witness :
    get_path world_cycle node_import_a = some "a.nas" ∧
    (find_file world_cycle "a.nas" node_import_a.get_location linker_in_b).1 = "a.nas" ∧
    "a.nas".length ≠ 0 ∧ "a.nas" ∈ linker_in_b.module_load_stack ∧
    import_regular_file world_cycle (load world_cycle 0) node_import_a linker_in_b =
      Except.ok (code_block.mk ⟨0, 0, 0, 0, "a.nas"⟩ [],
        { linker_in_b with err := linker_in_b.err ++ [{
            level := severity.fatal, stage := "link",
            info := "self-referenced module <" ++ "a.nas" ++ ">:\n" ++
              "    reference path: " ++ generate_self_import_path linker_in_b "a.nas" }] }) ∧
    generate_self_import_path linker_in_b "a.nas" = "[a.nas] -> [b.nas] -> [a.nas]" :=
  ⟨by decide, by decide, by decide, by decide,
    (import_regular_file_cycle world_cycle world_cycle (load world_cycle 0)
      (load world_cycle 0) node_import_a linker_in_b "a.nas" "a.nas" rfl rfl
      (by decide) (by decide) (by decide) (by decide)).1, by decide⟩

/-! ## Termination of `link` -/

theorem linker_le_refl (U : List String) (s : linker) (h : linker_inv U s) :
    linker_le U s s :=
  ⟨rfl, fun _ h => h, fun h => h, le_refl _, h⟩

theorem linker_le_trans (U : List String) (s s1 s2 : linker)
    (h1 : linker_le U s s1) (h2 : linker_le U s1 s2) : linker_le U s s2 :=
  ⟨h2.envpath.trans h1.envpath, fun f hf => h2.files f (h1.files f hf),
    fun h => h2.lib (h1.lib h), le_trans h1.depth h2.depth, h2.inv⟩

theorem linker_le_err (U : List String) (s : linker) (e : error) (h : linker_inv U s) :
    linker_le U s { s with err := e } :=
  ⟨rfl, fun _ h => h, fun h => h, le_refl _, ⟨h.files_ne, h.nodup, h.sub⟩⟩

theorem stack_length_le (U : List String) (s : linker) (h : linker_inv U s) :
    s.module_load_stack.length ≤ U.length :=
  (List.subperm_of_subset h.nodup (fun f hf => h.sub f hf)).length_le

theorem lib_file_congr (W : World) (s s1 : linker) (h : s1.envpath = s.envpath) :
    lib_file W s1 = lib_file W s :=
  find_file_fst_congr W _ _ _ s1 s h

theorem lib_pending_le (W : World) (U : List String) (s s1 : linker)
    (h : linker_le U s s1) : lib_pending W s1 ≤ lib_pending W s := by
  unfold lib_pending
  rw [lib_file_congr W s s1 h.envpath]
  by_cases hp : s.lib_loaded = true ∨ (lib_file W s).length = 0 ∨ lib_file W s ∈ s.files
  · have hp1 : s1.lib_loaded = true ∨ (lib_file W s).length = 0 ∨ lib_file W s ∈ s1.files := by
      rcases hp with hp | hp | hp
      · exact Or.inl (h.lib hp)
      · exact Or.inr (Or.inl hp)
      · exact Or.inr (Or.inr (h.files _ hp))
    simp [hp, hp1]
  · simp only [hp, if_false]
    split_ifs <;> omega

theorem load_measure_le (W : World) (U : List String) (s s1 : linker)
    (h : linker_le U s s1) : load_measure W U.length s1 ≤ load_measure W U.length s := by
  have h1 := lib_pending_le W U s s1 h
  have h2 := h.depth
  unfold load_measure
  omega

theorem exist_files (file : String) (s : linker) :
    (exist file s).2 = { s with files := (exist file s).2.files } ∧
    (∀ f ∈ s.files, f ∈ (exist file s).2.files) ∧
    file ∈ (exist file s).2.files ∧
    ((exist file s).1 = true ↔ file ∈ s.files) := by
  unfold exist
  by_cases h : (s.files.any fun fname => file == fname) = true
  · rw [if_pos h]
    have hm : file ∈ s.files := by simpa [List.any_eq_true] using h
    exact ⟨rfl, fun _ h => h, hm, by simp [hm]⟩
  · rw [if_neg h]
    have hm : file ∉ s.files := by simpa [List.any_eq_true] using h
    exact ⟨rfl, fun f hf => by simp [hf], by simp, by simp [hm]⟩

theorem find_loop_of_mem (file : String) (files : List String) (pos : Nat)
    (h : file ∈ files) :
    ∃ i, find_loop file files pos = some i ∧ i < pos + files.length := by
  induction files generalizing pos with
  | nil => simp at h
  | cons f rest ih =>
    by_cases hf : f = file
    · exact ⟨pos, by simp [find_loop, hf], by simp⟩
    · have hm : file ∈ rest := by
        rcases List.mem_cons.1 h with h | h
        · exact absurd h.symm hf
        · exact h
      obtain ⟨i, hi, hlt⟩ := ih (pos + 1) hm
      exact ⟨i, by simp [find_loop, hf, hi], by simp only [List.length_cons]; omega⟩

theorem find_of_mem (file : String) (s : linker) (h : file ∈ s.files) :
    ∃ i, find file s = Except.ok i ∧ i < s.files.length := by
  obtain ⟨i, hi, hlt⟩ := find_loop_of_mem file s.files 0 h
  refine ⟨i % 65536, by simp [find, hi], ?_⟩
  have := Nat.mod_le i 65536
  omega

theorem import_regular_file_unresolved (W : World) (load : load_fn) (node : call_expr)
    (s : linker) (path : String)
    (hpath : get_path W node = some path)
    (hres : (find_file W path node.get_location s).1.length = 0) :
    import_regular_file W load node s =
      Except.ok (code_block.mk ⟨0, 0, 0, 0, (find_file W path node.get_location s).1⟩ [],
        (find_file W path node.get_location s).2) := by
  simp only [import_regular_file, hpath, hres, if_true]

theorem import_regular_file_resolved (W : World) (load : load_fn) (node : call_expr)
    (s : linker) (path F : String)
    (hpath : get_path W node = some path)
    (hF : (find_file W path node.get_location s).1 = F)
    (hres : F.length ≠ 0)
    (hoff : F ∉ s.module_load_stack) :
    import_regular_file W load node s =
      if W.scan_geterr F = true ∨ W.compile_geterr F = true then
        Except.ok (code_block.mk ⟨0, 0, 0, 0, F⟩ [],
          { enter_file F s with err := ((enter_file F s).err.err "link"
              ("error occurred when analysing <" ++ F ++ ">")) })
      else
        match find F (enter_file F s) with
        | Except.error f => Except.error f
        | Except.ok fileindex =>
          match load (W.parse_result F) fileindex (enter_file F s) with
          | Except.error f => Except.error f
          | Except.ok (result, s1) =>
            if s1.module_load_stack.isEmpty then Except.error fault.undefined_behaviour
            else Except.ok (result,
              { s1 with module_load_stack := s1.module_load_stack.dropLast }) := by
  subst hF
  obtain ⟨_, hs⟩ := find_file_found W path node.get_location s hres
  have hc : check_self_import (find_file W path node.get_location s).2
      (find_file W path node.get_location s).1 = false := by
    rw [hs]
    cases h : check_self_import s (find_file W path node.get_location s).1 with
    | false => rfl
    | true => exact absurd ((check_self_import_iff _ _).1 h) hoff
  simp only [import_regular_file, hpath, hres, if_false, hc]
  rw [hs]
  by_cases h1 : W.scan_geterr (find_file W path node.get_location s).1 = true
  · simp only [h1, if_true, true_or]
    rfl
  · by_cases h2 : W.compile_geterr (find_file W path node.get_location s).1 = true
    · simp only [h1, h2, if_true, if_false, or_true]
      rfl
    · simp only [h1, h2, if_false, or_self]
      rfl

theorem get_path_defined (W : World) (node : call_expr)
    (h : import_check (expr.call_expr node) = true) :
    ∃ path, get_path W node = some path := by
  obtain ⟨loc, first, calls⟩ := node
  obtain ⟨loc1, idloc, calls1, heq, hc⟩ := (import_check_iff_forms _).1 h
  injection heq with heq
  injection heq with h1 h2 h3
  subst h1 h2 h3
  rcases hc with ⟨hne, hall⟩ | ⟨l1, str, rfl⟩
  · obtain ⟨fields, rfl⟩ := all_call_hash_fields calls hall
    have hf : fields ≠ [] := by
      intro hnil
      exact hne (by simp [hnil])
    exact ⟨_, get_path_dotted W loc _ fields hf⟩
  · exact ⟨_, get_path_call W loc l1 _ str⟩

theorem enter_file_inv (U : List String) (file : String) (s : linker)
    (h : linker_inv U s) (hoff : file ∉ s.module_load_stack) (hU : file ∈ U) :
    linker_inv U (enter_file file s) := by
  obtain ⟨he, _, hmem, _⟩ := exist_files file s
  refine ⟨?_, ?_, ?_⟩
  · exact List.ne_nil_of_mem hmem
  · show ((exist file s).2.module_load_stack ++ [file]).Nodup
    rw [he]
    exact List.Nodup.append h.nodup (List.nodup_singleton _)
      (fun a ha hb => hoff (List.mem_singleton.1 hb ▸ ha))
  · intro f hf
    have hf1 : f ∈ (exist file s).2.module_load_stack ++ [file] := hf
    rw [he] at hf1
    rcases List.mem_append.1 hf1 with hf2 | hf2
    · exact h.sub f hf2
    · rw [List.mem_singleton.1 hf2]; exact hU

theorem enter_file_le (U : List String) (file : String) (s : linker)
    (h : linker_inv U s) (hoff : file ∉ s.module_load_stack) (hU : file ∈ U) :
    linker_le U s (enter_file file s) := by
  obtain ⟨he, hsub, _, _⟩ := exist_files file s
  refine ⟨?_, ?_, ?_, ?_, enter_file_inv U file s h hoff hU⟩
  · show (exist file s).2.envpath = s.envpath
    rw [he]
  · exact hsub
  · intro hl
    show (exist file s).2.lib_loaded = true
    rw [he]; exact hl
  · show s.module_load_stack.length ≤ ((exist file s).2.module_load_stack ++ [file]).length
    rw [he]; simp

theorem enter_file_stack (file : String) (s : linker) :
    (enter_file file s).module_load_stack = s.module_load_stack ++ [file] := by
  obtain ⟨he, _, _, _⟩ := exist_files file s
  show (exist file s).2.module_load_stack ++ [file] = _
  rw [he]

theorem enter_file_measure (W : World) (U : List String) (file : String) (s : linker)
    (h : linker_inv U s) (hoff : file ∉ s.module_load_stack) (hU : file ∈ U) :
    load_measure W U.length (enter_file file s) + 1 ≤ load_measure W U.length s := by
  have h1 := lib_pending_le W U s _ (enter_file_le U file s h hoff hU)
  have h2 := stack_length_le U _ (enter_file_inv U file s h hoff hU)
  rw [enter_file_stack] at h2
  unfold load_measure
  rw [enter_file_stack]
  simp only [List.length_append, List.length_singleton] at h2 ⊢
  omega

theorem import_regular_file_returns (W : World) (U : List String) (ld : load_fn) (c : Nat)
    (node : call_expr) (s : linker)
    (hU : ∀ f, W.access f = true → f ∈ U)
    (hld : load_returns_below W U ld c)
    (hinv : linker_inv U s) (hm : load_measure W U.length s ≤ c)
    (hnode : import_check (expr.call_expr node) = true) :
    ∃ blk s1, import_regular_file W ld node s = Except.ok (blk, s1) ∧ linker_le U s s1 := by
  obtain ⟨path, hpath⟩ := get_path_defined W node hnode
  obtain ⟨e, hframe⟩ := find_file_frame W path node.get_location s
  by_cases hres : (find_file W path node.get_location s).1.length = 0
  · rw [import_regular_file_unresolved W ld node s path hpath hres]
    exact ⟨_, _, rfl, by rw [hframe]; exact linker_le_err U s e hinv⟩
  · obtain ⟨hacc, _⟩ := find_file_found W path node.get_location s hres
    by_cases hon : (find_file W path node.get_location s).1 ∈ s.module_load_stack
    · rw [import_regular_file_on_stack W ld node s path hpath hres hon]
      exact ⟨_, _, rfl, linker_le_err U s _ hinv⟩
    · have hFU := hU _ hacc
      rw [import_regular_file_resolved W ld node s path _ hpath rfl hres hon]
      have hle := enter_file_le U _ s hinv hon hFU
      split_ifs with herr
      · exact ⟨_, _, rfl, linker_le_trans U _ _ _ hle (linker_le_err U _ _ hle.inv)⟩
      · have hmem : (find_file W path node.get_location s).1 ∈
            (enter_file (find_file W path node.get_location s).1 s).files :=
          (exist_files _ s).2.2.1
        obtain ⟨i, hi, hlt⟩ := find_of_mem _ _ hmem
        have hms := enter_file_measure W U _ s hinv hon hFU
        obtain ⟨t, s1, hl, hle1⟩ := hld (W.parse_result (find_file W path node.get_location s).1)
          i _ hle.inv hlt (by omega)
        simp only [hi, hl]
        have hd := hle1.depth
        rw [enter_file_stack] at hd
        simp only [List.length_append, List.length_singleton] at hd
        have hne : s1.module_load_stack.isEmpty = false := by
          cases hs : s1.module_load_stack with
          | nil => rw [hs] at hd; simp at hd
          | cons a l => rfl
        simp only [hne, Bool.false_eq_true, if_false]
        refine ⟨_, _, rfl, ?_, ?_, ?_, ?_, ?_, ?_, ?_⟩
        · exact hle1.envpath.trans hle.envpath
        · exact fun f hf => hle1.files f (hle.files f hf)
        · exact fun h => hle1.lib (hle.lib h)
        · simp only [List.length_dropLast]; omega
        · exact hle1.inv.files_ne
        · exact hle1.inv.nodup.sublist (List.dropLast_sublist _)
        · exact fun f hf => hle1.inv.sub f (List.dropLast_subset _ hf)

theorem generate_module_name_frame (file_path : String) (s : linker) :
    ∃ e, (generate_module_name file_path s).2 = { s with err := e } := by
  by_cases h0 : file_path.length = 0
  · exact ⟨s.err, by simp only [generate_module_name, h0, if_true]⟩
  · cases hfind : string_find file_path ".nas" with
    | none =>
      simp only [generate_module_name, h0, if_false, hfind]
      exact ⟨_, rfl⟩
    | some suffix_position =>
      by_cases hs : suffix_position + 4 = file_path.length
      · simp only [generate_module_name, h0, if_false, hfind, hs, ne_eq, not_true_eq_false]
        split_ifs <;> exact ⟨_, rfl⟩
      · simp only [generate_module_name, h0, if_false, hfind, hs, ne_eq, not_false_eq_true,
          if_true]
        exact ⟨_, rfl⟩

theorem generate_module_definition_frame (W : World) (block : code_block) (s : linker) :
    ∃ e, (generate_module_definition W block s).2 = { s with err := e } := by
  obtain ⟨e, he⟩ := generate_module_name_frame block.get_location.file s
  exact ⟨e, by simp only [generate_module_definition]; exact he⟩

theorem import_nasal_lib_unfold (W : World) (load : load_fn) (s : linker)
    (files_0 : String) (rest : List String) (hfiles : s.files = files_0 :: rest) :
    import_nasal_lib W load s =
      if (find_file W "lib.nas" ⟨0, 0, 0, 0, files_0⟩ s).1.length = 0 then
        Except.ok (code_block.mk
          ⟨0, 0, 0, 0, (find_file W "lib.nas" ⟨0, 0, 0, 0, files_0⟩ s).1⟩ [],
          (find_file W "lib.nas" ⟨0, 0, 0, 0, files_0⟩ s).2)
      else if (find_file W "lib.nas" ⟨0, 0, 0, 0, files_0⟩ s).1 ∈ s.files then
        Except.ok (code_block.mk
          ⟨0, 0, 0, 0, (find_file W "lib.nas" ⟨0, 0, 0, 0, files_0⟩ s).1⟩ [],
          { s with lib_path := (find_file W "lib.nas" ⟨0, 0, 0, 0, files_0⟩ s).1 })
      else if W.scan_geterr (find_file W "lib.nas" ⟨0, 0, 0, 0, files_0⟩ s).1 = true ∨
          W.compile_geterr (find_file W "lib.nas" ⟨0, 0, 0, 0, files_0⟩ s).1 = true then
        Except.ok (code_block.mk
          ⟨0, 0, 0, 0, (find_file W "lib.nas" ⟨0, 0, 0, 0, files_0⟩ s).1⟩ [],
          { s with
            lib_path := (find_file W "lib.nas" ⟨0, 0, 0, 0, files_0⟩ s).1
            files := s.files ++ [(find_file W "lib.nas" ⟨0, 0, 0, 0, files_0⟩ s).1]
            err := (s.err.err "link" ("error occurred when analysing library <" ++
              (find_file W "lib.nas" ⟨0, 0, 0, 0, files_0⟩ s).1 ++ ">")) })
      else
        match find (find_file W "lib.nas" ⟨0, 0, 0, 0, files_0⟩ s).1
          { s with
            lib_path := (find_file W "lib.nas" ⟨0, 0, 0, 0, files_0⟩ s).1
            files := s.files ++ [(find_file W "lib.nas" ⟨0, 0, 0, 0, files_0⟩ s).1] } with
        | Except.error f => Except.error f
        | Except.ok fileindex =>
          load (W.parse_result (find_file W "lib.nas" ⟨0, 0, 0, 0, files_0⟩ s).1) fileindex
            { s with
              lib_path := (find_file W "lib.nas" ⟨0, 0, 0, 0, files_0⟩ s).1
              files := s.files ++ [(find_file W "lib.nas" ⟨0, 0, 0, 0, files_0⟩ s).1] } := by
  by_cases hres : (find_file W "lib.nas" ⟨0, 0, 0, 0, files_0⟩ s).1.length = 0
  · simp only [import_nasal_lib, hfiles, hres, if_true]
  · obtain ⟨_, hs⟩ := find_file_found W "lib.nas" ⟨0, 0, 0, 0, files_0⟩ s hres
    simp only [import_nasal_lib, hfiles, hres, if_false]
    rw [hs]
    by_cases hmem : (find_file W "lib.nas" ⟨0, 0, 0, 0, files_0⟩ s).1 ∈ files_0 :: rest
    · have hany : (List.any (files_0 :: rest)
          fun fname => (find_file W "lib.nas" ⟨0, 0, 0, 0, files_0⟩ s).1 == fname) = true := by
        simpa [List.any_eq_true] using hmem
      simp only [exist, hfiles, hany, if_true, hmem]
    · have hany : ¬ (List.any (files_0 :: rest)
          fun fname => (find_file W "lib.nas" ⟨0, 0, 0, 0, files_0⟩ s).1 == fname) = true := by
        simpa [List.any_eq_true] using hmem
      simp only [exist, hfiles, hany, if_false, hmem, Bool.false_eq_true]
      by_cases h1 : W.scan_geterr (find_file W "lib.nas" ⟨0, 0, 0, 0, files_0⟩ s).1 = true
      · simp only [h1, if_true, true_or]
      · by_cases h2 : W.compile_geterr (find_file W "lib.nas" ⟨0, 0, 0, 0, files_0⟩ s).1 = true
        · simp only [h1, h2, if_true, if_false, or_true, Bool.false_eq_true]
        · simp only [h1, h2, if_false, or_self, Bool.false_eq_true]

theorem linker_le_of_fields (U : List String) (s s1 : linker) (hinv : linker_inv U s)
    (he : s1.envpath = s.envpath) (hf : ∀ f ∈ s.files, f ∈ s1.files)
    (hl : s.lib_loaded = true → s1.lib_loaded = true)
    (hst : s1.module_load_stack = s.module_load_stack) : linker_le U s s1 := by
  refine ⟨he, hf, hl, by rw [hst], ?_, by rw [hst]; exact hinv.nodup,
    by rw [hst]; exact hinv.sub⟩
  obtain ⟨f, hfm⟩ := List.exists_mem_of_ne_nil _ hinv.files_ne
  exact List.ne_nil_of_mem (hf f hfm)

theorem import_nasal_lib_returns (W : World) (U : List String) (ld : load_fn) (c : Nat)
    (s : linker)
    (hld : load_returns_below W U ld c)
    (hinv : linker_inv U s) (hl : s.lib_loaded = false)
    (hm : load_measure W U.length s ≤ c) :
    ∃ blk s1, import_nasal_lib W ld s = Except.ok (blk, s1) ∧ linker_le U s s1 := by
  obtain ⟨files_0, rest, hfiles⟩ := List.exists_cons_of_ne_nil hinv.files_ne
  rw [import_nasal_lib_unfold W ld s files_0 rest hfiles]
  obtain ⟨e, hframe⟩ := find_file_frame W "lib.nas" ⟨0, 0, 0, 0, files_0⟩ s
  split_ifs with h1 h2 h3
  · exact ⟨_, _, rfl, by rw [hframe]; exact linker_le_err U s e hinv⟩
  · exact ⟨_, _, rfl, linker_le_of_fields U s _ hinv rfl (fun _ h => h) (fun h => h) rfl⟩
  · exact ⟨_, _, rfl, linker_le_of_fields U s _ hinv rfl
      (fun f hf => List.mem_append_left _ hf) (fun h => h) rfl⟩
  · have hle : linker_le U s { s with
          lib_path := (find_file W "lib.nas" ⟨0, 0, 0, 0, files_0⟩ s).1
          files := s.files ++ [(find_file W "lib.nas" ⟨0, 0, 0, 0, files_0⟩ s).1] } :=
      linker_le_of_fields U s _ hinv rfl (fun f hf => List.mem_append_left _ hf)
        (fun h => h) rfl
    obtain ⟨i, hi, hlt⟩ := find_of_mem (find_file W "lib.nas" ⟨0, 0, 0, 0, files_0⟩ s).1
      { s with
        lib_path := (find_file W "lib.nas" ⟨0, 0, 0, 0, files_0⟩ s).1
        files := s.files ++ [(find_file W "lib.nas" ⟨0, 0, 0, 0, files_0⟩ s).1] }
      (by simp)
    have hfile : lib_file W s = (find_file W "lib.nas" ⟨0, 0, 0, 0, files_0⟩ s).1 :=
      find_file_fst_congr W _ _ _ s s rfl
    have hp0 : lib_pending W { s with
          lib_path := (find_file W "lib.nas" ⟨0, 0, 0, 0, files_0⟩ s).1
          files := s.files ++ [(find_file W "lib.nas" ⟨0, 0, 0, 0, files_0⟩ s).1] } = 0 := by
      have hlf := (lib_file_congr W s { s with
          lib_path := (find_file W "lib.nas" ⟨0, 0, 0, 0, files_0⟩ s).1
          files := s.files ++ [(find_file W "lib.nas" ⟨0, 0, 0, 0, files_0⟩ s).1] } rfl).trans
        hfile
      unfold lib_pending
      rw [hlf]
      simp
    have hp1 : lib_pending W s = 1 := by
      unfold lib_pending
      rw [hfile]
      simp [hl, h1, h2]
    have hms : load_measure W U.length { s with
          lib_path := (find_file W "lib.nas" ⟨0, 0, 0, 0, files_0⟩ s).1
          files := s.files ++ [(find_file W "lib.nas" ⟨0, 0, 0, 0, files_0⟩ s).1] } < c := by
      unfold load_measure at hm ⊢
      rw [hp0]
      rw [hp1] at hm
      show U.length - s.module_load_stack.length + 0 < c
      omega
    obtain ⟨t, s1, hload, hle1⟩ := hld
      (W.parse_result (find_file W "lib.nas" ⟨0, 0, 0, 0, files_0⟩ s).1) i _ hle.inv hlt hms
    simp only [hi, hload]
    exact ⟨_, _, rfl, linker_le_trans U _ _ _ hle hle1⟩

theorem load_library_returns (W : World) (U : List String) (ld : load_fn) (c : Nat)
    (tree : code_block) (s : linker)
    (hld : load_returns_below W U ld c)
    (hinv : linker_inv U s) (hm : load_measure W U.length s ≤ c) :
    ∃ t s1, load_library W ld tree s = Except.ok (t, s1) ∧ linker_le U s s1 := by
  cases hl : s.lib_loaded with
  | true =>
    rw [load_library_loaded W ld tree s hl]
    exact ⟨_, _, rfl, linker_le_refl U s hinv⟩
  | false =>
    rw [load_library_not_loaded W ld tree s hl]
    obtain ⟨blk, s1, hlib, hle⟩ := import_nasal_lib_returns W U ld c s hld hinv hl hm
    simp only [hlib]
    exact ⟨_, _, rfl, linker_le_trans U _ _ _ hle
      (linker_le_of_fields U s1 _ hle.inv rfl (fun _ h => h) (fun _ => rfl) rfl)⟩

theorem import_each_returns (W : World) (U : List String) (ld : load_fn) (c : Nat)
    (hU : ∀ f, W.access f = true → f ∈ U)
    (hld : load_returns_below W U ld c)
    (stmts : List expr) (hall : ∀ e ∈ stmts, import_check e = true)
    (s : linker) (hinv : linker_inv U s) (hm : load_measure W U.length s ≤ c) :
    ∃ definitions s1, import_each W ld stmts s = Except.ok (definitions, s1) ∧
      linker_le U s s1 := by
  induction stmts generalizing s with
  | nil => exact ⟨[], s, rfl, linker_le_refl U s hinv⟩
  | cons e rest ih =>
    have he := hall e (List.mem_cons_self _ _)
    obtain ⟨loc, idloc, name, calls, rfl⟩ := import_check_shape e he
    obtain ⟨blk, s1, hirf, hle⟩ := import_regular_file_returns W U ld c _ s hU hld hinv hm he
    obtain ⟨er, hframe⟩ := generate_module_definition_frame W blk s1
    have hle2 : linker_le U s (generate_module_definition W blk s1).2 := by
      rw [hframe]
      exact linker_le_trans U _ _ _ hle (linker_le_err U s1 er hle.inv)
    obtain ⟨defs, s2, hrest, hle3⟩ := ih (fun e he => hall e (List.mem_cons_of_mem _ he))
      _ hle2.inv (le_trans (load_measure_le W U _ _ hle2) hm)
    simp only [import_each, hirf, hrest]
    exact ⟨_, _, rfl, linker_le_trans U _ _ _ hle2 hle3⟩

theorem load_body_returns (W : World) (U : List String) (ld : load_fn) (c : Nat)
    (hU : ∀ f, W.access f = true → f ∈ U)
    (hld : load_returns_below W U ld c)
    (program_root : code_block) (fileindex : Nat) (s : linker)
    (hinv : linker_inv U s) (hi : fileindex < s.files.length)
    (hm : load_measure W U.length s ≤ c) :
    ∃ t s1, load_body W ld program_root fileindex s = Except.ok (t, s1) ∧
      linker_le U s s1 := by
  obtain ⟨t0, s0, hlib, hle0⟩ := load_library_returns W U ld c
    (code_block.mk ⟨0, 0, 0, 0, s.files[fileindex]⟩ []) s hld hinv hm
  obtain ⟨defs, s1, heach, hle1⟩ := import_each_returns W U ld c hU hld
    (program_root.get_expressions.takeWhile import_check)
    (fun e he => List.mem_takeWhile_imp he) s0 hle0.inv
    (le_trans (load_measure_le W U _ _ hle0) hm)
  simp only [load_body, List.getElem?_eq_getElem hi, hlib, load_imports_eq, heach]
  exact ⟨_, _, rfl, linker_le_trans U _ _ _ hle0 hle1⟩

theorem load_nested_returns (W : World) (U : List String)
    (hU : ∀ f, W.access f = true → f ∈ U) (fuel : Nat) :
    load_returns_below W U (load_nested W fuel) fuel := by
  induction fuel with
  | zero => intro b i s _ _ h; omega
  | succ k ih =>
    intro b i s hinv hi hm
    show ∃ t s1, load W k b i s = Except.ok (t, s1) ∧ linker_le U s s1
    rw [load_eq_load_body]
    exact load_body_returns W U _ k hU ih b i s hinv hi (by omega)

theorem load_returns (W : World) (U : List String)
    (hU : ∀ f, W.access f = true → f ∈ U) (fuel : Nat)
    (program_root : code_block) (fileindex : Nat) (s : linker)
    (hinv : linker_inv U s) (hi : fileindex < s.files.length)
    (hm : load_measure W U.length s ≤ fuel) :
    ∃ t s1, load W fuel program_root fileindex s = Except.ok (t, s1) ∧ linker_le U s s1 := by
  rw [load_eq_load_body]
  exact load_body_returns W U _ fuel hU (load_nested_returns W U hU fuel) _ _ s hinv hi hm

theorem link_init_inv (s : linker) (self : String) (spath : Bool) (existing : List String) :
    linker_inv (self :: existing) (link_init s self spath) :=
  ⟨by simp [link_init], by simp [link_init], by simp [link_init]⟩

theorem link_init_measure (W : World) (s : linker) (self : String) (spath : Bool)
    (existing : List String) :
    load_measure W (self :: existing).length (link_init s self spath) ≤ existing.length + 1 := by
  unfold load_measure lib_pending
  have h : (link_init s self spath).module_load_stack.length = 1 := by simp [link_init]
  rw [h]
  simp only [List.length_cons]
  split_ifs <;> omega

theorem link_returns (W : World) (existing : List String)
    (hfin : ∀ f, W.access f = true → f ∈ existing)
    (fuel : Nat) (hfuel : existing.length + 1 ≤ fuel)
    (s : linker) (program_root : code_block) (self : String) (spath : Bool) :
    ∃ tree s1, link W fuel s program_root self spath = Except.ok (tree, s1) := by
  obtain ⟨t, s1, h, _⟩ := load_returns W (self :: existing)
    (fun f hf => List.mem_cons_of_mem _ (hfin f hf)) fuel program_root 0
    (link_init s self spath) (link_init_inv s self spath existing)
    (by simp [link_init])
    (le_trans (link_init_measure W s self spath existing) hfuel)
  exact ⟨t, s1, h⟩

theorem import_regular_file_extends (W : World) (ld ld1 : load_fn)
    (hext : load_extends ld ld1) (node : call_expr) (s : linker)
    (r : code_block × linker) (h : import_regular_file W ld node s = Except.ok r) :
    import_regular_file W ld1 node s = Except.ok r := by
  cases hpath : get_path W node with
  | none => simp [import_regular_file, hpath] at h
  | some path =>
    by_cases hres : (find_file W path node.get_location s).1.length = 0
    · rw [import_regular_file_unresolved W ld node s path hpath hres] at h
      rw [import_regular_file_unresolved W ld1 node s path hpath hres]; exact h
    · by_cases hon : (find_file W path node.get_location s).1 ∈ s.module_load_stack
      · rw [import_regular_file_on_stack W ld node s path hpath hres hon] at h
        rw [import_regular_file_on_stack W ld1 node s path hpath hres hon]; exact h
      · rw [import_regular_file_resolved W ld node s path _ hpath rfl hres hon] at h
        rw [import_regular_file_resolved W ld1 node s path _ hpath rfl hres hon]
        split_ifs at h ⊢ with herr
        · exact h
        · cases hfind : find (find_file W path node.get_location s).1
              (enter_file (find_file W path node.get_location s).1 s) with
          | error f => simp [hfind] at h
          | ok i =>
            simp only [hfind] at h ⊢
            cases hl : ld (W.parse_result (find_file W path node.get_location s).1) i
                (enter_file (find_file W path node.get_location s).1 s) with
            | error f => simp [hl] at h
            | ok r1 =>
              rw [hext _ _ _ _ hl]
              rw [hl] at h
              exact h

theorem import_nasal_lib_extends (W : World) (ld ld1 : load_fn)
    (hext : load_extends ld ld1) (s : linker)
    (r : code_block × linker) (h : import_nasal_lib W ld s = Except.ok r) :
    import_nasal_lib W ld1 s = Except.ok r := by
  cases hfiles : s.files with
  | nil => simp [import_nasal_lib, hfiles] at h
  | cons files_0 rest =>
    rw [import_nasal_lib_unfold W ld s files_0 rest hfiles] at h
    rw [import_nasal_lib_unfold W ld1 s files_0 rest hfiles]
    split_ifs at h ⊢ with h1 h2 h3
    · exact h
    · exact h
    · exact h
    · cases hfind : find (find_file W "lib.nas" ⟨0, 0, 0, 0, files_0⟩ s).1
          { s with
            lib_path := (find_file W "lib.nas" ⟨0, 0, 0, 0, files_0⟩ s).1
            files := s.files ++ [(find_file W "lib.nas" ⟨0, 0, 0, 0, files_0⟩ s).1] } with
      | error f => simp [hfind] at h
      | ok i =>
        simp only [hfind] at h ⊢
        exact hext _ _ _ _ h

theorem load_library_extends (W : World) (ld ld1 : load_fn)
    (hext : load_extends ld ld1) (tree : code_block) (s : linker)
    (r : code_block × linker) (h : load_library W ld tree s = Except.ok r) :
    load_library W ld1 tree s = Except.ok r := by
  cases hl : s.lib_loaded with
  | true =>
    rw [load_library_loaded W ld tree s hl] at h
    rw [load_library_loaded W ld1 tree s hl]; exact h
  | false =>
    rw [load_library_not_loaded W ld tree s hl] at h
    rw [load_library_not_loaded W ld1 tree s hl]
    cases hlib : import_nasal_lib W ld s with
    | error f => simp [hlib] at h
    | ok r1 =>
      rw [import_nasal_lib_extends W ld ld1 hext s r1 hlib]
      rw [hlib] at h
      exact h

theorem load_imports_extends (W : World) (ld ld1 : load_fn)
    (hext : load_extends ld ld1) (stmts : List expr) (tree : code_block) (s : linker)
    (r : List expr × code_block × linker)
    (h : load_imports W ld stmts tree s = Except.ok r) :
    load_imports W ld1 stmts tree s = Except.ok r := by
  induction stmts generalizing tree s r with
  | nil => exact h
  | cons e rest ih =>
    by_cases hc : import_check e = true
    · obtain ⟨loc, idloc, name, calls, rfl⟩ := import_check_shape e hc
      simp only [load_imports, hc, not_true_eq_false, if_false] at h ⊢
      cases hi : import_regular_file W ld
          (call_expr.mk loc (expr.identifier { nd_loc := idloc, name := name }) calls) s with
      | error f => simp [hi] at h
      | ok r1 =>
        obtain ⟨blk, s2⟩ := r1
        rw [import_regular_file_extends W ld ld1 hext _ s _ hi]
        simp only [hi] at h ⊢
        cases hr : load_imports W ld rest
            (tree.add_expression (generate_module_definition W blk s2).1)
            (generate_module_definition W blk s2).2 with
        | error f => simp [hr] at h
        | ok r2 =>
          rw [ih _ _ _ hr]
          rw [hr] at h
          exact h
    · simp only [load_imports, hc, Bool.false_eq_true, not_false_eq_true, if_true] at h ⊢
      exact h

theorem load_body_extends (W : World) (ld ld1 : load_fn) (hext : load_extends ld ld1) :
    load_extends (load_body W ld) (load_body W ld1) := by
  intro b i s r h
  unfold load_body at h ⊢
  cases hf : s.files[i]? with
  | none => simp [hf] at h
  | some file =>
    simp only [hf] at h ⊢
    cases hl : load_library W ld (code_block.mk ⟨0, 0, 0, 0, file⟩ []) s with
    | error f => simp [hl] at h
    | ok r1 =>
      obtain ⟨libtree, s0⟩ := r1
      rw [load_library_extends W ld ld1 hext _ s _ hl]
      simp only [hl] at h ⊢
      cases hi : load_imports W ld b.get_expressions libtree s0 with
      | error f => simp [hi] at h
      | ok r2 =>
        rw [load_imports_extends W ld ld1 hext _ _ _ _ hi]
        rw [hi] at h
        exact h

theorem load_nested_extends_succ (W : World) (fuel : Nat) :
    load_extends (load_nested W fuel) (load_nested W (fuel + 1)) := by
  induction fuel with
  | zero => intro b i s r h; cases h
  | succ k ih =>
    show load_extends (load W k) (load W (k + 1))
    rw [load_eq_load_body, load_eq_load_body]
    exact load_body_extends W _ _ ih

theorem load_extends_succ (W : World) (fuel : Nat) :
    load_extends (load W fuel) (load W (fuel + 1)) :=
  load_nested_extends_succ W (fuel + 1)

theorem load_extends_le (W : World) (fuel fuel1 : Nat) (h : fuel ≤ fuel1) :
    load_extends (load W fuel) (load W fuel1) := by
  induction fuel1 with
  | zero =>
    have : fuel = 0 := by omega
    subst this
    exact fun _ _ _ _ h => h
  | succ k ih =>
    by_cases hk : fuel ≤ k
    · exact fun b i s r hr => load_extends_succ W k b i s r (ih hk b i s r hr)
    · have : fuel = k + 1 := by omega
      subst this
      exact fun _ _ _ _ h => h

/-- C9: on a file system with finitely many existing files `link` returns,
    also when files import each other: one result serves every `fuel` from
    the number of existing files plus one on, so `load` never nests deeper
    than that below the first call. The retry of `find_file` for `lib.nas`
    goes one level deep: `find_file` solves the recursive equation of the
    source and the call inside the retry never retries. -/
theorem link_terminates (W : World) (existing : List String)
    (hfin : ∀ f, W.access f = true → f ∈ existing)
    (s : linker) (program_root : code_block) (self : String) (spath : Bool)
    (g : String → span → linker → String × linker) (filename : String) (location : span) :
    (∃ tree s1, ∀ fuel, existing.length + 1 ≤ fuel →
      link W fuel s program_root self spath = Except.ok (tree, s1)) ∧
    find_file W filename location s = find_file_once W (find_file W) filename location s ∧
    find_file_once W (find_file_once W g) filename location s =
      find_file W filename location s := by
  obtain ⟨tree, s1, h⟩ := link_returns W existing hfin (existing.length + 1) (le_refl _)
    s program_root self spath
  exact ⟨⟨tree, s1, fun fuel hfuel =>
      load_extends_le W (existing.length + 1) fuel hfuel _ _ _ _ h⟩,
    find_file_unfold W filename location s,
    find_file_stub_irrelevant W g filename location s⟩

theorem world_cycle_access (f : String) (h : world_cycle.access f = true) :
    f ∈ ["a.nas", "b.nas"] := by
  by_cases ha : f = "a.nas"
  · simp [ha]
  · by_cases hb : f = "b.nas"
    · simp [hb]
    · exfalso
      have ha1 : (f == "a.nas") = false := by simpa using ha
      have hb1 : (f == "b.nas") = false := by simpa using hb
      have : world_cycle.access f = false := by
        simp [world_cycle, world_of, List.lookup, ha1, hb1]
      rw [this] at h
      exact Bool.false_ne_true h

/-- Witness of C9: `a.nas` and `b.nas` import each other. -/
theorem link_terminates_witness :
    (∀ f, world_cycle.access f = true → f ∈ ["a.nas", "b.nas"]) ∧
    ((∃ tree s1, ∀ fuel, ["a.nas", "b.nas"].length + 1 ≤ fuel →
        link world_cycle fuel (linker_fresh []) (world_cycle.parse_result "a.nas") "a.nas"
          false = Except.ok (tree, s1)) ∧
      find_file world_cycle "lib.nas" ⟨0, 0, 0, 0, "a.nas"⟩ (linker_fresh []) =
        find_file_once world_cycle (find_file world_cycle) "lib.nas" ⟨0, 0, 0, 0, "a.nas"⟩
          (linker_fresh []) ∧
      find_file_once world_cycle (find_file_once world_cycle (fun _ _ s => ("", s)))
          "lib.nas" ⟨0, 0, 0, 0, "a.nas"⟩ (linker_fresh []) =
        find_file world_cycle "lib.nas" ⟨0, 0, 0, 0, "a.nas"⟩ (linker_fresh [])) :=
  ⟨world_cycle_access,
    link_terminates world_cycle ["a.nas", "b.nas"] world_cycle_access
      (linker_fresh []) (world_cycle.parse_result "a.nas") "a.nas" false
      (fun _ _ s => ("", s)) "lib.nas" ⟨0, 0, 0, 0, "a.nas"⟩⟩

/-! ## The active stack holds no file twice -/

theorem enter_file_stack_nodup (file : String) (s : linker) (h : stack_nodup s)
    (hoff : file ∉ s.module_load_stack) : stack_nodup (enter_file file s) := by
  unfold stack_nodup
  rw [enter_file_stack]
  exact List.Nodup.append h (List.nodup_singleton _)
    (fun a ha hb => hoff (List.mem_singleton.1 hb ▸ ha))

theorem import_regular_file_cases (W : World) (ld : load_fn) (node : call_expr) (s : linker) :
    import_regular_file W ld node s = Except.error fault.undefined_behaviour ∨
    (∃ blk e, import_regular_file W ld node s = Except.ok (blk, { s with err := e })) ∨
    (∃ F, F ∉ s.module_load_stack ∧
      import_regular_file W ld node s =
        if W.scan_geterr F = true ∨ W.compile_geterr F = true then
          Except.ok (code_block.mk ⟨0, 0, 0, 0, F⟩ [],
            { enter_file F s with err := ((enter_file F s).err.err "link"
                ("error occurred when analysing <" ++ F ++ ">")) })
        else
          match find F (enter_file F s) with
          | Except.error f => Except.error f
          | Except.ok fileindex =>
            match ld (W.parse_result F) fileindex (enter_file F s) with
            | Except.error f => Except.error f
            | Except.ok (result, s1) =>
              if s1.module_load_stack.isEmpty then Except.error fault.undefined_behaviour
              else Except.ok (result,
                { s1 with module_load_stack := s1.module_load_stack.dropLast })) := by
  cases hpath : get_path W node with
  | none => exact Or.inl (by simp only [import_regular_file, hpath])
  | some path =>
    obtain ⟨e, hframe⟩ := find_file_frame W path node.get_location s
    by_cases hres : (find_file W path node.get_location s).1.length = 0
    · refine Or.inr (Or.inl
        ⟨code_block.mk ⟨0, 0, 0, 0, (find_file W path node.get_location s).1⟩ [], e, ?_⟩)
      rw [import_regular_file_unresolved W ld node s path hpath hres, hframe]
    · by_cases hon : (find_file W path node.get_location s).1 ∈ s.module_load_stack
      · exact Or.inr (Or.inl ⟨_, _, import_regular_file_on_stack W ld node s path hpath hres hon⟩)
      · exact Or.inr (Or.inr ⟨_, hon,
          import_regular_file_resolved W ld node s path _ hpath rfl hres hon⟩)

theorem import_regular_file_stack_nodup (W : World) (ld : load_fn) (node : call_expr)
    (s : linker) (blk : code_block) (s1 : linker)
    (hld : keeps_stack_nodup ld) (hs : stack_nodup s)
    (h : import_regular_file W ld node s = Except.ok (blk, s1)) : stack_nodup s1 := by
  rcases import_regular_file_cases W ld node s with hc | ⟨blk1, e, hc⟩ | ⟨F, hoff, hc⟩
  · rw [hc] at h; cases h
  · rw [hc] at h
    simp only [Except.ok.injEq, Prod.mk.injEq] at h
    rw [← h.2]; exact hs
  · rw [hc] at h
    have hent := enter_file_stack_nodup F s hs hoff
    split_ifs at h with herr
    · simp only [Except.ok.injEq, Prod.mk.injEq] at h
      rw [← h.2]; exact hent
    · cases hfind : find F (enter_file F s) with
      | error f => simp [hfind] at h
      | ok i =>
        simp only [hfind] at h
        cases hl : ld (W.parse_result F) i (enter_file F s) with
        | error f => simp [hl] at h
        | ok r =>
          obtain ⟨t, s2⟩ := r
          simp only [hl] at h
          split_ifs at h
          simp only [Except.ok.injEq, Prod.mk.injEq] at h
          rw [← h.2]
          exact (hld _ _ _ _ _ hent hl).sublist (List.dropLast_sublist _)

theorem import_regular_file_agree (W : World) (ld ld1 : load_fn) (node : call_expr)
    (s : linker) (hag : agree_on_stack_nodup ld ld1) (hs : stack_nodup s) :
    import_regular_file W ld node s = import_regular_file W ld1 node s := by
  cases hpath : get_path W node with
  | none => simp only [import_regular_file, hpath]
  | some path =>
    by_cases hres : (find_file W path node.get_location s).1.length = 0
    · rw [import_regular_file_unresolved W ld node s path hpath hres,
        import_regular_file_unresolved W ld1 node s path hpath hres]
    · by_cases hon : (find_file W path node.get_location s).1 ∈ s.module_load_stack
      · rw [import_regular_file_on_stack W ld node s path hpath hres hon,
          import_regular_file_on_stack W ld1 node s path hpath hres hon]
      · rw [import_regular_file_resolved W ld node s path _ hpath rfl hres hon,
          import_regular_file_resolved W ld1 node s path _ hpath rfl hres hon]
        have hent := enter_file_stack_nodup _ s hs hon
        simp only [hag _ _ _ hent]

theorem import_nasal_lib_stack_nodup (W : World) (ld : load_fn) (s : linker)
    (blk : code_block) (s1 : linker)
    (hld : keeps_stack_nodup ld) (hs : stack_nodup s)
    (h : import_nasal_lib W ld s = Except.ok (blk, s1)) : stack_nodup s1 := by
  cases hfiles : s.files with
  | nil => simp [import_nasal_lib, hfiles] at h
  | cons files_0 rest =>
    rw [import_nasal_lib_unfold W ld s files_0 rest hfiles] at h
    obtain ⟨e, hframe⟩ := find_file_frame W "lib.nas" ⟨0, 0, 0, 0, files_0⟩ s
    split_ifs at h with h1 h2 h3
    · simp only [Except.ok.injEq, Prod.mk.injEq] at h
      rw [← h.2, hframe]; exact hs
    · simp only [Except.ok.injEq, Prod.mk.injEq] at h
      rw [← h.2]; exact hs
    · simp only [Except.ok.injEq, Prod.mk.injEq] at h
      rw [← h.2]; exact hs
    · cases hfind : find (find_file W "lib.nas" ⟨0, 0, 0, 0, files_0⟩ s).1
          { s with
            lib_path := (find_file W "lib.nas" ⟨0, 0, 0, 0, files_0⟩ s).1
            files := s.files ++ [(find_file W "lib.nas" ⟨0, 0, 0, 0, files_0⟩ s).1] } with
      | error f => simp [hfind] at h
      | ok i =>
        simp only [hfind] at h
        exact hld _ _ _ _ _ (show stack_nodup { s with
            lib_path := (find_file W "lib.nas" ⟨0, 0, 0, 0, files_0⟩ s).1
            files := s.files ++ [(find_file W "lib.nas" ⟨0, 0, 0, 0, files_0⟩ s).1] } from hs) h

theorem import_nasal_lib_agree (W : World) (ld ld1 : load_fn) (s : linker)
    (hag : agree_on_stack_nodup ld ld1) (hs : stack_nodup s) :
    import_nasal_lib W ld s = import_nasal_lib W ld1 s := by
  cases hfiles : s.files with
  | nil => simp [import_nasal_lib, hfiles]
  | cons files_0 rest =>
    rw [import_nasal_lib_unfold W ld s files_0 rest hfiles,
      import_nasal_lib_unfold W ld1 s files_0 rest hfiles]
    have hst : stack_nodup { s with
        lib_path := (find_file W "lib.nas" ⟨0, 0, 0, 0, files_0⟩ s).1
        files := s.files ++ [(find_file W "lib.nas" ⟨0, 0, 0, 0, files_0⟩ s).1] } := hs
    simp only [hag _ _ _ hst]

theorem load_library_stack_nodup (W : World) (ld : load_fn) (tree : code_block) (s : linker)
    (t : code_block) (s1 : linker)
    (hld : keeps_stack_nodup ld) (hs : stack_nodup s)
    (h : load_library W ld tree s = Except.ok (t, s1)) : stack_nodup s1 := by
  cases hl : s.lib_loaded with
  | true =>
    rw [load_library_loaded W ld tree s hl] at h
    simp only [Except.ok.injEq, Prod.mk.injEq] at h
    rw [← h.2]; exact hs
  | false =>
    rw [load_library_not_loaded W ld tree s hl] at h
    cases hlib : import_nasal_lib W ld s with
    | error f => simp [hlib] at h
    | ok r =>
      obtain ⟨blk, s2⟩ := r
      simp only [hlib, Except.ok.injEq, Prod.mk.injEq] at h
      rw [← h.2]
      exact import_nasal_lib_stack_nodup W ld s blk s2 hld hs hlib

theorem load_library_agree (W : World) (ld ld1 : load_fn) (tree : code_block) (s : linker)
    (hag : agree_on_stack_nodup ld ld1) (hs : stack_nodup s) :
    load_library W ld tree s = load_library W ld1 tree s := by
  cases hl : s.lib_loaded with
  | true => rw [load_library_loaded W ld tree s hl, load_library_loaded W ld1 tree s hl]
  | false =>
    rw [load_library_not_loaded W ld tree s hl, load_library_not_loaded W ld1 tree s hl,
      import_nasal_lib_agree W ld ld1 s hag hs]

theorem generate_module_definition_stack (W : World) (block : code_block) (s : linker) :
    (generate_module_definition W block s).2.module_load_stack = s.module_load_stack := by
  obtain ⟨e, he⟩ := generate_module_definition_frame W block s
  rw [he]

theorem load_imports_stack_nodup (W : World) (ld : load_fn) (hld : keeps_stack_nodup ld)
    (stmts : List expr) (tree : code_block) (s : linker)
    (out : List expr) (t : code_block) (s1 : linker) (hs : stack_nodup s)
    (h : load_imports W ld stmts tree s = Except.ok (out, t, s1)) : stack_nodup s1 := by
  induction stmts generalizing tree s out t with
  | nil =>
    simp only [load_imports, Except.ok.injEq, Prod.mk.injEq] at h
    rw [← h.2.2]; exact hs
  | cons e rest ih =>
    by_cases hc : import_check e = true
    · obtain ⟨loc, idloc, name, calls, rfl⟩ := import_check_shape e hc
      simp only [load_imports, hc, not_true_eq_false, if_false] at h
      cases hi : import_regular_file W ld
          (call_expr.mk loc (expr.identifier { nd_loc := idloc, name := name }) calls) s with
      | error f => simp [hi] at h
      | ok r =>
        obtain ⟨blk, s2⟩ := r
        simp only [hi] at h
        have hs2 := import_regular_file_stack_nodup W ld _ s blk s2 hld hs hi
        cases hr : load_imports W ld rest
            (tree.add_expression (generate_module_definition W blk s2).1)
            (generate_module_definition W blk s2).2 with
        | error f => simp [hr] at h
        | ok r2 =>
          obtain ⟨out2, t2, s3⟩ := r2
          simp only [hr, Except.ok.injEq, Prod.mk.injEq] at h
          rw [h.2.2] at hr
          exact ih _ _ _ _ (by
            unfold stack_nodup
            rw [generate_module_definition_stack]; exact hs2) hr
    · simp only [load_imports, hc, Bool.false_eq_true, not_false_eq_true, if_true,
        Except.ok.injEq, Prod.mk.injEq] at h
      rw [← h.2.2]; exact hs

theorem load_imports_agree (W : World) (ld ld1 : load_fn) (hld : keeps_stack_nodup ld)
    (hag : agree_on_stack_nodup ld ld1)
    (stmts : List expr) (tree : code_block) (s : linker) (hs : stack_nodup s) :
    load_imports W ld stmts tree s = load_imports W ld1 stmts tree s := by
  induction stmts generalizing tree s with
  | nil => rfl
  | cons e rest ih =>
    by_cases hc : import_check e = true
    · obtain ⟨loc, idloc, name, calls, rfl⟩ := import_check_shape e hc
      simp only [load_imports, hc, not_true_eq_false, if_false]
      rw [← import_regular_file_agree W ld ld1 _ s hag hs]
      cases hi : import_regular_file W ld
          (call_expr.mk loc (expr.identifier { nd_loc := idloc, name := name }) calls) s with
      | error f => rfl
      | ok r =>
        obtain ⟨blk, s2⟩ := r
        have hs2 := import_regular_file_stack_nodup W ld _ s blk s2 hld hs hi
        simp only []
        rw [ih _ _ (by
          unfold stack_nodup
          rw [generate_module_definition_stack]; exact hs2)]
    · simp only [load_imports, hc, Bool.false_eq_true, not_false_eq_true, if_true]

theorem load_body_stack_nodup (W : World) (ld : load_fn) (hld : keeps_stack_nodup ld) :
    keeps_stack_nodup (load_body W ld) := by
  intro b i s t s1 hs h
  unfold load_body at h
  cases hf : s.files[i]? with
  | none => simp [hf] at h
  | some file =>
    simp only [hf] at h
    cases hl : load_library W ld (code_block.mk ⟨0, 0, 0, 0, file⟩ []) s with
    | error f => simp [hl] at h
    | ok r =>
      obtain ⟨libtree, s0⟩ := r
      simp only [hl] at h
      have hs0 := load_library_stack_nodup W ld _ s libtree s0 hld hs hl
      cases hi : load_imports W ld b.get_expressions libtree s0 with
      | error f => simp [hi] at h
      | ok r2 =>
        obtain ⟨out, t2, s2⟩ := r2
        simp only [hi, Except.ok.injEq, Prod.mk.injEq] at h
        rw [← h.2]
        exact load_imports_stack_nodup W ld hld _ _ _ _ _ _ hs0 hi

theorem load_body_agree (W : World) (ld ld1 : load_fn) (hld : keeps_stack_nodup ld)
    (hag : agree_on_stack_nodup ld ld1) :
    agree_on_stack_nodup (load_body W ld) (load_body W ld1) := by
  intro b i s hs
  unfold load_body
  cases hf : s.files[i]? with
  | none => rfl
  | some file =>
    simp only []
    rw [← load_library_agree W ld ld1 _ s hag hs]
    cases hl : load_library W ld (code_block.mk ⟨0, 0, 0, 0, file⟩ []) s with
    | error f => rfl
    | ok r =>
      obtain ⟨libtree, s0⟩ := r
      have hs0 := load_library_stack_nodup W ld _ s libtree s0 hld hs hl
      simp only []
      rw [load_imports_agree W ld ld1 hld hag _ _ _ hs0]

theorem load_nested_stack_nodup (W : World) (fuel : Nat) :
    keeps_stack_nodup (load_nested W fuel) := by
  induction fuel with
  | zero => intro b i s t s1 _ h; cases h
  | succ k ih =>
    show keeps_stack_nodup (load W k)
    rw [load_eq_load_body]
    exact load_body_stack_nodup W _ ih

theorem load_stack_nodup (W : World) (fuel : Nat) : keeps_stack_nodup (load W fuel) := by
  rw [load_eq_load_body]
  exact load_body_stack_nodup W _ (load_nested_stack_nodup W fuel)

theorem import_regular_file_push_guarded (W : World) (ld : load_fn) (node : call_expr)
    (s : linker) (blk : code_block) (s1 : linker)
    (hld : ∀ b i s t s1, ld b i s = Except.ok (t, s1) →
      s1.module_load_stack = s.module_load_stack)
    (h : import_regular_file W ld node s = Except.ok (blk, s1)) :
    s1.module_load_stack = s.module_load_stack ∨
    ∃ F, check_self_import s F = false ∧ s1.module_load_stack = s.module_load_stack ++ [F] := by
  rcases import_regular_file_cases W ld node s with hc | ⟨blk1, e, hc⟩ | ⟨F, hoff, hc⟩
  · rw [hc] at h; cases h
  · rw [hc] at h
    simp only [Except.ok.injEq, Prod.mk.injEq] at h
    rw [← h.2]; exact Or.inl rfl
  · rw [hc] at h
    have hchk : check_self_import s F = false := by
      cases hcs : check_self_import s F with
      | false => rfl
      | true => exact absurd ((check_self_import_iff _ _).1 hcs) hoff
    split_ifs at h with herr
    · simp only [Except.ok.injEq, Prod.mk.injEq] at h
      rw [← h.2]
      exact Or.inr ⟨F, hchk, enter_file_stack F s⟩
    · cases hfind : find F (enter_file F s) with
      | error f => simp [hfind] at h
      | ok i =>
        simp only [hfind] at h
        cases hl : ld (W.parse_result F) i (enter_file F s) with
        | error f => simp [hl] at h
        | ok r =>
          obtain ⟨t, s2⟩ := r
          simp only [hl] at h
          split_ifs at h
          simp only [Except.ok.injEq, Prod.mk.injEq] at h
          rw [← h.2]
          refine Or.inl ?_
          show s2.module_load_stack.dropLast = s.module_load_stack
          rw [hld _ _ _ _ _ hl, enter_file_stack]
          simp

/-- C10: during `link` the active stack never holds a file name twice. It
    starts as the entry file alone; `import_regular_file` leaves it as it
    was or, after `check_self_import` returned false for a file, with that
    file pushed; `load`, `import_regular_file` and `import_nasal_lib` return
    a duplicate-free stack when entered with one and enter every nested
    `load` with one, so that what a nested `load` would do on a stack with
    duplicates has no effect on the result. -/
theorem module_load_stack_nodup (W : World) (fuel : Nat) :
    (∀ s self spath, (link_init s self spath).module_load_stack = [self]) ∧
    (∀ ld node s blk s1,
      (∀ b i s t s1, ld b i s = Except.ok (t, s1) →
        s1.module_load_stack = s.module_load_stack) →
      import_regular_file W ld node s = Except.ok (blk, s1) →
      s1.module_load_stack = s.module_load_stack ∨
      ∃ F, check_self_import s F = false ∧
        s1.module_load_stack = s.module_load_stack ++ [F]) ∧
    (∀ b i s t s1, s.module_load_stack.Nodup →
      load W fuel b i s = Except.ok (t, s1) → s1.module_load_stack.Nodup) ∧
    (∀ node s blk s1, s.module_load_stack.Nodup →
      import_regular_file W (load_nested W fuel) node s = Except.ok (blk, s1) →
      s1.module_load_stack.Nodup) ∧
    (∀ s blk s1, s.module_load_stack.Nodup →
      import_nasal_lib W (load_nested W fuel) s = Except.ok (blk, s1) →
      s1.module_load_stack.Nodup) ∧
    (∀ ld1 : load_fn,
      (∀ b i s, s.module_load_stack.Nodup → load_nested W fuel b i s = ld1 b i s) →
      ∀ b i s, s.module_load_stack.Nodup → load W fuel b i s = load_body W ld1 b i s) ∧
    (∀ s program_root self spath t s1,
      link W fuel s program_root self spath = Except.ok (t, s1) →
      s1.module_load_stack.Nodup) := by
  refine ⟨fun _ _ _ => rfl, ?_, ?_, ?_, ?_, ?_, ?_⟩
  · intro ld node s blk s1 hld h
    exact import_regular_file_push_guarded W ld node s blk s1 hld h
  · exact load_stack_nodup W fuel
  · intro node s blk s1 hs h
    exact import_regular_file_stack_nodup W _ node s blk s1 (load_nested_stack_nodup W fuel) hs h
  · intro s blk s1 hs h
    exact import_nasal_lib_stack_nodup W _ s blk s1 (load_nested_stack_nodup W fuel) hs h
  · intro ld1 hag b i s hs
    rw [load_eq_load_body]
    exact load_body_agree W _ ld1 (load_nested_stack_nodup W fuel) hag b i s hs
  · intro s program_root self spath t s1 h
    exact load_stack_nodup W fuel _ _ _ _ _
      (show stack_nodup (link_init s self spath) from List.nodup_singleton self) h

/-- Witness of C10 on two files that import each other. -/
theorem module_load_stack_nodup_witness :
    ∃ t s1,
      link world_cycle 3 (linker_fresh []) (world_cycle.parse_result "a.nas") "a.nas" false =
        Except.ok (t, s1) ∧ s1.module_load_stack.Nodup := by
  obtain ⟨t, s1, h⟩ := link_returns world_cycle ["a.nas", "b.nas"] world_cycle_access 3
    (by decide) (linker_fresh []) (world_cycle.parse_result "a.nas") "a.nas" false
  exact ⟨t, s1, h, (module_load_stack_nodup world_cycle 3).2.2.2.2.2.2 _ _ _ _ _ _ h⟩

/-! ## Properties of the state that `load` keeps -/

theorem exist_eq (file : String) (s : linker) :
    (file ∈ s.files ∧ exist file s = (true, s)) ∨
    (file ∉ s.files ∧ exist file s = (false, { s with files := s.files ++ [file] })) := by
  unfold exist
  by_cases h : (s.files.any fun fname => file == fname) = true
  · rw [if_pos h]
    exact Or.inl ⟨by simpa [List.any_eq_true] using h, rfl⟩
  · rw [if_neg h]
    exact Or.inr ⟨by simpa [List.any_eq_true] using h, rfl⟩

theorem exist_closed (P : linker → Prop) (hP : state_closed P) (file : String) (s : linker)
    (h : P s) : P (exist file s).2 := by
  rcases exist_eq file s with ⟨_, he⟩ | ⟨hn, he⟩
  · rw [he]; exact h
  · rw [he]; exact hP.add_file s file hn h

theorem enter_file_closed (P : linker → Prop) (hP : state_closed P) (file : String)
    (s : linker) (hoff : file ∉ s.module_load_stack) (h : P s) : P (enter_file file s) := by
  have h1 := exist_closed P hP file s h
  have hst : (exist file s).2.module_load_stack = s.module_load_stack := by
    rw [(exist_files file s).1]
  exact hP.push _ file (by rw [hst]; exact hoff) h1

theorem import_regular_file_keeps (P : linker → Prop) (hP : state_closed P) (W : World)
    (ld : load_fn) (node : call_expr) (s : linker) (blk : code_block) (s1 : linker)
    (hld : keeps P ld) (hs : P s)
    (h : import_regular_file W ld node s = Except.ok (blk, s1)) : P s1 := by
  rcases import_regular_file_cases W ld node s with hc | ⟨blk1, e, hc⟩ | ⟨F, hoff, hc⟩
  · rw [hc] at h; cases h
  · rw [hc] at h
    simp only [Except.ok.injEq, Prod.mk.injEq] at h
    rw [← h.2]; exact hP.err s e hs
  · rw [hc] at h
    have hent := enter_file_closed P hP F s hoff hs
    split_ifs at h with herr
    · simp only [Except.ok.injEq, Prod.mk.injEq] at h
      rw [← h.2]; exact hP.err _ _ hent
    · cases hfind : find F (enter_file F s) with
      | error f => simp [hfind] at h
      | ok i =>
        simp only [hfind] at h
        cases hl : ld (W.parse_result F) i (enter_file F s) with
        | error f => simp [hl] at h
        | ok r =>
          obtain ⟨t, s2⟩ := r
          simp only [hl] at h
          split_ifs at h
          simp only [Except.ok.injEq, Prod.mk.injEq] at h
          rw [← h.2]
          exact hP.pop _ (hld _ _ _ _ _ hent hl)

theorem import_regular_file_agree_on (P : linker → Prop) (hP : state_closed P) (W : World)
    (ld ld1 : load_fn) (node : call_expr) (s : linker)
    (hag : agree_on P ld ld1) (hs : P s) :
    import_regular_file W ld node s = import_regular_file W ld1 node s := by
  cases hpath : get_path W node with
  | none => simp only [import_regular_file, hpath]
  | some path =>
    by_cases hres : (find_file W path node.get_location s).1.length = 0
    · rw [import_regular_file_unresolved W ld node s path hpath hres,
        import_regular_file_unresolved W ld1 node s path hpath hres]
    · by_cases hon : (find_file W path node.get_location s).1 ∈ s.module_load_stack
      · rw [import_regular_file_on_stack W ld node s path hpath hres hon,
          import_regular_file_on_stack W ld1 node s path hpath hres hon]
      · rw [import_regular_file_resolved W ld node s path _ hpath rfl hres hon,
          import_regular_file_resolved W ld1 node s path _ hpath rfl hres hon]
        have hent := enter_file_closed P hP _ s hon hs
        simp only [hag _ _ _ hent]

theorem lib_file_closed (P : linker → Prop) (hP : state_closed P) (s : linker) (F : String)
    (e : error) (h2 : F ∉ s.files) (hs : P s) :
    P { s with lib_path := F, files := s.files ++ [F] } ∧
    P { s with lib_path := F, files := s.files ++ [F], err := e } := by
  have hA : P { s with lib_path := F } := hP.lib_path s F hs
  have hB : P { s with lib_path := F, files := s.files ++ [F] } :=
    hP.add_file { s with lib_path := F } F h2 hA
  exact ⟨hB, hP.err { s with lib_path := F, files := s.files ++ [F] } e hB⟩

theorem import_nasal_lib_keeps (P : linker → Prop) (hP : state_closed P) (W : World)
    (ld : load_fn) (s : linker) (blk : code_block) (s1 : linker)
    (hld : keeps P ld) (hs : P s)
    (h : import_nasal_lib W ld s = Except.ok (blk, s1)) : P s1 := by
  cases hfiles : s.files with
  | nil => simp [import_nasal_lib, hfiles] at h
  | cons files_0 rest =>
    rw [import_nasal_lib_unfold W ld s files_0 rest hfiles] at h
    obtain ⟨e, hframe⟩ := find_file_frame W "lib.nas" ⟨0, 0, 0, 0, files_0⟩ s
    split_ifs at h with h1 h2 h3
    · simp only [Except.ok.injEq, Prod.mk.injEq] at h
      rw [← h.2, hframe]; exact hP.err s e hs
    · simp only [Except.ok.injEq, Prod.mk.injEq] at h
      rw [← h.2]; exact hP.lib_path s _ hs
    · simp only [Except.ok.injEq, Prod.mk.injEq] at h
      rw [← h.2]
      exact (lib_file_closed P hP s _ _ h2 hs).2
    · cases hfind : find (find_file W "lib.nas" ⟨0, 0, 0, 0, files_0⟩ s).1
          { s with
            lib_path := (find_file W "lib.nas" ⟨0, 0, 0, 0, files_0⟩ s).1
            files := s.files ++ [(find_file W "lib.nas" ⟨0, 0, 0, 0, files_0⟩ s).1] } with
      | error f => simp [hfind] at h
      | ok i =>
        simp only [hfind] at h
        exact hld _ _ _ _ _ (lib_file_closed P hP s _ s.err h2 hs).1 h

theorem import_nasal_lib_agree_on (P : linker → Prop) (hP : state_closed P) (W : World)
    (ld ld1 : load_fn) (s : linker) (hag : agree_on P ld ld1) (hs : P s) :
    import_nasal_lib W ld s = import_nasal_lib W ld1 s := by
  cases hfiles : s.files with
  | nil => simp [import_nasal_lib, hfiles]
  | cons files_0 rest =>
    rw [import_nasal_lib_unfold W ld s files_0 rest hfiles,
      import_nasal_lib_unfold W ld1 s files_0 rest hfiles]
    by_cases h2 : (find_file W "lib.nas" ⟨0, 0, 0, 0, files_0⟩ s).1 ∈ s.files
    · simp only [h2, if_true]
    · have hst : P { s with
          lib_path := (find_file W "lib.nas" ⟨0, 0, 0, 0, files_0⟩ s).1
          files := s.files ++ [(find_file W "lib.nas" ⟨0, 0, 0, 0, files_0⟩ s).1] } :=
        (lib_file_closed P hP s _ s.err h2 hs).1
      simp only [hag _ _ _ hst]

theorem load_library_keeps (P : linker → Prop) (hP : state_closed P) (W : World)
    (ld : load_fn) (tree : code_block) (s : linker) (t : code_block) (s1 : linker)
    (hld : keeps P ld) (hs : P s)
    (h : load_library W ld tree s = Except.ok (t, s1)) : P s1 := by
  cases hl : s.lib_loaded with
  | true =>
    rw [load_library_loaded W ld tree s hl] at h
    simp only [Except.ok.injEq, Prod.mk.injEq] at h
    rw [← h.2]; exact hs
  | false =>
    rw [load_library_not_loaded W ld tree s hl] at h
    cases hlib : import_nasal_lib W ld s with
    | error f => simp [hlib] at h
    | ok r =>
      obtain ⟨blk, s2⟩ := r
      simp only [hlib, Except.ok.injEq, Prod.mk.injEq] at h
      rw [← h.2]
      exact hP.lib_loaded s2 (import_nasal_lib_keeps P hP W ld s blk s2 hld hs hlib)

theorem load_library_agree_on (P : linker → Prop) (hP : state_closed P) (W : World)
    (ld ld1 : load_fn) (tree : code_block) (s : linker)
    (hag : agree_on P ld ld1) (hs : P s) :
    load_library W ld tree s = load_library W ld1 tree s := by
  cases hl : s.lib_loaded with
  | true => rw [load_library_loaded W ld tree s hl, load_library_loaded W ld1 tree s hl]
  | false =>
    rw [load_library_not_loaded W ld tree s hl, load_library_not_loaded W ld1 tree s hl,
      import_nasal_lib_agree_on P hP W ld ld1 s hag hs]

theorem generate_module_definition_closed (P : linker → Prop) (hP : state_closed P)
    (W : World) (block : code_block) (s : linker) (h : P s) :
    P (generate_module_definition W block s).2 := by
  obtain ⟨e, he⟩ := generate_module_definition_frame W block s
  rw [he]; exact hP.err s e h

theorem load_imports_keeps (P : linker → Prop) (hP : state_closed P) (W : World)
    (ld : load_fn) (hld : keeps P ld)
    (stmts : List expr) (tree : code_block) (s : linker)
    (out : List expr) (t : code_block) (s1 : linker) (hs : P s)
    (h : load_imports W ld stmts tree s = Except.ok (out, t, s1)) : P s1 := by
  induction stmts generalizing tree s out t with
  | nil =>
    simp only [load_imports, Except.ok.injEq, Prod.mk.injEq] at h
    rw [← h.2.2]; exact hs
  | cons e rest ih =>
    by_cases hc : import_check e = true
    · obtain ⟨loc, idloc, name, calls, rfl⟩ := import_check_shape e hc
      simp only [load_imports, hc, not_true_eq_false, if_false] at h
      cases hi : import_regular_file W ld
          (call_expr.mk loc (expr.identifier { nd_loc := idloc, name := name }) calls) s with
      | error f => simp [hi] at h
      | ok r =>
        obtain ⟨blk, s2⟩ := r
        simp only [hi] at h
        have hs2 := import_regular_file_keeps P hP W ld _ s blk s2 hld hs hi
        cases hr : load_imports W ld rest
            (tree.add_expression (generate_module_definition W blk s2).1)
            (generate_module_definition W blk s2).2 with
        | error f => simp [hr] at h
        | ok r2 =>
          obtain ⟨out2, t2, s3⟩ := r2
          simp only [hr, Except.ok.injEq, Prod.mk.injEq] at h
          rw [h.2.2] at hr
          exact ih _ _ _ _ (generate_module_definition_closed P hP W blk s2 hs2) hr
    · simp only [load_imports, hc, Bool.false_eq_true, not_false_eq_true, if_true,
        Except.ok.injEq, Prod.mk.injEq] at h
      rw [← h.2.2]; exact hs

theorem load_imports_agree_on (P : linker → Prop) (hP : state_closed P) (W : World)
    (ld ld1 : load_fn) (hld : keeps P ld) (hag : agree_on P ld ld1)
    (stmts : List expr) (tree : code_block) (s : linker) (hs : P s) :
    load_imports W ld stmts tree s = load_imports W ld1 stmts tree s := by
  induction stmts generalizing tree s with
  | nil => rfl
  | cons e rest ih =>
    by_cases hc : import_check e = true
    · obtain ⟨loc, idloc, name, calls, rfl⟩ := import_check_shape e hc
      simp only [load_imports, hc, not_true_eq_false, if_false]
      rw [← import_regular_file_agree_on P hP W ld ld1 _ s hag hs]
      cases hi : import_regular_file W ld
          (call_expr.mk loc (expr.identifier { nd_loc := idloc, name := name }) calls) s with
      | error f => rfl
      | ok r =>
        obtain ⟨blk, s2⟩ := r
        have hs2 := import_regular_file_keeps P hP W ld _ s blk s2 hld hs hi
        simp only []
        rw [ih _ _ (generate_module_definition_closed P hP W blk s2 hs2)]
    · simp only [load_imports, hc, Bool.false_eq_true, not_false_eq_true, if_true]

theorem load_body_keeps (P : linker → Prop) (hP : state_closed P) (W : World)
    (ld : load_fn) (hld : keeps P ld) : keeps P (load_body W ld) := by
  intro b i s t s1 hs h
  unfold load_body at h
  cases hf : s.files[i]? with
  | none => simp [hf] at h
  | some file =>
    simp only [hf] at h
    cases hl : load_library W ld (code_block.mk ⟨0, 0, 0, 0, file⟩ []) s with
    | error f => simp [hl] at h
    | ok r =>
      obtain ⟨libtree, s0⟩ := r
      simp only [hl] at h
      have hs0 := load_library_keeps P hP W ld _ s libtree s0 hld hs hl
      cases hi : load_imports W ld b.get_expressions libtree s0 with
      | error f => simp [hi] at h
      | ok r2 =>
        obtain ⟨out, t2, s2⟩ := r2
        simp only [hi, Except.ok.injEq, Prod.mk.injEq] at h
        rw [← h.2]
        exact load_imports_keeps P hP W ld hld _ _ _ _ _ _ hs0 hi

theorem load_body_agree_on (P : linker → Prop) (hP : state_closed P) (W : World)
    (ld ld1 : load_fn) (hld : keeps P ld) (hag : agree_on P ld ld1) :
    agree_on P (load_body W ld) (load_body W ld1) := by
  intro b i s hs
  unfold load_body
  cases hf : s.files[i]? with
  | none => rfl
  | some file =>
    simp only []
    rw [← load_library_agree_on P hP W ld ld1 _ s hag hs]
    cases hl : load_library W ld (code_block.mk ⟨0, 0, 0, 0, file⟩ []) s with
    | error f => rfl
    | ok r =>
      obtain ⟨libtree, s0⟩ := r
      have hs0 := load_library_keeps P hP W ld _ s libtree s0 hld hs hl
      simp only []
      rw [load_imports_agree_on P hP W ld ld1 hld hag _ _ _ hs0]

theorem load_nested_keeps (P : linker → Prop) (hP : state_closed P) (W : World)
    (fuel : Nat) : keeps P (load_nested W fuel) := by
  induction fuel with
  | zero => intro b i s t s1 _ h; cases h
  | succ k ih =>
    show keeps P (load W k)
    rw [load_eq_load_body]
    exact load_body_keeps P hP W _ ih

theorem load_keeps (P : linker → Prop) (hP : state_closed P) (W : World) (fuel : Nat) :
    keeps P (load W fuel) := by
  rw [load_eq_load_body]
  exact load_body_keeps P hP W _ (load_nested_keeps P hP W fuel)

/-! ## The list `files` holds no file twice -/

theorem files_nodup_closed : state_closed (fun s => s.files.Nodup) where
  err := fun _ _ h => h
  lib_path := fun _ _ h => h
  lib_loaded := fun _ h => h
  add_file := fun _ f hf h =>
    List.Nodup.append h (List.nodup_singleton f)
      (fun _ ha hb => hf (List.mem_singleton.1 hb ▸ ha))
  push := fun _ _ _ h => h
  pop := fun _ h => h

theorem import_regular_file_files_guarded (W : World) (ld : load_fn) (node : call_expr)
    (s : linker) (blk : code_block) (s1 : linker)
    (hld : ∀ b i s t s1, ld b i s = Except.ok (t, s1) → s1.files = s.files)
    (h : import_regular_file W ld node s = Except.ok (blk, s1)) :
    s1.files = s.files ∨ ∃ F, s1.files = (exist F s).2.files := by
  rcases import_regular_file_cases W ld node s with hc | ⟨blk1, e, hc⟩ | ⟨F, hoff, hc⟩
  · rw [hc] at h; cases h
  · rw [hc] at h
    simp only [Except.ok.injEq, Prod.mk.injEq] at h
    rw [← h.2]; exact Or.inl rfl
  · rw [hc] at h
    refine Or.inr ⟨F, ?_⟩
    split_ifs at h with herr
    · simp only [Except.ok.injEq, Prod.mk.injEq] at h
      rw [← h.2]; rfl
    · cases hfind : find F (enter_file F s) with
      | error f => simp [hfind] at h
      | ok i =>
        simp only [hfind] at h
        cases hl : ld (W.parse_result F) i (enter_file F s) with
        | error f => simp [hl] at h
        | ok r =>
          obtain ⟨t, s2⟩ := r
          simp only [hl] at h
          split_ifs at h
          simp only [Except.ok.injEq, Prod.mk.injEq] at h
          rw [← h.2]
          show s2.files = _
          rw [hld _ _ _ _ _ hl]; rfl

theorem import_nasal_lib_files_guarded (W : World) (ld : load_fn)
    (s : linker) (blk : code_block) (s1 : linker)
    (hld : ∀ b i s t s1, ld b i s = Except.ok (t, s1) → s1.files = s.files)
    (h : import_nasal_lib W ld s = Except.ok (blk, s1)) :
    s1.files = s.files ∨ ∃ F, s1.files = (exist F s).2.files := by
  cases hfiles : s.files with
  | nil => simp [import_nasal_lib, hfiles] at h
  | cons files_0 rest =>
    rw [import_nasal_lib_unfold W ld s files_0 rest hfiles] at h
    obtain ⟨e, hframe⟩ := find_file_frame W "lib.nas" ⟨0, 0, 0, 0, files_0⟩ s
    generalize (find_file W "lib.nas" ⟨0, 0, 0, 0, files_0⟩ s).1 = F at h
    rw [← hfiles]
    have hex : F ∉ s.files → (exist F s).2.files = s.files ++ [F] := by
      intro hn
      rcases exist_eq F s with ⟨hm, _⟩ | ⟨_, he⟩
      · exact absurd hm hn
      · rw [he]
    split_ifs at h with h1 h2 h3
    · simp only [Except.ok.injEq, Prod.mk.injEq] at h
      rw [← h.2, hframe]; exact Or.inl rfl
    · simp only [Except.ok.injEq, Prod.mk.injEq] at h
      rw [← h.2]; exact Or.inl rfl
    · simp only [Except.ok.injEq, Prod.mk.injEq] at h
      rw [← h.2]; exact Or.inr ⟨F, (hex h2).symm⟩
    · cases hfind : find F { s with lib_path := F, files := s.files ++ [F] } with
      | error f => simp [hfind] at h
      | ok i =>
        simp only [hfind] at h
        rw [hld _ _ _ _ _ h]
        exact Or.inr ⟨F, (hex h2).symm⟩

/-- C11: during `link` the list `files` never holds a name twice. It starts
    as the entry file alone; `exist` leaves it as it was when the name is in
    it and appends the name when it is not; `import_regular_file` and
    `import_nasal_lib`, apart from what their nested `load` does, leave it
    as it was or as a call of `exist` leaves it; `load`,
    `import_regular_file` and `import_nasal_lib` return a duplicate-free
    list when entered with one and enter every nested `load` with one, so
    that what a nested `load` would do on a list with duplicates has no
    effect on the result. -/
theorem files_nodup (W : World) (fuel : Nat) :
    (∀ s self spath, (link_init s self spath).files = [self]) ∧
    (∀ file s,
      (file ∈ s.files ∧ (exist file s).2.files = s.files) ∨
      (file ∉ s.files ∧ (exist file s).2.files = s.files ++ [file])) ∧
    (∀ ld node s blk s1,
      (∀ b i s t s1, ld b i s = Except.ok (t, s1) → s1.files = s.files) →
      import_regular_file W ld node s = Except.ok (blk, s1) →
      s1.files = s.files ∨ ∃ F, s1.files = (exist F s).2.files) ∧
    (∀ ld s blk s1,
      (∀ b i s t s1, ld b i s = Except.ok (t, s1) → s1.files = s.files) →
      import_nasal_lib W ld s = Except.ok (blk, s1) →
      s1.files = s.files ∨ ∃ F, s1.files = (exist F s).2.files) ∧
    (∀ b i s t s1, s.files.Nodup →
      load W fuel b i s = Except.ok (t, s1) → s1.files.Nodup) ∧
    (∀ node s blk s1, s.files.Nodup →
      import_regular_file W (load_nested W fuel) node s = Except.ok (blk, s1) →
      s1.files.Nodup) ∧
    (∀ s blk s1, s.files.Nodup →
      import_nasal_lib W (load_nested W fuel) s = Except.ok (blk, s1) →
      s1.files.Nodup) ∧
    (∀ ld1 : load_fn,
      (∀ b i s, s.files.Nodup → load_nested W fuel b i s = ld1 b i s) →
      ∀ b i s, s.files.Nodup → load W fuel b i s = load_body W ld1 b i s) ∧
    (∀ s program_root self spath t s1,
      link W fuel s program_root self spath = Except.ok (t, s1) →
      s1.files.Nodup) := by
  refine ⟨fun _ _ _ => rfl, ?_, ?_, ?_, ?_, ?_, ?_, ?_, ?_⟩
  · intro file s
    rcases exist_eq file s with ⟨hm, he⟩ | ⟨hm, he⟩
    · exact Or.inl ⟨hm, by rw [he]⟩
    · exact Or.inr ⟨hm, by rw [he]⟩
  · intro ld node s blk s1 hld h
    exact import_regular_file_files_guarded W ld node s blk s1 hld h
  · intro ld s blk s1 hld h
    exact import_nasal_lib_files_guarded W ld s blk s1 hld h
  · exact load_keeps _ files_nodup_closed W fuel
  · intro node s blk s1 hs h
    exact import_regular_file_keeps _ files_nodup_closed W _ node s blk s1
      (load_nested_keeps _ files_nodup_closed W fuel) hs h
  · intro s blk s1 hs h
    exact import_nasal_lib_keeps _ files_nodup_closed W _ s blk s1
      (load_nested_keeps _ files_nodup_closed W fuel) hs h
  · intro ld1 hag b i s hs
    rw [load_eq_load_body]
    exact load_body_agree_on _ files_nodup_closed W _ ld1
      (load_nested_keeps _ files_nodup_closed W fuel) hag b i s hs
  · intro s program_root self spath t s1 h
    exact load_keeps _ files_nodup_closed W fuel _ _ _ _ _
      (show (link_init s self spath).files.Nodup from List.nodup_singleton self) h

/-- Witness of C11 on two files that import each other. -/
theorem files_nodup_witness :
    ∃ t s1,
      link world_cycle 3 (linker_fresh []) (world_cycle.parse_result "a.nas") "a.nas" false =
        Except.ok (t, s1) ∧ s1.files.Nodup := by
  obtain ⟨t, s1, h⟩ := link_returns world_cycle ["a.nas", "b.nas"] world_cycle_access 3
    (by decide) (linker_fresh []) (world_cycle.parse_result "a.nas") "a.nas" false
  exact ⟨t, s1, h, (files_nodup world_cycle 3).2.2.2.2.2.2.2.2 _ _ _ _ _ _ h⟩

/-! ## The first candidate that exists -/

theorem find_first_split (p : String → Bool) (l : List String) :
    (∃ before i after, l = before ++ i :: after ∧ (∀ c ∈ before, p c = false) ∧
      p i = true ∧ l.find? p = some i) ∨
    ((∀ c ∈ l, p c = false) ∧ l.find? p = none) := by
  cases h : l.find? p with
  | none =>
    refine Or.inr ⟨?_, rfl⟩
    intro c hc
    have := List.find?_eq_none.1 h c hc
    simpa using this
  | some i =>
    obtain ⟨hi, as, bs, hl, has⟩ := List.find?_eq_some.1 h
    refine Or.inl ⟨as, i, bs, hl, ?_, hi, rfl⟩
    intro c hc
    simpa using has c hc

theorem find_none_of_all_false (p : String → Bool) (l : List String)
    (h : ∀ c ∈ l, p c = false) : l.find? p = none := by
  apply List.find?_eq_none.2
  intro x hx
  simp [h x hx]

theorem find_some_of_split (p : String → Bool) (l before after : List String) (i : String)
    (hl : l = before ++ i :: after) (hb : ∀ c ∈ before, p c = false) (hi : p i = true) :
    l.find? p = some i := by
  apply List.find?_eq_some.2
  refine ⟨hi, before, after, hl, ?_⟩
  intro a ha
  simp [hb a ha]

theorem find_file_resolved (W : World) (f : String) (loc : span) (s : linker) (i : String)
    (h : (find_file_fpath W s f).find? (fun i => W.access i) = some i) :
    find_file W f loc s = (i, s) := by
  rw [find_file_unfold]
  exact find_file_once_some W _ f loc s i h

theorem find_file_lib_retry (W : World) (loc : span) (s : linker)
    (h : (find_file_fpath W s "lib.nas").find? (fun i => W.access i) = none) :
    find_file W "lib.nas" loc s = find_file W (lib_retry_name W) loc s := by
  rw [find_file_unfold]
  exact find_file_once_none_lib W _ loc s h

theorem find_file_unresolved (W : World) (f : String) (loc : span) (s : linker)
    (h : (find_file_fpath W s f).find? (fun i => W.access i) = none)
    (hn : f ≠ "lib.nas") :
    find_file W f loc s =
      ("", { s with err := s.err ++ [{
        level := severity.fatal, stage := "link",
        info := if s.show_path = true then
            "in <" ++ loc.file ++ ">: " ++ "cannot find file <" ++ f ++
              "> in these paths:\n" ++
              String.join ((find_file_fpath W s f).map (fun i => "  -> " ++ i ++ "\n"))
          else
            "in <" ++ loc.file ++ ">: " ++ "cannot find file <" ++ f ++ ">, " ++
              "use <-d> to get detail search path" }] }) := by
  rw [find_file_unfold]
  simp only [find_file_once, h, hn, if_false]
  cases hsp : s.show_path with
  | false => simp [error.err]
  | true =>
    simp only [not_true_eq_false, if_false, if_true, error.err, find_file_paths]
    rw [foldl_append_eq_join (fun i => "  -> " ++ i ++ "\n")]
    simp

theorem lib_retry_name_ne (W : World) : lib_retry_name W ≠ "lib.nas" := by
  unfold lib_retry_name
  cases W.is_windows <;> decide

/-- What `find_file` returns, on either platform. -/
theorem find_file_spec (W : World) (f : String) (loc : span) (s : linker) :
    (∃ before i after,
      f :: s.envpath.map (fun p => p ++ W.sep ++ f) = before ++ i :: after ∧
      (∀ c ∈ before, W.access c = false) ∧ W.access i = true ∧
      find_file W f loc s = (i, s)) ∨
    ((∀ c ∈ f :: s.envpath.map (fun p => p ++ W.sep ++ f), W.access c = false) ∧
      ((f = "lib.nas" ∧ find_file W f loc s = find_file W (lib_retry_name W) loc s) ∨
       (f ≠ "lib.nas" ∧ (find_file W f loc s).1 = ""))) := by
  rcases find_first_split (fun i => W.access i) (find_file_fpath W s f) with
    ⟨before, i, after, hl, hb, hi, hfind⟩ | ⟨hall, hfind⟩
  · exact Or.inl ⟨before, i, after, hl, hb, hi, find_file_resolved W f loc s i hfind⟩
  · refine Or.inr ⟨hall, ?_⟩
    by_cases hf : f = "lib.nas"
    · subst hf
      exact Or.inl ⟨rfl, find_file_lib_retry W loc s hfind⟩
    · refine Or.inr ⟨hf, ?_⟩
      rw [find_file_unresolved W f loc s hfind hf]

/-- C12: `find_file` returns the first candidate that exists, the candidates
    being the name itself and then every entry of the search path joined with
    the name, in the order of the search path; when no candidate exists and
    the name is `lib.nas` the result is that of `find_file` on the name under
    `std`, and for any other name it is the empty string. The separator is
    the one of the platform; without Windows the candidates are
    `f, p1/f, .., pn/f` and the retry is `find_file("std/lib.nas")`. -/
theorem find_file_first_existing (W : World) (f : String) (loc : span) (s : linker) :
    ((∃ before i after,
        f :: s.envpath.map (fun p => p ++ W.sep ++ f) = before ++ i :: after ∧
        (∀ c ∈ before, W.access c = false) ∧ W.access i = true ∧
        find_file W f loc s = (i, s)) ∨
      ((∀ c ∈ f :: s.envpath.map (fun p => p ++ W.sep ++ f), W.access c = false) ∧
        ((f = "lib.nas" ∧ find_file W f loc s =
            find_file W (if W.is_windows = true then "std\\lib.nas" else "std/lib.nas") loc s) ∨
         (f ≠ "lib.nas" ∧ (find_file W f loc s).1 = "")))) ∧
    (W.is_windows = false →
      (∃ before i after,
        f :: s.envpath.map (fun p => p ++ "/" ++ f) = before ++ i :: after ∧
        (∀ c ∈ before, W.access c = false) ∧ W.access i = true ∧
        find_file W f loc s = (i, s)) ∨
      ((∀ c ∈ f :: s.envpath.map (fun p => p ++ "/" ++ f), W.access c = false) ∧
        ((f = "lib.nas" ∧ find_file W f loc s = find_file W "std/lib.nas" loc s) ∨
         (f ≠ "lib.nas" ∧ (find_file W f loc s).1 = "")))) := by
  refine ⟨find_file_spec W f loc s, ?_⟩
  intro hw
  have h := find_file_spec W f loc s
  simp only [World.sep, lib_retry_name, hw, Bool.false_eq_true, if_false] at h
  exact h

/-- Witness of C12: the second entry of the search path holds the file. -/
theorem find_file_first_existing_witness :
    find_file (world_with ["lib/b.nas", "usr/b.nas"]) "b.nas" loc_a
        (linker_fresh ["bin", "lib", "usr"]) =
      ("lib/b.nas", linker_fresh ["bin", "lib", "usr"]) := by
  rcases (find_file_first_existing (world_with ["lib/b.nas", "usr/b.nas"]) "b.nas" loc_a
    (linker_fresh ["bin", "lib", "usr"])).2 rfl with
    ⟨before, i, after, hl, hb, hi, h⟩ | ⟨hall, _⟩
  · rw [h]
    have h1 : (["b.nas", "bin/b.nas", "lib/b.nas", "usr/b.nas"] : List String) =
        before ++ i :: after := hl
    have hfind := find_some_of_split
      (fun i => (world_with ["lib/b.nas", "usr/b.nas"]).access i) _ before after i h1 hb hi
    have h2 : List.find? (fun i => (world_with ["lib/b.nas", "usr/b.nas"]).access i)
        ["b.nas", "bin/b.nas", "lib/b.nas", "usr/b.nas"] = some "lib/b.nas" := by decide
    rw [h2] at hfind
    cases hfind
    rfl
  · exact absurd (hall "lib/b.nas" (by decide)) (by decide)

/-! ## The diagnostic of a name that does not resolve -/

theorem find_file_message_short (file f : String) :
    "in <" ++ file ++ ">: " ++ "cannot find file <" ++ f ++ ">, " ++
        "use <-d> to get detail search path" =
      ("in <" ++ file ++ ">: ") ++ ("cannot find file <" ++ f ++ ">") ++
        ", use <-d> to get detail search path" := by
  have e : (">, " : String) = ">" ++ ", " := by decide
  have e1 : (", use <-d> to get detail search path" : String) =
      ", " ++ "use <-d> to get detail search path" := by decide
  rw [e, e1]
  simp only [String.append_assoc]

theorem find_file_message_long (file f paths : String) :
    "in <" ++ file ++ ">: " ++ "cannot find file <" ++ f ++ "> in these paths:\n" ++ paths =
      ("in <" ++ file ++ ">: ") ++ ("cannot find file <" ++ f ++ ">") ++
        (" in these paths:\n" ++ paths) := by
  have e : ("> in these paths:\n" : String) = ">" ++ " in these paths:\n" := by decide
  rw [e]
  simp only [String.append_assoc]

/-- C13, amended: a name other than `lib.nas` none of whose candidates exists
    makes `find_file` return the empty string and append exactly one
    diagnostic, fatal and of the link phase, whose message contains
    `cannot find file <f>`; a name one of whose candidates exists leaves the
    diagnostics as they were; the name `lib.nas` without a candidate is
    answered as the retry name is, so that the diagnostic, if any, names the
    retry name. -/
theorem find_file_diagnostic (W : World) (f : String) (loc : span) (s : linker) :
    (f ≠ "lib.nas" → (∀ c ∈ find_file_fpath W s f, W.access c = false) →
      (find_file W f loc s).1 = "" ∧
      ∃ d pre post, (find_file W f loc s).2 = { s with err := s.err ++ [d] } ∧
        d.level = severity.fatal ∧ d.stage = "link" ∧
        d.info = pre ++ ("cannot find file <" ++ f ++ ">") ++ post) ∧
    ((∃ c ∈ find_file_fpath W s f, W.access c = true) →
      (find_file W f loc s).2 = s) ∧
    (f = "lib.nas" → (∀ c ∈ find_file_fpath W s f, W.access c = false) →
      find_file W f loc s =
        find_file W (if W.is_windows = true then "std\\lib.nas" else "std/lib.nas") loc s ∧
      (if W.is_windows = true then "std\\lib.nas" else "std/lib.nas") ≠ "lib.nas") := by
  refine ⟨?_, ?_, ?_⟩
  · intro hn hall
    rw [find_file_unresolved W f loc s (find_none_of_all_false _ _ hall) hn]
    refine ⟨rfl, ?_⟩
    cases hsp : s.show_path with
    | false =>
      exact ⟨_, "in <" ++ loc.file ++ ">: ", ", use <-d> to get detail search path",
        rfl, rfl, rfl, find_file_message_short loc.file f⟩
    | true =>
      exact ⟨_, "in <" ++ loc.file ++ ">: ", _, rfl, rfl, rfl,
        find_file_message_long loc.file f _⟩
  · rintro ⟨c, hc, hacc⟩
    rcases find_first_split (fun i => W.access i) (find_file_fpath W s f) with
      ⟨before, i, after, hl, hb, hi, hfind⟩ | ⟨hall, hfind⟩
    · rw [find_file_resolved W f loc s i hfind]
    · rw [hall c hc] at hacc
      cases hacc
  · intro hf hall
    subst hf
    exact ⟨find_file_lib_retry W loc s (find_none_of_all_false _ _ hall), lib_retry_name_ne W⟩

/-- Witness of C13, amended: `import.std.lib`, that is `./std/lib.nas`, which
    exists neither as it stands nor under the search path. -/
theorem find_file_diagnostic_witness :
    (find_file world_empty "./std/lib.nas" loc_a (linker_fresh ["/usr/lib"])).1 = "" ∧
    ∃ d pre post,
      (find_file world_empty "./std/lib.nas" loc_a (linker_fresh ["/usr/lib"])).2 =
        { linker_fresh ["/usr/lib"] with err := (linker_fresh ["/usr/lib"]).err ++ [d] } ∧
      d.level = severity.fatal ∧ d.stage = "link" ∧
      d.info = pre ++ ("cannot find file <" ++ "./std/lib.nas" ++ ">") ++ post :=
  (find_file_diagnostic world_empty "./std/lib.nas" loc_a (linker_fresh ["/usr/lib"])).1
    (by decide) (by decide)

/-- C13 as stated fails for the name `lib.nas`. With no file on disk no
    candidate of `lib.nas` exists, and the one diagnostic names
    `std/lib.nas`: its message does not contain `cannot find file <lib.nas>`.
    With `std/lib.nas` alone on disk no candidate of `lib.nas` exists either,
    yet the result is `std/lib.nas`, not the empty string, and no diagnostic
    is appended. -/
theorem find_file_diagnostic_counterexample :
    (∀ c ∈ find_file_fpath world_empty (linker_fresh []) "lib.nas",
      world_empty.access c = false) ∧
    find_file world_empty "lib.nas" loc_a (linker_fresh []) =
      ("", { linker_fresh [] with err := [{
        level := severity.fatal, stage := "link",
        info := "in <a.nas>: cannot find file <std/lib.nas>, use <-d> to get detail search path" }] }) ∧
    string_find
      "in <a.nas>: cannot find file <std/lib.nas>, use <-d> to get detail search path"
      "cannot find file <lib.nas>" = none ∧
    (∀ c ∈ find_file_fpath (world_with ["std/lib.nas"]) (linker_fresh []) "lib.nas",
      (world_with ["std/lib.nas"]).access c = false) ∧
    find_file (world_with ["std/lib.nas"]) "lib.nas" loc_a (linker_fresh []) =
      ("std/lib.nas", linker_fresh []) := by
  decide!

/-- C14, amended: for a name other than `lib.nas` none of whose candidates
    exists, the message of the diagnostic is fixed by `show_path`: with the
    flag clear it is the short text, in which only the name of the importing
    file and the name looked for vary; with the flag set it is the long text
    that ends with one line per candidate, in the order tried, the name
    itself first and then every entry of the search path joined with the
    name. The name `lib.nas` without a candidate is answered as the retry name
    is, so that the message lists the candidates of the retry name and not
    those of `lib.nas`. -/
theorem find_file_verbosity (W : World) (f : String) (loc : span) (s : linker) :
    (f ≠ "lib.nas" → (∀ c ∈ find_file_fpath W s f, W.access c = false) →
      (s.show_path = false →
        find_file W f loc s = ("", { s with err := s.err ++ [{
          level := severity.fatal, stage := "link",
          info := "in <" ++ loc.file ++ ">: " ++ "cannot find file <" ++ f ++ ">, " ++
            "use <-d> to get detail search path" }] })) ∧
      (s.show_path = true →
        find_file W f loc s = ("", { s with err := s.err ++ [{
          level := severity.fatal, stage := "link",
          info := "in <" ++ loc.file ++ ">: " ++ "cannot find file <" ++ f ++
            "> in these paths:\n" ++
            String.join ((f :: s.envpath.map (fun p => p ++ W.sep ++ f)).map
              (fun i => "  -> " ++ i ++ "\n")) }] }))) ∧
    (f = "lib.nas" → (∀ c ∈ find_file_fpath W s f, W.access c = false) →
      find_file W f loc s =
        find_file W (if W.is_windows = true then "std\\lib.nas" else "std/lib.nas") loc s) := by
  refine ⟨?_, ?_⟩
  · intro hn hall
    have h := find_file_unresolved W f loc s (find_none_of_all_false _ _ hall) hn
    refine ⟨fun hsp => ?_, fun hsp => ?_⟩
    · rw [h]; simp only [hsp, Bool.false_eq_true, if_false]
    · rw [h]; simp only [hsp, if_true]; rfl
  · intro hf hall
    subst hf
    exact find_file_lib_retry W loc s (find_none_of_all_false _ _ hall)

/-- Witness of C14, amended: `./std/lib.nas` with a search path of two
    entries, the flag being set. -/
theorem find_file_verbosity_witness :
    find_file world_empty "./std/lib.nas" loc_a (linker_show_path ["/usr/lib", "/opt"]) =
      ("", { linker_show_path ["/usr/lib", "/opt"] with err := [{
        level := severity.fatal, stage := "link",
        info := "in <a.nas>: cannot find file <./std/lib.nas> in these paths:\n" ++
          "  -> ./std/lib.nas\n  -> /usr/lib/./std/lib.nas\n  -> /opt/./std/lib.nas\n" }] }) := by
  have h := ((find_file_verbosity world_empty "./std/lib.nas" loc_a
    (linker_show_path ["/usr/lib", "/opt"])).1 (by decide) (by decide)).2 rfl
  rw [h]
  decide

/-- C14 as stated fails for the name `lib.nas`. With the flag set and no
    file on disk, `find_file` tries `lib.nas` and `/usr/lib/lib.nas` first,
    and the message lists neither: it lists the candidates of `std/lib.nas`
    only. -/
theorem find_file_verbosity_counterexample :
    find_file_fpath world_empty (linker_show_path ["/usr/lib"]) "lib.nas" =
      ["lib.nas", "/usr/lib/lib.nas"] ∧
    find_file world_empty "lib.nas" loc_a (linker_show_path ["/usr/lib"]) =
      ("", { linker_show_path ["/usr/lib"] with err := [{
        level := severity.fatal, stage := "link",
        info := "in <a.nas>: cannot find file <std/lib.nas> in these paths:\n" ++
          "  -> std/lib.nas\n  -> /usr/lib/std/lib.nas\n" }] }) ∧
    string_find
      ("in <a.nas>: cannot find file <std/lib.nas> in these paths:\n" ++
          "  -> std/lib.nas\n  -> /usr/lib/std/lib.nas\n")
      "-> lib.nas" = none ∧
    string_find
      ("in <a.nas>: cannot find file <std/lib.nas> in these paths:\n" ++
          "  -> std/lib.nas\n  -> /usr/lib/std/lib.nas\n")
      "/usr/lib/lib.nas" = none := by
  decide!

/-! ## The name of a module -/

theorem generate_module_name_empty (path : String) (s : linker) (h : path.length = 0) :
    generate_module_name path s = ("module@[" ++ path ++ "]", s) := by
  simp only [generate_module_name, h, if_true]

theorem generate_module_name_no_suffix (path : String) (s : linker)
    (h : path.length ≠ 0) (hf : string_find path ".nas" = none) :
    generate_module_name path s =
      ("module@[" ++ path ++ "]", { s with err := s.err ++ [{
        level := severity.warning, stage := "link",
        info := "get invalid module name from <" ++ path ++ ">, " ++
          "will not be easily accessed. " ++ "\".nas\" suffix is required." }] }) := by
  simp only [generate_module_name, h, if_false, hf, error.warn]

theorem generate_module_name_inner_suffix (path : String) (s : linker) (p : Nat)
    (h : path.length ≠ 0) (hf : string_find path ".nas" = some p)
    (hp : p + 4 ≠ path.length) :
    generate_module_name path s =
      ("module@[" ++ path ++ "]", { s with err := s.err ++ [{
        level := severity.warning, stage := "link",
        info := "get invalid module name from <" ++ path ++ ">, " ++
          "will not be easily accessed. " ++
          "only one \".nas\" suffix is required in the path." }] }) := by
  simp only [generate_module_name, h, if_false, hf, error.warn, hp, ne_eq, not_false_eq_true,
    if_true]

theorem generate_module_name_checks (path name : String) (s : linker) :
    (name,
      (let s1 := if name.length = 0 then
          { s with err := (s.err.warn "link"
            ("get empty module name from <" ++ path ++ ">, " ++
             "will not be easily accessed.")) }
        else s
      let s2 := if name.length ≠ 0 ∧ '0' ≤ name.data.headD ' '
            ∧ name.data.headD ' ' ≤ '9' then
          { s1 with err := (s1.err.warn "link"
            ("get module <" ++ name ++ "> from <" ++ path ++ ">, " ++
             "will not be easily accessed.")) }
        else s1
      if name.length ≠ 0 ∧ string_find name "." ≠ none then
        { s2 with err := (s2.err.warn "link"
          ("get module <" ++ name ++ "> from <" ++ path ++ ">, " ++
           "will not be easily accessed.")) }
      else s2)) =
    (name, { s with err := s.err ++ module_name_warnings path name }) := by
  unfold module_name_warnings
  by_cases h0 : name.length = 0
  · simp only [h0, if_true, ne_eq, not_true_eq_false, false_and, if_false, error.warn,
      List.append_nil]
  · by_cases h1 : '0' ≤ name.data.headD ' ' ∧ name.data.headD ' ' ≤ '9'
    · by_cases h2 : string_find name "." = none
      · simp only [h0, h1, h2, if_true, if_false, ne_eq, not_true_eq_false,
          not_false_eq_true, and_self, and_true, true_and, and_false, error.warn,
          List.append_nil, List.nil_append]
      · simp only [h0, h1, h2, if_true, if_false, ne_eq, not_true_eq_false,
          not_false_eq_true, and_self, and_true, true_and, and_false, error.warn,
          List.append_nil, List.nil_append, List.append_assoc]
    · by_cases h2 : string_find name "." = none
      · simp only [h0, h1, h2, if_true, if_false, ne_eq, not_true_eq_false,
          not_false_eq_true, and_self, and_true, true_and, and_false, error.warn,
          List.append_nil, List.nil_append]
      · simp only [h0, h1, h2, if_true, if_false, ne_eq, not_true_eq_false,
          not_false_eq_true, and_self, and_true, true_and, and_false, error.warn,
          List.append_nil, List.nil_append]

theorem generate_module_name_extracted (path : String) (s : linker) (p : Nat)
    (hf : string_find path ".nas" = some p) (hp : p + 4 = path.length) :
    generate_module_name path s =
      (module_name_at path p,
        { s with err := s.err ++ module_name_warnings path (module_name_at path p) }) := by
  have h : path.length ≠ 0 := by omega
  simp only [generate_module_name, h, if_false, hf, hp, ne_eq, not_true_eq_false]
  unfold module_name_at module_split_position
  generalize (if string_find_last_of path "/" = none then string_find_last_of path "\\"
      else string_find_last_of path "/") = sp
  cases sp with
  | none =>
    simp only []
    exact generate_module_name_checks path (string_substr path 0 p) s
  | some q =>
    simp only []
    exact generate_module_name_checks path
      (string_substr path (q + 1) (usize_sub (usize_sub p q) 1)) s

theorem module_name_warnings_level (path name : String) :
    ∀ d ∈ module_name_warnings path name,
      d.level = severity.warning ∧ d.stage = "link" := by
  intro d hd
  unfold module_name_warnings at hd
  simp only [List.mem_append] at hd
  rcases hd with (hd | hd) | hd
  all_goals
    split_ifs at hd
    · rw [List.mem_singleton] at hd; subst hd; exact ⟨rfl, rfl⟩
    · cases hd

/-- How `generate_module_name` ends, in its four cases. -/
theorem generate_module_name_cases (path : String) (s : linker) :
    ∃ added : List diagnostic,
      (generate_module_name path s).2 = { s with err := s.err ++ added } ∧
      ∀ d ∈ added, d.level = severity.warning ∧ d.stage = "link" := by
  by_cases h : path.length = 0
  · rw [generate_module_name_empty path s h]
    exact ⟨[], by simp, by simp⟩
  · cases hf : string_find path ".nas" with
    | none =>
      rw [generate_module_name_no_suffix path s h hf]
      exact ⟨_, rfl, by simp⟩
    | some p =>
      by_cases hp : p + 4 = path.length
      · rw [generate_module_name_extracted path s p hf hp]
        exact ⟨_, rfl, module_name_warnings_level _ _⟩
      · rw [generate_module_name_inner_suffix path s p h hf hp]
        exact ⟨_, rfl, by simp⟩

/-- C17: `generate_module_name` is a total function, so it returns a name
    for every path, and the diagnostics it appends, whatever the path, are
    warnings of the link phase: it appends no fatal one, and it changes
    nothing else of the session state. -/
theorem generate_module_name_warns_only (path : String) (s : linker) :
    ∃ name added,
      generate_module_name path s = (name, { s with err := s.err ++ added }) ∧
      (∀ d ∈ added, d.level = severity.warning ∧ d.stage = "link") ∧
      (∀ d ∈ added, d.level ≠ severity.fatal) := by
  obtain ⟨added, h, hw⟩ := generate_module_name_cases path s
  refine ⟨(generate_module_name path s).1, added, ?_, hw, ?_⟩
  · rw [← h]
  · intro d hd hf
    rw [(hw d hd).1] at hf
    cases hf

/-! ## The wrapper of a module -/

theorem export_condition (n : String) :
    (n.length ≠ 0 ∧ n.data.headD ' ' = '_') ↔ n.data.head? = some '_' := by
  rcases n with ⟨l⟩
  cases l with
  | nil => simp
  | cons c cs => simp [String.length]

theorem generate_module_return_loop_eq (loc : span) (syms : List symbol_info)
    (members : List hash_pair) :
    generate_module_return_loop loc syms members =
      members ++ (syms.filter (fun i => decide (i.name.data.head? ≠ some '_'))).map
        (fun i => hash_pair.mk loc i.name
          (some (expr.identifier { nd_loc := loc, name := i.name }))) := by
  induction syms generalizing members with
  | nil => simp [generate_module_return_loop]
  | cons i rest ih =>
    by_cases h : i.name.data.head? = some '_'
    · have hc := (export_condition i.name).2 h
      simp only [generate_module_return_loop, hc, ne_eq, not_false_eq_true, and_self, if_true]
      rw [ih]
      simp [h]
    · have hc : ¬ (i.name.length ≠ 0 ∧ i.name.data.headD ' ' = '_') :=
        fun hc => h ((export_condition i.name).1 hc)
      simp only [generate_module_return_loop, hc, if_false]
      rw [ih]
      simp [h]

/-- C18: `generate_module_return` builds a return statement whose value is a
    record; with `S` the symbols that `do_find` reports for the block, the
    record holds one pair for every entry of `S` whose name does not start
    with an underscore, in the order of `S`, the pair being named by the
    symbol and valued by the identifier of that name; so a name is exported
    exactly when it is the name of an entry of `S` and does not start with an
    underscore. -/
theorem generate_module_return_exports (W : World) (block : code_block) :
    generate_module_return W block =
      expr.return_expr block.get_location
        (some (expr.hash_expr block.get_location
          (((W.do_find block).filter (fun i => decide (i.name.data.head? ≠ some '_'))).map
            (fun i => hash_pair.mk block.get_location i.name
              (some (expr.identifier { nd_loc := block.get_location, name := i.name })))))) ∧
    ∀ n : String,
      n ∈ (generate_module_return_loop block.get_location (W.do_find block) []).map
          hash_pair.get_name ↔
        n ∈ (W.do_find block).map symbol_info.name ∧ n.data.head? ≠ some '_' := by
  refine ⟨?_, ?_⟩
  · unfold generate_module_return
    rw [generate_module_return_loop_eq]
    rfl
  · intro n
    rw [generate_module_return_loop_eq]
    simp only [List.nil_append, List.map_map, List.mem_map, List.mem_filter,
      decide_eq_true_eq, Function.comp]
    constructor
    · rintro ⟨i, ⟨hi, hu⟩, rfl⟩
      exact ⟨⟨i, hi, rfl⟩, hu⟩
    · rintro ⟨⟨i, hi, rfl⟩, hu⟩
      exact ⟨i, ⟨hi, hu⟩, rfl⟩

/-- The definition `generate_module_definition` builds, written out. -/
theorem generate_module_definition_eq (W : World) (B : code_block) (s : linker) :
    generate_module_definition W B s =
      (expr.definition_expr B.get_location
        (some { nd_loc := B.get_location,
                name := (generate_module_name B.get_location.file s).1 })
        none none
        (expr.call_expr (call_expr.mk B.get_location
          (expr.function B.get_location []
            (code_block.mk B.get_location
              (B.get_expressions ++ [generate_module_return W B])))
          [call.call_function B.get_location []])),
       (generate_module_name B.get_location.file s).2) := by
  rcases B with ⟨loc, es⟩
  rfl

/-- C19: `generate_module_definition` returns one definition: the identifier
    it binds is named by `generate_module_name` of the file of the span of
    the block; its value is a call whose primary is a function without
    parameters and whose postfix list is one invocation without arguments;
    the body of the function is the statements of the block, unchanged and in
    order, followed by the one statement `generate_module_return` builds. The
    session state is the one `generate_module_name` leaves. -/
theorem generate_module_definition_shape (W : World) (B : code_block) (s : linker) :
    generate_module_definition W B s =
      (expr.definition_expr B.get_location
        (some { nd_loc := B.get_location,
                name := (generate_module_name B.get_location.file s).1 })
        none none
        (expr.call_expr (call_expr.mk B.get_location
          (expr.function B.get_location []
            (code_block.mk B.get_location
              (B.get_expressions ++ [generate_module_return W B])))
          [call.call_function B.get_location []])),
       (generate_module_name B.get_location.file s).2) :=
  generate_module_definition_eq W B s

/-! ## The base name of a path -/

theorem string_find_loop_some (pat : List Char) (l : List Char) (pos p : Nat)
    (h : string_find_loop pat l pos = some p) :
    pos ≤ p ∧ p - pos ≤ l.length ∧ pat <+: l.drop (p - pos) := by
  induction l generalizing pos with
  | nil =>
    simp only [string_find_loop] at h
    split_ifs at h with hp
    cases h
    simp only [List.isEmpty_eq_true] at hp
    subst hp
    simp
  | cons c cs ih =>
    simp only [string_find_loop] at h
    split_ifs at h with hp
    · cases h
      simp only [le_refl, Nat.sub_self, List.drop_zero, Nat.zero_le, true_and]
      exact List.isPrefixOf_iff_prefix.1 hp
    · obtain ⟨h1, h2, h3⟩ := ih (pos + 1) h
      refine ⟨by omega, ?_, ?_⟩
      · simp only [List.length_cons]; omega
      · have e : p - pos = (p - (pos + 1)) + 1 := by omega
        rw [e, List.drop_succ_cons]
        exact h3

theorem string_find_suffix (path : String) (p : Nat)
    (hf : string_find path ".nas" = some p) (hp : p + 4 = path.length) :
    path.data = path.data.take p ++ ".nas".data := by
  obtain ⟨_, _, hpre⟩ := string_find_loop_some _ _ _ _ hf
  simp only [Nat.sub_zero] at hpre
  have hlen : (path.data.drop p).length = 4 := by
    rw [List.length_drop]
    have : path.data.length = path.length := rfl
    omega
  have heq : path.data.drop p = ".nas".data := by
    obtain ⟨t, ht⟩ := hpre
    have hl := congrArg List.length ht
    have h4 : (".nas".data).length = 4 := by decide
    rw [List.length_append, hlen, h4] at hl
    have ht0 : t = [] := List.length_eq_zero.1 (by omega)
    rw [ht0, List.append_nil] at ht
    exact ht.symm
  conv_lhs => rw [← List.take_append_drop p path.data]
  rw [heq]

theorem string_find_last_of_loop_spec (c : Char) (l : List Char) (pos : Nat)
    (last : Option Nat) :
    (c ∉ l ∧ string_find_last_of_loop [c] l pos last = last) ∨
    (∃ pre post, l = pre ++ c :: post ∧ c ∉ post ∧
      string_find_last_of_loop [c] l pos last = some (pos + pre.length)) := by
  induction l generalizing pos last with
  | nil => exact Or.inl ⟨by simp, rfl⟩
  | cons d ds ih =>
    simp only [string_find_last_of_loop]
    rcases ih (pos + 1) (if [c].contains d then some pos else last) with
      ⟨hn, he⟩ | ⟨pre, post, hl, hnp, he⟩
    · by_cases hd : d = c
      · subst hd
        refine Or.inr ⟨[], ds, rfl, hn, ?_⟩
        rw [he]
        simp
      · refine Or.inl ⟨?_, ?_⟩
        · simp only [List.mem_cons, not_or]
          exact ⟨fun h => hd h.symm, hn⟩
        · rw [he]
          have : [c].contains d = false :=
            Bool.eq_false_iff.2 (fun h => hd (by simpa using h))
          simp only [this, Bool.false_eq_true, if_false]
    · refine Or.inr ⟨d :: pre, post, by rw [hl]; rfl, hnp, ?_⟩
      rw [he]
      simp only [List.length_cons]
      congr 1
      omega

theorem usize_sub_small (a b : Nat) (hb : b ≤ a) (ha : a < usize_width) :
    usize_sub a b = a - b := by
  unfold usize_sub
  have hbw : b % usize_width = b := Nat.mod_eq_of_lt (by omega)
  rw [hbw]
  have e : a + usize_width - b = (a - b) + usize_width := by omega
  rw [e, Nat.add_mod_right]
  exact Nat.mod_eq_of_lt (by omega)

theorem string_find_last_of_single (s chars : String) (c : Char) (hc : chars.data = [c]) :
    (c ∉ s.data ∧ string_find_last_of s chars = none) ∨
    (∃ pre post, s.data = pre ++ c :: post ∧ c ∉ post ∧
      string_find_last_of s chars = some pre.length) := by
  unfold string_find_last_of
  rw [hc]
  rcases string_find_last_of_loop_spec c s.data 0 none with ⟨hn, he⟩ | ⟨pre, post, hl, hnp, he⟩
  · exact Or.inl ⟨hn, he⟩
  · exact Or.inr ⟨pre, post, hl, hnp, by rw [he]; simp⟩

theorem string_find_le_length (path : String) (p : Nat)
    (hf : string_find path ".nas" = some p) : p ≤ path.length := by
  obtain ⟨_, h, _⟩ := string_find_loop_some _ _ _ _ hf
  simpa using h

/-- The text between a separator that `find_last_of` found and the suffix. -/
theorem module_name_after_separator (path : String) (p : Nat) (c : Char)
    (hc : c ∉ ".nas".data)
    (hf : string_find path ".nas" = some p) (hp : p + 4 = path.length)
    (hw : path.length < usize_width)
    (pre post : List Char) (hl : path.data = pre ++ c :: post) :
    ∃ name, post = name ++ ".nas".data ∧ pre.length < p ∧
      string_substr path (pre.length + 1) (usize_sub (usize_sub p pre.length) 1) = ⟨name⟩ := by
  have hsuf := string_find_suffix path p hf hp
  have hple := string_find_le_length path p hf
  have htk : (path.data.take p).length = p := by
    rw [List.length_take]
    exact Nat.min_eq_left hple
  rw [hl] at hsuf
  have hsplit := List.append_eq_append_iff.1 hsuf
  rw [← hl] at hsplit
  rcases hsplit with ⟨a, h1, h2⟩ | ⟨a, h1, h2⟩
  · cases a with
    | nil =>
      rw [List.nil_append] at h2
      exact absurd (h2 ▸ List.mem_cons_self c post) hc
    | cons d name =>
      rw [List.cons_append, List.cons.injEq] at h2
      obtain ⟨hd, hpost⟩ := h2
      subst hd
      have hplen : p = pre.length + (name.length + 1) := by
        rw [← htk, h1, List.length_append, List.length_cons]
      refine ⟨name, hpost, by omega, ?_⟩
      have e1 : usize_sub p pre.length = name.length + 1 := by
        rw [usize_sub_small p pre.length (by omega) (by omega)]; omega
      have e2 : usize_sub (name.length + 1) 1 = name.length := by
        rw [usize_sub_small _ 1 (by omega) (by omega)]; omega
      rw [e1, e2]
      have hlist : ∀ suf : List Char,
          (List.drop (pre.length + 1) (pre ++ c :: (name ++ suf))).take name.length = name := by
        intro suf
        rw [show pre ++ c :: (name ++ suf) = (pre ++ [c]) ++ (name ++ suf) by simp]
        rw [List.drop_append_of_le_length (by simp), List.drop_of_length_le (by simp)]
        simp
      unfold string_substr
      rw [hl, hpost, hlist]
  · exact absurd (h2 ▸ List.mem_append_right a (List.mem_cons_self c post)) hc

/-- The text before the suffix of a path without a separator. -/
theorem module_name_without_separator (path : String) (p : Nat)
    (hf : string_find path ".nas" = some p) (hp : p + 4 = path.length) :
    path.data = (string_substr path 0 p).data ++ ".nas".data := by
  have hsuf := string_find_suffix path p hf hp
  unfold string_substr
  simpa using hsuf

theorem module_split_position_cases (path : String) :
    ('/' ∉ path.data ∧ '\\' ∉ path.data ∧ module_split_position path = none) ∨
    (∃ pre post, path.data = pre ++ '/' :: post ∧ '/' ∉ post ∧
      module_split_position path = some pre.length) ∨
    ('/' ∉ path.data ∧ ∃ pre post, path.data = pre ++ '\\' :: post ∧ '\\' ∉ post ∧
      module_split_position path = some pre.length) := by
  unfold module_split_position
  rcases string_find_last_of_single path "/" '/' rfl with ⟨hn, he⟩ | ⟨pre, post, hl, hnp, he⟩
  · rw [he]
    simp only [if_true]
    rcases string_find_last_of_single path "\\" '\\' rfl with
      ⟨hn1, he1⟩ | ⟨pre, post, hl, hnp, he1⟩
    · exact Or.inl ⟨hn, hn1, he1⟩
    · exact Or.inr (Or.inr ⟨hn, pre, post, hl, hnp, he1⟩)
  · rw [he]
    exact Or.inr (Or.inl ⟨pre, post, hl, hnp, by simp⟩)

theorem find_loop_spec (file : String) (files : List String) (pos j : Nat)
    (h : find_loop file files pos = some j) :
    pos ≤ j ∧ files[j - pos]? = some file := by
  induction files generalizing pos with
  | nil => simp [find_loop] at h
  | cons f rest ih =>
    simp only [find_loop] at h
    split_ifs at h with hf
    · cases h
      simp [hf]
    · obtain ⟨h1, h2⟩ := ih (pos + 1) h
      refine ⟨by omega, ?_⟩
      have e : j - pos = (j - (pos + 1)) + 1 := by omega
      rw [e, List.getElem?_cons_succ]
      exact h2

theorem find_spec (file : String) (s : linker) (i : Nat)
    (hlen : s.files.length ≤ 65536)
    (h : find file s = Except.ok i) : s.files[i]? = some file := by
  unfold find at h
  cases hl : find_loop file s.files 0 with
  | none => simp [hl] at h
  | some j =>
    simp only [hl, Except.ok.injEq] at h
    obtain ⟨_, hj⟩ := find_loop_spec file s.files 0 j hl
    simp only [Nat.sub_zero] at hj
    have hjlt : j < s.files.length := by
      by_contra hge
      rw [List.getElem?_eq_none (by omega)] at hj
      cases hj
    have : j % 65536 = j := Nat.mod_eq_of_lt (by omega)
    rw [← h, this]
    exact hj

theorem generate_module_name_fst_congr (path : String) (s s1 : linker) :
    (generate_module_name path s).1 = (generate_module_name path s1).1 := by
  by_cases h : path.length = 0
  · rw [generate_module_name_empty path s h, generate_module_name_empty path s1 h]
  · cases hf : string_find path ".nas" with
    | none =>
      rw [generate_module_name_no_suffix path s h hf,
        generate_module_name_no_suffix path s1 h hf]
    | some p =>
      by_cases hp : p + 4 = path.length
      · rw [generate_module_name_extracted path s p hf hp,
          generate_module_name_extracted path s1 p hf hp]
      · rw [generate_module_name_inner_suffix path s p h hf hp,
          generate_module_name_inner_suffix path s1 p h hf hp]

theorem mem_files_closed (F : String) : state_closed (fun s => F ∈ s.files) where
  err := fun _ _ h => h
  lib_path := fun _ _ h => h
  lib_loaded := fun _ h => h
  add_file := fun _ _ _ h => List.mem_append_left _ h
  push := fun _ _ _ h => h
  pop := fun _ h => h

theorem envpath_closed (E : List String) : state_closed (fun s => s.envpath = E) where
  err := fun _ _ h => h
  lib_path := fun _ _ h => h
  lib_loaded := fun _ h => h
  add_file := fun _ _ _ h => h
  push := fun _ _ _ h => h
  pop := fun _ h => h

theorem import_each_keeps (P : linker → Prop) (hP : state_closed P) (W : World)
    (ld : load_fn) (hld : keeps P ld) (stmts : List expr) (s : linker)
    (definitions : List expr) (s1 : linker) (hs : P s)
    (h : import_each W ld stmts s = Except.ok (definitions, s1)) : P s1 := by
  induction stmts generalizing s definitions with
  | nil =>
    simp only [import_each, Except.ok.injEq, Prod.mk.injEq] at h
    rw [← h.2]; exact hs
  | cons e rest ih =>
    cases e with
    | call_expr node =>
      simp only [import_each] at h
      cases hi : import_regular_file W ld node s with
      | error f => simp [hi] at h
      | ok r =>
        obtain ⟨blk, s2⟩ := r
        simp only [hi] at h
        have hs2 := import_regular_file_keeps P hP W ld node s blk s2 hld hs hi
        cases hr : import_each W ld rest (generate_module_definition W blk s2).2 with
        | error f => simp [hr] at h
        | ok r2 =>
          obtain ⟨defs, s3⟩ := r2
          simp only [hr, Except.ok.injEq, Prod.mk.injEq] at h
          rw [h.2] at hr
          exact ih _ _ (generate_module_definition_closed P hP W blk s2 hs2) hr
    | _ => simp [import_each] at h

/-- The tree a nested `load` returns carries the file that `files` holds at
    the index. -/
theorem load_nested_location (W : World) (fuel : Nat) (b : code_block) (i : Nat)
    (s : linker) (t : code_block) (s1 : linker)
    (h : load_nested W fuel b i s = Except.ok (t, s1)) :
    ∃ file, s.files[i]? = some file ∧ t.get_location = ⟨0, 0, 0, 0, file⟩ := by
  cases fuel with
  | zero => cases h
  | succ k =>
    have h1 : load W k b i s = Except.ok (t, s1) := h
    rw [load_eq_load_body] at h1
    obtain ⟨file, libtree, s0, definitions, hfile, _, _, htree⟩ :=
      load_body_ok W _ b i s t s1 h1
    exact ⟨file, hfile, by rw [htree]; rfl⟩

/-- An import that resolves to a file off the active stack records the file
    and, the index fitting a `u16`, returns a block that carries its name. -/
theorem import_regular_file_records (W : World) (fuel : Nat) (node : call_expr)
    (s : linker) (path F : String) (blk : code_block) (s1 : linker)
    (hpath : get_path W node = some path)
    (hF : (find_file W path node.get_location s).1 = F)
    (hres : F.length ≠ 0) (hoff : F ∉ s.module_load_stack)
    (h : import_regular_file W (load_nested W fuel) node s = Except.ok (blk, s1)) :
    F ∈ s1.files ∧ (s.files.length < 65536 → blk.get_location.file = F) := by
  rw [import_regular_file_resolved W _ node s path F hpath hF hres hoff] at h
  have hmem : F ∈ (enter_file F s).files := (exist_files F s).2.2.1
  have hlen : s.files.length < 65536 → (enter_file F s).files.length ≤ 65536 := by
    intro hsmall
    show (exist F s).2.files.length ≤ 65536
    rcases exist_eq F s with ⟨_, he⟩ | ⟨_, he⟩
    · rw [he]; show s.files.length ≤ 65536; omega
    · rw [he]
      show (s.files ++ [F]).length ≤ 65536
      simp only [List.length_append, List.length_singleton]; omega
  split_ifs at h with herr
  · simp only [Except.ok.injEq, Prod.mk.injEq] at h
    rw [← h.1, ← h.2]
    exact ⟨hmem, fun _ => rfl⟩
  · cases hfind : find F (enter_file F s) with
    | error f => simp [hfind] at h
    | ok i =>
      simp only [hfind] at h
      cases hl : load_nested W fuel (W.parse_result F) i (enter_file F s) with
      | error f => simp [hl] at h
      | ok r =>
        obtain ⟨t, s2⟩ := r
        simp only [hl] at h
        split_ifs at h
        simp only [Except.ok.injEq, Prod.mk.injEq] at h
        rw [← h.1, ← h.2]
        refine ⟨?_, fun hsmall => ?_⟩
        · show F ∈ s2.files
          exact load_nested_keeps _ (mem_files_closed F) W fuel _ _ _ _ _ hmem hl
        · have hidx := find_spec F (enter_file F s) i (hlen hsmall) hfind
          obtain ⟨file, hfile, hloc⟩ := load_nested_location W fuel _ _ _ _ _ hl
          rw [hidx] at hfile
          cases hfile
          rw [hloc]

theorem world_b_access (f : String) (h : world_b.access f = true) : f ∈ ["b.nas"] := by
  by_cases hb : f = "b.nas"
  · simp [hb]
  · exfalso
    have hb1 : (f == "b.nas") = false := by simpa using hb
    have : world_b.access f = false := by
      simp [world_b, world_of, List.lookup, hb1]
    rw [this] at h
    exact Bool.false_ne_true h


/-! ## The splice of two blocks, and `exist` -/

theorem link_block_snd (new_tree_root old_tree_root : code_block) :
    (link_block new_tree_root old_tree_root).2 =
      code_block.mk old_tree_root.get_location [] := rfl

/-- C25: the splice `link(new, old)` leaves `new` with its statements
    followed by those of `old`, in order, and `old` without a statement; the
    spans of both blocks stay; the statements of both blocks afterwards are
    those of both blocks before, each once, so that `old`, being empty, owns
    none of them; their number is conserved. -/
theorem link_block_splices (new_tree_root old_tree_root : code_block) :
    (link_block new_tree_root old_tree_root).1.get_expressions =
      new_tree_root.get_expressions ++ old_tree_root.get_expressions ∧
    (link_block new_tree_root old_tree_root).2.get_expressions = [] ∧
    (link_block new_tree_root old_tree_root).1.get_location = new_tree_root.get_location ∧
    (link_block new_tree_root old_tree_root).2.get_location = old_tree_root.get_location ∧
    (link_block new_tree_root old_tree_root).1.get_expressions ++
        (link_block new_tree_root old_tree_root).2.get_expressions =
      new_tree_root.get_expressions ++ old_tree_root.get_expressions ∧
    (link_block new_tree_root old_tree_root).1.get_expressions.length +
        (link_block new_tree_root old_tree_root).2.get_expressions.length =
      new_tree_root.get_expressions.length + old_tree_root.get_expressions.length := by
  rw [link_block_fst, link_block_snd]
  simp [code_block.get_expressions, code_block.get_location]

theorem exist_again (f : String) (s : linker) :
    exist f (exist f s).2 = (true, (exist f s).2) := by
  have hmem : f ∈ (exist f s).2.files := (exist_files f s).2.2.1
  rcases exist_eq f (exist f s).2 with ⟨_, he⟩ | ⟨hn, _⟩
  · exact he
  · exact absurd hmem hn

/-- C26: `exist(f)` returns true exactly when `f` is in `files`; it then
    leaves the state as it was; when it returns false the state is the old
    one with `f` appended to `files`; either way `f` is in `files`
    afterwards, and a second `exist(f)` returns true and changes nothing. -/
theorem exist_spec (f : String) (s : linker) :
    ((exist f s).1 = true ↔ f ∈ s.files) ∧
    ((exist f s).1 = true → (exist f s).2 = s) ∧
    ((exist f s).1 = false → (exist f s).2 = { s with files := s.files ++ [f] }) ∧
    f ∈ (exist f s).2.files ∧
    exist f (exist f s).2 = (true, (exist f s).2) := by
  refine ⟨(exist_files f s).2.2.2, ?_, ?_, (exist_files f s).2.2.1, exist_again f s⟩
  · intro h
    rcases exist_eq f s with ⟨_, he⟩ | ⟨_, he⟩
    · rw [he]
    · rw [he] at h; cases h
  · intro h
    rcases exist_eq f s with ⟨_, he⟩ | ⟨_, he⟩
    · rw [he] at h; cases h
    · rw [he]

/-- Witness of C26: a name that is in the list and one that is not. -/
theorem exist_spec_witness :
    exist "b.nas" { linker_fresh [] with files := ["a.nas", "b.nas"] } =
      (true, { linker_fresh [] with files := ["a.nas", "b.nas"] }) ∧
    exist "c.nas" { linker_fresh [] with files := ["a.nas", "b.nas"] } =
      (false, { linker_fresh [] with files := ["a.nas", "b.nas", "c.nas"] }) := by
  have h1 := exist_spec "b.nas" { linker_fresh [] with files := ["a.nas", "b.nas"] }
  have h2 := exist_spec "c.nas" { linker_fresh [] with files := ["a.nas", "b.nas"] }
  have e1 : (exist "b.nas" { linker_fresh [] with files := ["a.nas", "b.nas"] }).1 = true :=
    h1.1.2 (by decide)
  have e2 : (exist "c.nas" { linker_fresh [] with files := ["a.nas", "b.nas"] }).1 = false := by
    cases he : (exist "c.nas" { linker_fresh [] with files := ["a.nas", "b.nas"] }).1 with
    | false => rfl
    | true => exact absurd (h2.1.1 he) (by decide)
  exact ⟨Prod.ext e1 (h1.2.1 e1), Prod.ext e2 ((h2.2.2.1 e2).trans rfl)⟩

/-! ## The index `find` returns -/

theorem find_loop_indexOf (f : String) (files : List String) (pos : Nat) (h : f ∈ files) :
    find_loop f files pos = some (pos + files.indexOf f) := by
  induction files generalizing pos with
  | nil => cases h
  | cons g rest ih =>
    simp only [find_loop, List.indexOf_cons]
    by_cases hg : g = f
    · simp [hg]
    · have hmem : f ∈ rest := by
        rcases List.mem_cons.1 h with h1 | h1
        · exact absurd h1.symm hg
        · exact h1
      have hb : (g == f) = false := by simpa using hg
      simp only [hg, if_false, hb, cond_false]
      rw [ih (pos + 1) hmem]
      congr 1
      omega

theorem find_loop_none (f : String) (files : List String) (pos : Nat) (h : f ∉ files) :
    find_loop f files pos = none := by
  induction files generalizing pos with
  | nil => rfl
  | cons g rest ih =>
    simp only [List.mem_cons, not_or] at h
    have hg : ¬ g = f := fun e => h.1 e.symm
    simp only [find_loop, hg, if_false]
    exact ih _ h.2

theorem find_eq (f : String) (s : linker) (h : f ∈ s.files) :
    find f s = Except.ok (s.files.indexOf f % 65536) := by
  unfold find
  rw [find_loop_indexOf f s.files 0 h]
  simp

theorem find_exits_iff (f : String) (s : linker) :
    find f s = Except.error fault.process_exit ↔ f ∉ s.files := by
  constructor
  · intro h hm
    rw [find_eq f s hm] at h
    cases h
  · intro h
    unfold find
    rw [find_loop_none f s.files 0 h]

theorem indexOf_first (f : String) (files : List String) :
    ∀ j, j < files.indexOf f → files[j]? ≠ some f := by
  induction files with
  | nil => intro j hj; simp at hj
  | cons g rest ih =>
    intro j hj
    rw [List.indexOf_cons] at hj
    by_cases hg : g = f
    · simp [hg] at hj
    · have hb : (g == f) = false := by simpa using hg
      simp only [hb, cond_false] at hj
      cases j with
      | zero => simpa using hg
      | succ k =>
        rw [List.getElem?_cons_succ]
        exact ih k (by omega)

theorem load_body_location (W : World) (ld : load_fn) (b : code_block) (i : Nat)
    (s : linker) (t : code_block) (s1 : linker) (f : String)
    (hf : s.files[i]? = some f)
    (h : load_body W ld b i s = Except.ok (t, s1)) :
    t.get_location = ⟨0, 0, 0, 0, f⟩ := by
  obtain ⟨file, libtree, s0, definitions, hfile, _, _, htree⟩ := load_body_ok W ld b i s t s1 h
  rw [hf] at hfile
  cases hfile
  rw [htree]
  rfl

/-- C27, amended: for a name `f` in `files`, `find(f)` returns the index of the
    first occurrence of `f` reduced modulo `2 ^ 16`, the cast to `u16`. When
    that index is below 65536 the result is the index itself, `files` holds
    `f` there and at no earlier index, and a `load` called with it tags the
    tree it returns with `f`. -/
theorem find_first_occurrence (f : String) (s : linker) (h : f ∈ s.files) :
    find f s = Except.ok (s.files.indexOf f % 65536) ∧
    s.files[s.files.indexOf f]? = some f ∧
    (∀ j, j < s.files.indexOf f → s.files[j]? ≠ some f) ∧
    (s.files.indexOf f < 65536 →
      find f s = Except.ok (s.files.indexOf f) ∧
      ∀ i, find f s = Except.ok i →
        i < 65536 ∧ s.files[i]? = some f ∧
        ∀ (W : World) (ld : load_fn) (b t : code_block) (s1 : linker),
          load_body W ld b i s = Except.ok (t, s1) → t.get_location = ⟨0, 0, 0, 0, f⟩) := by
  have hidx : s.files[s.files.indexOf f]? = some f := List.getElem?_indexOf h
  refine ⟨find_eq f s h, hidx, indexOf_first f s.files, ?_⟩
  intro hsmall
  have hfind : find f s = Except.ok (s.files.indexOf f) := by
    rw [find_eq f s h, Nat.mod_eq_of_lt hsmall]
  refine ⟨hfind, ?_⟩
  intro i hi
  rw [hfind] at hi
  cases hi
  exact ⟨hsmall, hidx, fun W ld b t s1 hl => load_body_location W ld b _ s t s1 f hidx hl⟩

/-- Witness of C27, amended: `b.nas` in `[a.nas, b.nas, b.nas]`. -/
theorem find_first_occurrence_witness :
    find "b.nas" { linker_fresh [] with files := ["a.nas", "b.nas", "b.nas"] } =
      Except.ok 1 :=
  ((find_first_occurrence "b.nas" { linker_fresh [] with files := ["a.nas", "b.nas", "b.nas"] }
    (by decide)).2.2.2 (by decide)).1

theorem find_of_find_loop (f : String) (s : linker) (n : Nat)
    (h : find_loop f s.files 0 = some n) : find f s = Except.ok (n % 65536) := by
  unfold find
  rw [h]

theorem getElem?_append_length (l : List String) (f : String) :
    (l ++ [f])[l.length]? = some f := by
  simp

theorem many_files_length : many_files.length = 65536 := by
  simp [many_files]

theorem many_files_not_mem : "f.nas" ∉ many_files := by
  intro h
  simp only [many_files, List.mem_map] at h
  obtain ⟨n, _, hn⟩ := h
  have := congrArg String.data hn
  have e : "f.nas".data = ['f', '.', 'n', 'a', 's'] := rfl
  rw [e] at this
  simp at this

theorem many_files_nodup : many_files.Nodup := by
  unfold many_files
  apply List.Nodup.map _ (List.nodup_range _)
  intro a b hab
  have h1 := congrArg String.data hab
  simp only [List.cons.injEq, true_and] at h1
  have h2 := congrArg List.length h1
  simpa using h2

theorem find_loop_append (f : String) (l : List String) (pos : Nat) (h : f ∉ l) :
    find_loop f (l ++ [f]) pos = some (pos + l.length) := by
  induction l generalizing pos with
  | nil => simp [find_loop]
  | cons g rest ih =>
    simp only [List.mem_cons, not_or] at h
    have hg : ¬ g = f := fun e => h.1 e.symm
    rw [List.cons_append]
    simp only [find_loop, hg, if_false, List.length_cons]
    rw [ih _ h.2]
    congr 1
    omega

/-- C27 as stated fails on a list of more than 65536 names. With 65536
    names, all different, followed by `f.nas`, the first occurrence of
    `f.nas` is at the index 65536, and `find` returns 0, where the list
    holds another name. -/
theorem find_first_occurrence_counterexample :
    (many_files ++ ["f.nas"]).Nodup ∧
    "f.nas" ∈ many_files ++ ["f.nas"] ∧
    (many_files ++ ["f.nas"])[65536]? = some "f.nas" ∧
    find "f.nas" { linker_fresh [] with files := many_files ++ ["f.nas"] } = Except.ok 0 ∧
    (many_files ++ ["f.nas"])[0]? = some "m" ∧
    "m" ≠ "f.nas" := by
  refine ⟨?_, by simp, ?_, ?_, ?_, by decide⟩
  · exact List.Nodup.append many_files_nodup (List.nodup_singleton _)
      (fun a ha hb => many_files_not_mem (List.mem_singleton.1 hb ▸ ha))
  · have h := getElem?_append_length many_files "f.nas"
    rw [many_files_length] at h
    exact h
  · have hl : find_loop "f.nas" (many_files ++ ["f.nas"]) 0 = some 65536 := by
      have h := find_loop_append "f.nas" many_files 0 many_files_not_mem
      rw [many_files_length] at h
      exact h
    exact find_of_find_loop "f.nas" _ 65536 hl
  · rw [List.getElem?_append_left (by rw [many_files_length]; omega)]
    unfold many_files
    rw [List.getElem?_map, List.getElem?_range (by omega)]
    rfl

/-! ## The process is not ended -/

theorem find_enter_file (F : String) (s : linker) :
    ∃ i, find F (enter_file F s) = Except.ok i ∧ i < (enter_file F s).files.length :=
  find_of_mem F (enter_file F s) (exist_files F s).2.2.1

theorem find_lib_file (F : String) (s : linker) :
    ∃ i, find F { s with lib_path := F, files := s.files ++ [F] } = Except.ok i ∧
      i < ({ s with lib_path := F, files := s.files ++ [F] } : linker).files.length :=
  find_of_mem F _ (List.mem_append_right _ (List.mem_singleton_self F))

theorem import_regular_file_never_exits (W : World) (ld : load_fn) (hld : never_exits ld)
    (node : call_expr) (s : linker) :
    import_regular_file W ld node s ≠ Except.error fault.process_exit := by
  intro h
  rcases import_regular_file_cases W ld node s with hc | ⟨blk1, e, hc⟩ | ⟨F, hoff, hc⟩
  · rw [hc] at h; cases h
  · rw [hc] at h; cases h
  · rw [hc] at h
    split_ifs at h with herr
    obtain ⟨i, hfind, _⟩ := find_enter_file F s
    simp only [hfind] at h
    cases hl : ld (W.parse_result F) i (enter_file F s) with
    | error f =>
      simp only [hl, Except.error.injEq] at h
      exact hld _ _ _ (h ▸ hl)
    | ok r =>
      obtain ⟨t, s2⟩ := r
      simp only [hl] at h
      split_ifs at h
      cases h

theorem import_nasal_lib_never_exits (W : World) (ld : load_fn) (hld : never_exits ld)
    (s : linker) :
    import_nasal_lib W ld s ≠ Except.error fault.process_exit := by
  intro h
  cases hfiles : s.files with
  | nil => simp [import_nasal_lib, hfiles] at h
  | cons files_0 rest =>
    rw [import_nasal_lib_unfold W ld s files_0 rest hfiles] at h
    generalize (find_file W "lib.nas" ⟨0, 0, 0, 0, files_0⟩ s).1 = F at h
    generalize (find_file W "lib.nas" ⟨0, 0, 0, 0, files_0⟩ s).2 = sf at h
    split_ifs at h
    obtain ⟨i, hfind, _⟩ := find_lib_file F s
    simp only [hfind] at h
    exact hld _ _ _ h

theorem load_library_never_exits (W : World) (ld : load_fn) (hld : never_exits ld)
    (tree : code_block) (s : linker) :
    load_library W ld tree s ≠ Except.error fault.process_exit := by
  intro h
  cases hl : s.lib_loaded with
  | true => rw [load_library_loaded W ld tree s hl] at h; cases h
  | false =>
    rw [load_library_not_loaded W ld tree s hl] at h
    cases hlib : import_nasal_lib W ld s with
    | error f =>
      simp only [hlib, Except.error.injEq] at h
      exact import_nasal_lib_never_exits W ld hld s (h ▸ hlib)
    | ok r => simp [hlib] at h

theorem import_each_never_exits (W : World) (ld : load_fn) (hld : never_exits ld)
    (stmts : List expr) (s : linker) :
    import_each W ld stmts s ≠ Except.error fault.process_exit := by
  induction stmts generalizing s with
  | nil => intro h; cases h
  | cons e rest ih =>
    intro h
    cases e with
    | call_expr node =>
      simp only [import_each] at h
      cases hi : import_regular_file W ld node s with
      | error f =>
        simp only [hi, Except.error.injEq] at h
        exact import_regular_file_never_exits W ld hld node s (h ▸ hi)
      | ok r =>
        obtain ⟨blk, s2⟩ := r
        simp only [hi] at h
        cases hr : import_each W ld rest (generate_module_definition W blk s2).2 with
        | error f =>
          simp only [hr, Except.error.injEq] at h
          exact ih _ (h ▸ hr)
        | ok r2 => simp [hr] at h
    | _ => simp [import_each] at h

theorem load_body_never_exits (W : World) (ld : load_fn) (hld : never_exits ld) :
    never_exits (load_body W ld) := by
  intro b i s h
  unfold load_body at h
  cases hf : s.files[i]? with
  | none => simp [hf] at h
  | some file =>
    simp only [hf] at h
    cases hl : load_library W ld (code_block.mk ⟨0, 0, 0, 0, file⟩ []) s with
    | error f =>
      simp only [hl, Except.error.injEq] at h
      exact load_library_never_exits W ld hld _ s (h ▸ hl)
    | ok r =>
      obtain ⟨libtree, s0⟩ := r
      simp only [hl] at h
      rw [load_imports_eq] at h
      cases hi : import_each W ld (b.get_expressions.takeWhile import_check) s0 with
      | error f =>
        simp only [hi, Except.error.injEq] at h
        exact import_each_never_exits W ld hld _ s0 (h ▸ hi)
      | ok r2 => simp [hi] at h

theorem load_nested_never_exits (W : World) (fuel : Nat) :
    never_exits (load_nested W fuel) := by
  induction fuel with
  | zero => intro b i s h; cases h
  | succ k ih =>
    show never_exits (load W k)
    rw [load_eq_load_body]
    exact load_body_never_exits W _ ih

theorem load_never_exits (W : World) (fuel : Nat) : never_exits (load W fuel) := by
  rw [load_eq_load_body]
  exact load_body_never_exits W _ (load_nested_never_exits W fuel)

/-- C28: `find` ends the process exactly when the name is not in `files`, and
    during `link` it is never called so. `import_regular_file` calls it in the
    state that `exist` and the push leave, `import_nasal_lib` in the state in
    which `exist` has appended the name, and in both the name is in `files`:
    `find` returns an index of `files` there. So neither of the two, nor
    `load`, nor `link` ends the process, whatever the files, the fuel and
    the state. -/
theorem find_never_exits (W : World) (fuel : Nat) :
    (∀ f s, find f s = Except.error fault.process_exit ↔ f ∉ s.files) ∧
    (∀ F s, ∃ i, find F (enter_file F s) = Except.ok i ∧
      i < (enter_file F s).files.length) ∧
    (∀ F (s : linker), ∃ i,
      find F { s with lib_path := F, files := s.files ++ [F] } = Except.ok i ∧
      i < s.files.length + 1) ∧
    (∀ node s, import_regular_file W (load_nested W fuel) node s ≠
      Except.error fault.process_exit) ∧
    (∀ s, import_nasal_lib W (load_nested W fuel) s ≠ Except.error fault.process_exit) ∧
    (∀ b i s, load W fuel b i s ≠ Except.error fault.process_exit) ∧
    (∀ s program_root self spath,
      link W fuel s program_root self spath ≠ Except.error fault.process_exit) := by
  refine ⟨find_exits_iff, find_enter_file, ?_, ?_, ?_, load_never_exits W fuel, ?_⟩
  · intro F s
    obtain ⟨i, h1, h2⟩ := find_lib_file F s
    exact ⟨i, h1, by simpa using h2⟩
  · exact import_regular_file_never_exits W _ (load_nested_never_exits W fuel)
  · exact import_nasal_lib_never_exits W _ (load_nested_never_exits W fuel)
  · intro s program_root self spath
    exact load_never_exits W fuel _ _ _

/-! ## The accesses of `get_path`, and the extraction of the name -/

theorem import_check_calls (node : call_expr)
    (h : import_check (expr.call_expr node) = true) :
    (node.get_calls ≠ [] ∧ ∀ c ∈ node.get_calls, ∃ l field, c = call.call_hash l field) ∨
    (∃ l str, node.get_calls = [call.call_function l [expr.string_literal str]]) := by
  obtain ⟨loc, first, calls⟩ := node
  obtain ⟨loc1, idloc, calls1, heq, hc⟩ := (import_check_iff_forms _).1 h
  injection heq with heq
  injection heq with h1 h2 h3
  subst h1 h2 h3
  exact hc

/-- C29: for a node that `import_check` accepts every access of `get_path`
    is valid. The postfix list is not empty, so `get_calls()[0]` exists; when
    its first element is an invocation it is the only element, has exactly one
    argument, and the argument is a string literal, so `get_argument()[0]` and
    the cast to `string_literal` are valid; otherwise every element is a field
    access, so every cast to `call_hash` is valid. Hence `get_path` is defined
    there, while it is not for a node without postfix, for an invocation
    without argument or with an argument that is no string literal, and for a
    dotted form that holds an invocation. -/
theorem get_path_accesses_valid (W : World) (node : call_expr)
    (h : import_check (expr.call_expr node) = true) :
    node.get_calls ≠ [] ∧
    (∀ c0 rest, node.get_calls = c0 :: rest → c0.get_type = expr_type.ast_callf →
      rest = [] ∧ ∃ l str, c0 = call.call_function l [expr.string_literal str]) ∧
    (∀ c0 rest, node.get_calls = c0 :: rest → c0.get_type ≠ expr_type.ast_callf →
      ∀ c ∈ node.get_calls, ∃ l field, c = call.call_hash l field) ∧
    (∃ path, get_path W node = some path) ∧
    (∀ l first, get_path W (call_expr.mk l first []) = none) ∧
    (∀ l first, get_path W (call_expr.mk l first [call.call_function l []]) = none) ∧
    (∀ l first, get_path W (call_expr.mk l first
      [call.call_function l [expr.nil_expr l]]) = none) ∧
    (∀ l first, get_path W (call_expr.mk l first
      [call.call_hash l "std", call.call_function l []]) = none) := by
  refine ⟨?_, ?_, ?_, get_path_defined W node h, fun _ _ => rfl, fun _ _ => rfl,
    fun _ _ => rfl, fun _ _ => rfl⟩
  · rcases import_check_calls node h with ⟨hne, _⟩ | ⟨l, str, hc⟩
    · exact hne
    · rw [hc]; simp
  · intro c0 rest hcalls htype
    rcases import_check_calls node h with ⟨_, hall⟩ | ⟨l, str, hc⟩
    · obtain ⟨l, field, hc0⟩ := hall c0 (by rw [hcalls]; exact List.mem_cons_self _ _)
      rw [hc0] at htype
      simp [call.get_type] at htype
    · rw [hc] at hcalls
      injection hcalls with h1 h2
      exact ⟨h2.symm, l, str, h1.symm⟩
  · intro c0 rest hcalls htype
    rcases import_check_calls node h with ⟨_, hall⟩ | ⟨l, str, hc⟩
    · exact hall
    · rw [hc] at hcalls
      injection hcalls with h1 h2
      rw [← h1] at htype
      simp [call.get_type] at htype

/-- Witness of C29 on `import.std.lib`. -/
theorem get_path_accesses_valid_witness :
    ∃ path, get_path world_empty (call_expr.mk loc_a
      (expr.identifier { nd_loc := loc_a, name := "import" })
      [call.call_hash loc_a "std", call.call_hash loc_a "lib"]) = some path :=
  (get_path_accesses_valid world_empty (call_expr.mk loc_a
      (expr.identifier { nd_loc := loc_a, name := "import" })
      [call.call_hash loc_a "std", call.call_hash loc_a "lib"]) (by decide)).2.2.2.1

theorem module_split_position_lt (path : String) (p sp : Nat)
    (hf : string_find path ".nas" = some p) (hp : p + 4 = path.length)
    (hw : path.length < usize_width)
    (hsp : module_split_position path = some sp) : sp < p := by
  rcases module_split_position_cases path with
    ⟨_, _, he⟩ | ⟨pre, post, hl, _, he⟩ | ⟨_, pre, post, hl, _, he⟩
  · rw [he] at hsp; cases hsp
  · rw [he] at hsp
    cases hsp
    obtain ⟨_, _, hlt, _⟩ :=
      module_name_after_separator path p '/' (by decide) hf hp hw pre post hl
    exact hlt
  · rw [he] at hsp
    cases hsp
    obtain ⟨_, _, hlt, _⟩ :=
      module_name_after_separator path p '\\' (by decide) hf hp hw pre post hl
    exact hlt

/-- The path is the directory part, which ends right after the separator
    found, the name and the suffix. -/
theorem module_name_at_split (path : String) (p : Nat)
    (hf : string_find path ".nas" = some p) (hp : p + 4 = path.length)
    (hw : path.length < usize_width) :
    ∃ dir name : List Char,
      path.data = dir ++ name ++ ".nas".data ∧ module_name_at path p = ⟨name⟩ ∧
      '/' ∉ name ∧
      ((module_split_position path = none ∧ dir = []) ∨
       ∃ sp, module_split_position path = some sp ∧ dir.length = sp + 1) := by
  rcases module_split_position_cases path with
    ⟨h1, h2, he⟩ | ⟨pre, post, hl, hnp, he⟩ | ⟨h1, pre, post, hl, hnp, he⟩
  · refine ⟨[], (string_substr path 0 p).data, ?_, ?_, ?_, Or.inl ⟨he, rfl⟩⟩
    · rw [List.nil_append]
      exact module_name_without_separator path p hf hp
    · unfold module_name_at; rw [he]
    · intro hm
      apply h1
      unfold string_substr at hm
      exact List.mem_of_mem_drop (List.mem_of_mem_take hm)
  · obtain ⟨name, hpost, _, hsub⟩ :=
      module_name_after_separator path p '/' (by decide) hf hp hw pre post hl
    refine ⟨pre ++ ['/'], name, ?_, ?_, ?_, Or.inr ⟨pre.length, he, by simp⟩⟩
    · rw [hl, hpost]; simp
    · unfold module_name_at; rw [he]; exact hsub
    · intro hm
      exact hnp (hpost ▸ List.mem_append_left _ hm)
  · obtain ⟨name, hpost, _, hsub⟩ :=
      module_name_after_separator path p '\\' (by decide) hf hp hw pre post hl
    have hdata : path.data = (pre ++ ['\\']) ++ name ++ ".nas".data := by
      rw [hl, hpost]; simp
    refine ⟨pre ++ ['\\'], name, hdata, ?_, ?_, Or.inr ⟨pre.length, he, by simp⟩⟩
    · unfold module_name_at; rw [he]; exact hsub
    · intro hm
      apply h1
      rw [hdata]
      exact List.mem_append_left _ (List.mem_append_right _ hm)

/-- C30: where `generate_module_name` reaches the extraction of the name, the
    first `.nas` being at the very end of the path, the position of the
    separator found, if any, is below the position of the suffix, so that
    neither `suffix_position - split_position` nor the `- 1` that follows
    wraps, and the piece taken ends where the suffix starts; the name
    extracted holds no `/`, and the path is a directory part, the name and
    `.nas`, the directory part ending with the separator found. The length of
    a `std::string` is below `2 ^ 64`. -/
theorem module_name_extraction_safe (path : String) (s : linker) (p : Nat)
    (hf : string_find path ".nas" = some p) (hp : p + 4 = path.length)
    (hw : path.length < usize_width) :
    (generate_module_name path s).1 = module_name_at path p ∧
    (∀ sp, module_split_position path = some sp →
      sp < p ∧ 1 ≤ p - sp ∧
      usize_sub p sp = p - sp ∧
      usize_sub (usize_sub p sp) 1 = p - sp - 1 ∧
      sp + 1 + (p - sp - 1) = p) ∧
    ∃ dir name : List Char,
      path.data = dir ++ name ++ ".nas".data ∧
      module_name_at path p = ⟨name⟩ ∧
      '/' ∉ name ∧
      (module_split_position path = none → dir = []) ∧
      (∀ sp, module_split_position path = some sp → dir.length = sp + 1) := by
  refine ⟨?_, ?_, ?_⟩
  · rw [generate_module_name_extracted path s p hf hp]
  · intro sp hsp
    have hlt := module_split_position_lt path p sp hf hp hw hsp
    have e1 : usize_sub p sp = p - sp := usize_sub_small p sp (by omega) (by omega)
    have e2 : usize_sub (p - sp) 1 = p - sp - 1 :=
      usize_sub_small (p - sp) 1 (by omega) (by omega)
    refine ⟨hlt, by omega, e1, ?_, by omega⟩
    rw [e1, e2]
  · obtain ⟨dir, name, hdata, hname, hns, hcase⟩ := module_name_at_split path p hf hp hw
    refine ⟨dir, name, hdata, hname, hns, ?_, ?_⟩
    · intro hnone
      rcases hcase with ⟨_, hd⟩ | ⟨sp, hsp, _⟩
      · exact hd
      · rw [hnone] at hsp; cases hsp
    · intro sp hsp
      rcases hcase with ⟨hnone, _⟩ | ⟨sp1, hsp1, hlen⟩
      · rw [hnone] at hsp; cases hsp
      · rw [hsp] at hsp1
        cases hsp1
        exact hlen

/-- Witness of C30: in `dir/b.nas` the separator is at 3, the suffix at 5. -/
theorem module_name_extraction_safe_witness :
    module_split_position "dir/b.nas" = some 3 ∧
    (generate_module_name "dir/b.nas" (linker_fresh [])).1 = module_name_at "dir/b.nas" 5 ∧
    (∀ sp, module_split_position "dir/b.nas" = some sp →
      sp < 5 ∧ 1 ≤ 5 - sp ∧
      usize_sub 5 sp = 5 - sp ∧
      usize_sub (usize_sub 5 sp) 1 = 5 - sp - 1 ∧
      sp + 1 + (5 - sp - 1) = 5) ∧
    ∃ dir name : List Char,
      "dir/b.nas".data = dir ++ name ++ ".nas".data ∧
      module_name_at "dir/b.nas" 5 = ⟨name⟩ ∧
      '/' ∉ name ∧
      (module_split_position "dir/b.nas" = none → dir = []) ∧
      (∀ sp, module_split_position "dir/b.nas" = some sp → dir.length = sp + 1) :=
  ⟨by decide,
   module_name_extraction_safe "dir/b.nas" (linker_fresh []) 5 (by decide) (by decide)
     (by decide)⟩

/-! ## The library is loaded once -/

theorem lib_loaded_closed : state_closed (fun s => s.lib_loaded = true) where
  err := fun _ _ h => h
  lib_path := fun _ _ h => h
  lib_loaded := fun _ _ => rfl
  add_file := fun _ _ _ h => h
  push := fun _ _ _ h => h
  pop := fun _ h => h

theorem load_library_sets (W : World) (ld : load_fn) (tree : code_block) (s : linker)
    (t : code_block) (s1 : linker)
    (h : load_library W ld tree s = Except.ok (t, s1)) : s1.lib_loaded = true := by
  cases hl : s.lib_loaded with
  | true =>
    rw [load_library_loaded W ld tree s hl] at h
    simp only [Except.ok.injEq, Prod.mk.injEq] at h
    rw [← h.2]; exact hl
  | false =>
    rw [load_library_not_loaded W ld tree s hl] at h
    cases hlib : import_nasal_lib W ld s with
    | error f => simp [hlib] at h
    | ok r =>
      obtain ⟨blk, s2⟩ := r
      simp only [hlib, Except.ok.injEq, Prod.mk.injEq] at h
      rw [← h.2]

theorem load_sets_lib_loaded (W : World) (fuel : Nat) (b : code_block) (i : Nat)
    (s : linker) (t : code_block) (s1 : linker)
    (h : load W fuel b i s = Except.ok (t, s1)) : s1.lib_loaded = true := by
  rw [load_eq_load_body] at h
  obtain ⟨file, libtree, s0, definitions, _, hlib, heach, _⟩ := load_body_ok W _ b i s t s1 h
  have h0 := load_library_sets W _ _ s libtree s0 hlib
  exact import_each_keeps _ lib_loaded_closed W _
    (load_nested_keeps _ lib_loaded_closed W fuel) _ _ _ _ h0 heach

/-- A `load` entered with the library loaded splices no library statement. -/
theorem load_without_library (W : World) (fuel : Nat) (b : code_block) (i : Nat)
    (s : linker) (t : code_block) (s1 : linker) (hl : s.lib_loaded = true)
    (h : load W fuel b i s = Except.ok (t, s1)) :
    ∃ definitions,
      import_each W (load_nested W fuel) (b.get_expressions.takeWhile import_check) s =
        Except.ok (definitions, s1) ∧
      t.get_expressions = definitions ++
        ((b.get_expressions.takeWhile import_check).map import_placeholder ++
          b.get_expressions.dropWhile import_check) := by
  rw [load_eq_load_body] at h
  obtain ⟨file, libtree, s0, definitions, _, hlib, heach, htree⟩ :=
    load_body_ok W _ b i s t s1 h
  rw [load_library_loaded W _ _ s hl] at hlib
  simp only [Except.ok.injEq, Prod.mk.injEq] at hlib
  obtain ⟨h1, h2⟩ := hlib
  subst h1 h2
  exact ⟨definitions, heach, by rw [htree]; rfl⟩

/-- The state in which `import_nasal_lib` calls `load` for the library `F`. -/
theorem import_nasal_lib_descends (W : World) (ld : load_fn) (s : linker)
    (files_0 : String) (rest : List String) (F : String)
    (hfiles : s.files = files_0 :: rest)
    (hF : (find_file W "lib.nas" ⟨0, 0, 0, 0, files_0⟩ s).1 = F)
    (hres : F.length ≠ 0) (hnew : F ∉ s.files)
    (hscan : W.scan_geterr F = false) (hcompile : W.compile_geterr F = false) :
    ∃ i, import_nasal_lib W ld s =
      ld (W.parse_result F) i { s with lib_path := F, files := s.files ++ [F] } := by
  rw [import_nasal_lib_unfold W ld s files_0 rest hfiles, hF]
  obtain ⟨i, hfind, _⟩ := find_of_mem F { s with lib_path := F, files := s.files ++ [F] }
    (List.mem_append_right _ (List.mem_singleton_self F))
  refine ⟨i, ?_⟩
  simp only [hres, if_false, hnew, hscan, hcompile, Bool.false_eq_true, or_self, hfind]

/-- In that state a further `import_nasal_lib` returns an empty block. -/
theorem import_nasal_lib_nested (W : World) (ld : load_fn) (s : linker)
    (files_0 : String) (rest : List String) (F : String)
    (hfiles : s.files = files_0 :: rest)
    (hF : (find_file W "lib.nas" ⟨0, 0, 0, 0, files_0⟩ s).1 = F)
    (hres : F.length ≠ 0) :
    import_nasal_lib W ld { s with lib_path := F, files := s.files ++ [F] } =
      Except.ok (code_block.mk ⟨0, 0, 0, 0, F⟩ [],
        { s with lib_path := F, files := s.files ++ [F] }) := by
  have hfiles1 : ({ s with lib_path := F, files := s.files ++ [F] } : linker).files =
      files_0 :: (rest ++ [F]) := by
    show s.files ++ [F] = _
    rw [hfiles]; rfl
  have hF1 : (find_file W "lib.nas" ⟨0, 0, 0, 0, files_0⟩
      { s with lib_path := F, files := s.files ++ [F] }).1 = F := by
    rw [← hF]
    exact find_file_fst_congr W _ _ _ _ s rfl
  rw [import_nasal_lib_unfold W ld _ files_0 (rest ++ [F]) hfiles1, hF1]
  have hmem : F ∈ ({ s with lib_path := F, files := s.files ++ [F] } : linker).files :=
    List.mem_append_right _ (List.mem_singleton_self F)
  simp only [hres, if_false, hmem, if_true]

theorem world_lib_access (f : String) (h : world_lib.access f = true) :
    f ∈ ["std/lib.nas", "b.nas"] := by
  by_cases ha : f = "std/lib.nas"
  · simp [ha]
  · by_cases hb : f = "b.nas"
    · simp [hb]
    · exfalso
      have ha1 : (f == "std/lib.nas") = false := by simpa using ha
      have hb1 : (f == "b.nas") = false := by simpa using hb
      have : world_lib.access f = false := by
        simp [world_lib, world_of, List.lookup, ha1, hb1]
      rw [this] at h
      exact Bool.false_ne_true h

/-- C21: the library is loaded at most once in the life of a linker. `link`
    does not write `lib_loaded` when it starts; every `load` that returns
    leaves the flag set, so after the first `link` it is set for good; a
    `load` entered with the flag set does not call `import_nasal_lib`, whatever
    the nested loader, and splices no library statement, in a later `link`
    too. Before the flag is set, `import_nasal_lib` reaches the lexer only for
    a library file `F` that is not in `files`; it then calls `load` in the
    state in which `F` is in `files`, and the `import_nasal_lib` that this
    nested `load` calls returns an empty block without a look at the lexer,
    the parser or the loader, after which the nested `load` sets the flag. -/
theorem library_loaded_once (W : World) (fuel : Nat) :
    (∀ s self spath, (link_init s self spath).lib_loaded = s.lib_loaded) ∧
    (∀ b i s t s1, load W fuel b i s = Except.ok (t, s1) → s1.lib_loaded = true) ∧
    (∀ s program_root self spath t s1,
      link W fuel s program_root self spath = Except.ok (t, s1) → s1.lib_loaded = true) ∧
    (∀ (ld : load_fn) tree s, s.lib_loaded = true →
      load_library W ld tree s = Except.ok (tree, s)) ∧
    (∀ s program_root self spath t s1, s.lib_loaded = true →
      link W fuel s program_root self spath = Except.ok (t, s1) →
      ∃ definitions,
        definitions.length =
          (program_root.get_expressions.takeWhile import_check).length ∧
        t.get_expressions = definitions ++
          ((program_root.get_expressions.takeWhile import_check).map import_placeholder ++
            program_root.get_expressions.dropWhile import_check)) ∧
    (∀ (ld : load_fn) (s : linker) files_0 rest F,
      s.files = files_0 :: rest →
      (find_file W "lib.nas" ⟨0, 0, 0, 0, files_0⟩ s).1 = F → F.length ≠ 0 →
      (F ∉ s.files → W.scan_geterr F = false → W.compile_geterr F = false →
        ∃ i, import_nasal_lib W ld s =
          ld (W.parse_result F) i { s with lib_path := F, files := s.files ++ [F] }) ∧
      (∀ ld1 : load_fn,
        import_nasal_lib W ld1 { s with lib_path := F, files := s.files ++ [F] } =
          Except.ok (code_block.mk ⟨0, 0, 0, 0, F⟩ [],
            { s with lib_path := F, files := s.files ++ [F] })) ∧
      (∀ (ld1 : load_fn) tree, s.lib_loaded = false →
        load_library W ld1 tree { s with lib_path := F, files := s.files ++ [F] } =
          Except.ok (code_block.mk tree.get_location tree.get_expressions,
            { s with lib_path := F, files := s.files ++ [F], lib_loaded := true }))) := by
  refine ⟨fun _ _ _ => rfl, load_sets_lib_loaded W fuel, ?_, load_library_loaded W, ?_, ?_⟩
  · intro s program_root self spath t s1 h
    exact load_sets_lib_loaded W fuel _ _ _ _ _ h
  · intro s program_root self spath t s1 hl h
    obtain ⟨definitions, heach, htree⟩ :=
      load_without_library W fuel program_root 0 (link_init s self spath) t s1 hl h
    exact ⟨definitions, import_each_length W _ _ _ _ _ heach, htree⟩
  · intro ld s files_0 rest F hfiles hF hres
    refine ⟨?_, ?_, ?_⟩
    · intro hnew hscan hcompile
      exact import_nasal_lib_descends W ld s files_0 rest F hfiles hF hres hnew hscan hcompile
    · intro ld1
      exact import_nasal_lib_nested W ld1 s files_0 rest F hfiles hF hres
    · intro ld1 tree hl
      rw [load_library_not_loaded W ld1 tree
          { s with lib_path := F, files := s.files ++ [F] } hl,
        import_nasal_lib_nested W ld1 s files_0 rest F hfiles hF hres]
      simp only [link_block_fst]
      simp [code_block.get_expressions]

/-- Witness of C21: `a.nas` linked twice by one linker, with `std/lib.nas` on
    disk. The first root starts with the statement of the library, the
    second one holds no statement of it. -/
theorem library_loaded_once_witness :
    (∃ t1 s1 t2 s2 definitions,
      link world_lib 3 (linker_fresh []) entry_a "a.nas" false = Except.ok (t1, s1) ∧
      s1.lib_loaded = true ∧
      link world_lib 3 s1 entry_a "a.nas" false = Except.ok (t2, s2) ∧
      definitions.length = (entry_a.get_expressions.takeWhile import_check).length ∧
      t2.get_expressions = definitions ++
        ((entry_a.get_expressions.takeWhile import_check).map import_placeholder ++
          entry_a.get_expressions.dropWhile import_check)) ∧
    (link world_lib 3 (linker_fresh []) entry_a "a.nas" false).toOption.map
        (fun r => (r.1.get_expressions.map wrapper_summary, r.2.lib_loaded, r.2.files)) =
      some ([none, some ("b", [expr_type.ast_def, expr_type.ast_ret]), none, none],
        true, ["a.nas", "std/lib.nas", "b.nas"]) := by
  refine ⟨?_, by decide!⟩
  obtain ⟨t1, s1, h1⟩ := link_returns world_lib ["std/lib.nas", "b.nas"] world_lib_access 3
    (by decide) (linker_fresh []) entry_a "a.nas" false
  obtain ⟨t2, s2, h2⟩ := link_returns world_lib ["std/lib.nas", "b.nas"] world_lib_access 3
    (by decide) s1 entry_a "a.nas" false
  have hl := (library_loaded_once world_lib 3).2.2.1 _ _ _ _ _ _ h1
  obtain ⟨definitions, hd1, hd2⟩ :=
    (library_loaded_once world_lib 3).2.2.2.2.1 _ _ _ _ _ _ hl h2
  exact ⟨t1, s1, t2, s2, definitions, h1, hl, h2, hd1, hd2⟩

/-! ## Failed imports, placeholders and the size of the root -/

/-- Every statement of the run was handed to `import_regular_file`, and the
    definition at its place wraps the block that call returned. -/
theorem import_each_wrappers (W : World) (ld : load_fn) (stmts : List expr) (s : linker)
    (definitions : List expr) (s1 : linker)
    (h : import_each W ld stmts s = Except.ok (definitions, s1)) :
    List.Forall₂ (fun stmt d => ∃ node s2 blk s3,
        stmt = expr.call_expr node ∧
        import_regular_file W ld node s2 = Except.ok (blk, s3) ∧
        d = (generate_module_definition W blk s3).1) stmts definitions := by
  induction stmts generalizing s definitions with
  | nil =>
    simp only [import_each, Except.ok.injEq, Prod.mk.injEq] at h
    rw [← h.1]
    exact List.Forall₂.nil
  | cons e rest ih =>
    cases e with
    | call_expr node =>
      simp only [import_each] at h
      cases hi : import_regular_file W ld node s with
      | error f => simp [hi] at h
      | ok r =>
        obtain ⟨blk, s2⟩ := r
        simp only [hi] at h
        cases hr : import_each W ld rest (generate_module_definition W blk s2).2 with
        | error f => simp [hr] at h
        | ok r2 =>
          obtain ⟨defs, s3⟩ := r2
          simp only [hr, Except.ok.injEq, Prod.mk.injEq] at h
          rw [← h.1]
          rw [h.2] at hr
          exact List.Forall₂.cons ⟨node, s, blk, s2, rfl, hi, rfl⟩ (ih _ _ hr)
    | _ => simp [import_each] at h

/-- C22: an import that does not resolve, and one that resolves to a file on
    the active stack, make `import_regular_file` return a block without a
    statement, whatever the nested loader. `load` goes on after it. Every
    result of `load` is: the statements of the tree `load_library` returned;
    then the definitions `import_each` returned for the longest leading run of
    imports, which are in number and order the imports of the run, each of
    them having been handed to `import_regular_file` and the definition at
    its place being `generate_module_definition` of the block that call
    returned, failed or not; then the placeholders of the run and every
    later statement. On a file system with finitely many files `link`
    returns, with such a result. -/
theorem load_goes_on_after_failed_import (W : World) (fuel : Nat) :
    (∀ (ld : load_fn) node s path, get_path W node = some path →
      (find_file W path node.get_location s).1.length = 0 →
      ∃ blk s1, import_regular_file W ld node s = Except.ok (blk, s1) ∧
        blk.get_expressions = []) ∧
    (∀ (ld : load_fn) node s path, get_path W node = some path →
      (find_file W path node.get_location s).1.length ≠ 0 →
      (find_file W path node.get_location s).1 ∈ s.module_load_stack →
      ∃ blk s1, import_regular_file W ld node s = Except.ok (blk, s1) ∧
        blk.get_expressions = []) ∧
    (∀ b i s t s1, load W fuel b i s = Except.ok (t, s1) →
      ∃ (file : String) (libtree : code_block) (s0 : linker) (definitions : List expr),
        load_library W (load_nested W fuel) (code_block.mk ⟨0, 0, 0, 0, file⟩ []) s =
          Except.ok (libtree, s0) ∧
        import_each W (load_nested W fuel) (b.get_expressions.takeWhile import_check) s0 =
          Except.ok (definitions, s1) ∧
        List.Forall₂ (fun stmt d => ∃ node s2 blk s3,
            stmt = expr.call_expr node ∧
            import_regular_file W (load_nested W fuel) node s2 = Except.ok (blk, s3) ∧
            d = (generate_module_definition W blk s3).1)
          (b.get_expressions.takeWhile import_check) definitions ∧
        definitions.length = (b.get_expressions.takeWhile import_check).length ∧
        t.get_expressions = libtree.get_expressions ++ definitions ++
          ((b.get_expressions.takeWhile import_check).map import_placeholder ++
            b.get_expressions.dropWhile import_check)) ∧
    (∀ existing : List String, (∀ f, W.access f = true → f ∈ existing) →
      existing.length + 1 ≤ fuel →
      ∀ s program_root self spath,
        ∃ (t : code_block) (s1 : linker) (libtree : code_block) (s0 : linker)
            (definitions : List expr),
          link W fuel s program_root self spath = Except.ok (t, s1) ∧
          load_library W (load_nested W fuel) (code_block.mk ⟨0, 0, 0, 0, self⟩ [])
            (link_init s self spath) = Except.ok (libtree, s0) ∧
          import_each W (load_nested W fuel)
            (program_root.get_expressions.takeWhile import_check) s0 =
            Except.ok (definitions, s1) ∧
          List.Forall₂ (fun stmt d => ∃ node s2 blk s3,
              stmt = expr.call_expr node ∧
              import_regular_file W (load_nested W fuel) node s2 = Except.ok (blk, s3) ∧
              d = (generate_module_definition W blk s3).1)
            (program_root.get_expressions.takeWhile import_check) definitions ∧
          definitions.length =
            (program_root.get_expressions.takeWhile import_check).length ∧
          t.get_expressions = libtree.get_expressions ++ definitions ++
            ((program_root.get_expressions.takeWhile import_check).map import_placeholder ++
              program_root.get_expressions.dropWhile import_check)) := by
  refine ⟨?_, ?_, ?_, ?_⟩
  · intro ld node s path hpath hres
    exact ⟨_, _, import_regular_file_unresolved W ld node s path hpath hres, rfl⟩
  · intro ld node s path hpath hres hon
    exact ⟨_, _, import_regular_file_on_stack W ld node s path hpath hres hon, rfl⟩
  · intro b i s t s1 h
    rw [load_eq_load_body] at h
    obtain ⟨file, libtree, s0, defs, _, hl, hi, ht⟩ := load_body_ok W _ _ _ _ _ _ h
    exact ⟨file, libtree, s0, defs, hl, hi, import_each_wrappers W _ _ _ _ _ hi,
      import_each_length W _ _ _ _ _ hi, by rw [ht]; rfl⟩
  · intro existing hfin hfuel s program_root self spath
    obtain ⟨t, s1, h⟩ := link_returns W existing hfin fuel hfuel s program_root self spath
    have hb := h
    unfold link at hb
    rw [load_eq_load_body] at hb
    obtain ⟨file, libtree, s0, defs, hfile, hl, hi, ht⟩ := load_body_ok W _ _ _ _ _ _ hb
    have hself : file = self := by
      have : (link_init s self spath).files[0]? = some self := rfl
      rw [this] at hfile
      cases hfile
      rfl
    subst hself
    exact ⟨t, s1, libtree, s0, defs, h, hl, hi, import_each_wrappers W _ _ _ _ _ hi,
      import_each_length W _ _ _ _ _ hi, by rw [ht]; rfl⟩

set_option maxRecDepth 100000 in
/-- Witness of C22: `import("missing.nas"); import("b.nas"); var x = 1;` with
    `b.nas` alone on disk gives two wrappers, the first one around an empty
    block, and keeps the statement. -/
theorem load_goes_on_after_failed_import_witness :
    (∃ (t : code_block) (s1 : linker) (libtree : code_block) (s0 : linker)
        (definitions : List expr),
      link world_b 2 (linker_fresh []) entry_missing_first "a.nas" false =
        Except.ok (t, s1) ∧
      load_library world_b (load_nested world_b 2) (code_block.mk ⟨0, 0, 0, 0, "a.nas"⟩ [])
        (link_init (linker_fresh []) "a.nas" false) = Except.ok (libtree, s0) ∧
      import_each world_b (load_nested world_b 2)
        (entry_missing_first.get_expressions.takeWhile import_check) s0 =
        Except.ok (definitions, s1) ∧
      List.Forall₂ (fun stmt d => ∃ node s2 blk s3,
          stmt = expr.call_expr node ∧
          import_regular_file world_b (load_nested world_b 2) node s2 = Except.ok (blk, s3) ∧
          d = (generate_module_definition world_b blk s3).1)
        (entry_missing_first.get_expressions.takeWhile import_check) definitions ∧
      definitions.length =
        (entry_missing_first.get_expressions.takeWhile import_check).length ∧
      t.get_expressions = libtree.get_expressions ++ definitions ++
        ((entry_missing_first.get_expressions.takeWhile import_check).map
            import_placeholder ++
          entry_missing_first.get_expressions.dropWhile import_check)) ∧
    (entry_missing_first.get_expressions.takeWhile import_check).length = 2 ∧
    (link world_b 2 (linker_fresh []) entry_missing_first "a.nas" false).toOption.map
        (fun r => (r.1.get_expressions.map wrapper_summary,
          r.1.get_expressions.map expr.get_type)) =
      some ([some ("module@[]", [expr_type.ast_ret]),
          some ("b", [expr_type.ast_def, expr_type.ast_ret]), none, none, none],
        [expr_type.ast_def, expr_type.ast_def, expr_type.ast_null, expr_type.ast_null,
          expr_type.ast_def]) :=
  ⟨(load_goes_on_after_failed_import world_b 2).2.2.2 ["b.nas"] world_b_access (by decide)
      (linker_fresh []) entry_missing_first "a.nas" false,
   by decide, by decide!⟩

theorem load_deleted_eq (stmts : List expr) :
    load_deleted stmts = stmts.takeWhile import_check := by
  induction stmts with
  | nil => rfl
  | cons e rest ih =>
    by_cases h : import_check e = true
    · simp only [load_deleted, h, not_true_eq_false, if_false, List.takeWhile_cons, if_true]
      rw [ih]
    · simp only [load_deleted, h, not_false_eq_true, if_true, List.takeWhile_cons, if_false]
      simp [h]

/-- The statements as the loop of `load` leaves them, index by index. -/
theorem placeholders_index (l : List expr) :
    ((l.takeWhile import_check).map import_placeholder ++ l.dropWhile import_check).length =
      l.length ∧
    (∀ j, j < (l.takeWhile import_check).length →
      ∃ e, l[j]? = some e ∧ import_check e = true ∧
        ((l.takeWhile import_check).map import_placeholder ++
          l.dropWhile import_check)[j]? = some (expr.null_expr e.get_location)) ∧
    (∀ j, (l.takeWhile import_check).length ≤ j →
      ((l.takeWhile import_check).map import_placeholder ++
        l.dropWhile import_check)[j]? = l[j]?) := by
  have hsplit := List.takeWhile_append_dropWhile import_check l
  generalize hT : l.takeWhile import_check = T at hsplit
  generalize hD : l.dropWhile import_check = D at hsplit
  have hall : ∀ e ∈ T, import_check e = true := by
    intro e he
    rw [← hT] at he
    exact List.mem_takeWhile_imp he
  subst hsplit
  refine ⟨by simp, ?_, ?_⟩
  · intro j hj
    have hjT : j < T.length := hj
    refine ⟨T[j], ?_, hall _ (List.getElem_mem _), ?_⟩
    · rw [List.getElem?_append_left hjT, List.getElem?_eq_getElem hjT]
    · rw [List.getElem?_append_left (by simpa using hjT), List.getElem?_map,
        List.getElem?_eq_getElem hjT]
      rfl
  · intro j hj
    rw [List.getElem?_append_right (by simpa using hj),
      List.getElem?_append_right hj]
    simp

/-- C23: for a block of `n` statements whose longest leading run of imports
    has `k` members, `load` returns, given finitely many files and fuel for
    them, and the root it returns is the `L` statements of the library that
    this call spliced, then `k` wrappers, then `n` statements: at every index
    below `k` a `null_expr` that carries the span of the import at that
    index, and from `k` on the statement of the block at that index,
    unchanged; so the root holds `L + k + n` statements. The loop hands to
    `delete` exactly the `k` leading imports, each once. -/
theorem load_replaces_leading_imports (W : World) (U : List String)
    (hU : ∀ f, W.access f = true → f ∈ U) (fuel : Nat)
    (b : code_block) (i : Nat) (s : linker)
    (hinv : linker_inv U s) (hi : i < s.files.length)
    (hm : load_measure W U.length s ≤ fuel) :
    ∃ (t : code_block) (s1 s0 : linker) (file : String) (libtree : code_block)
        (definitions out : List expr),
      load W fuel b i s = Except.ok (t, s1) ∧
      load_library W (load_nested W fuel) (code_block.mk ⟨0, 0, 0, 0, file⟩ []) s =
        Except.ok (libtree, s0) ∧
      t.get_expressions = libtree.get_expressions ++ definitions ++ out ∧
      definitions.length = (b.get_expressions.takeWhile import_check).length ∧
      out.length = b.get_expressions.length ∧
      (∀ j, j < (b.get_expressions.takeWhile import_check).length →
        ∃ e, b.get_expressions[j]? = some e ∧ import_check e = true ∧
          out[j]? = some (expr.null_expr e.get_location)) ∧
      (∀ j, (b.get_expressions.takeWhile import_check).length ≤ j →
        out[j]? = b.get_expressions[j]?) ∧
      t.get_expressions.length =
        libtree.get_expressions.length +
          (b.get_expressions.takeWhile import_check).length + b.get_expressions.length ∧
      load_deleted b.get_expressions = b.get_expressions.takeWhile import_check := by
  obtain ⟨t, s1, h, _⟩ := load_returns W U hU fuel b i s hinv hi hm
  have hb := h
  rw [load_eq_load_body] at hb
  obtain ⟨file, libtree, s0, defs, _, hl, hi1, ht⟩ := load_body_ok W _ _ _ _ _ _ hb
  obtain ⟨h1, h2, h3⟩ := placeholders_index b.get_expressions
  have hlen := import_each_length W _ _ _ _ _ hi1
  refine ⟨t, s1, s0, file, libtree, defs, _, h, hl, by rw [ht]; rfl, hlen, h1, h2, h3, ?_,
    load_deleted_eq _⟩
  rw [ht]
  show (libtree.get_expressions ++ defs ++ _).length = _
  rw [List.length_append, List.length_append, hlen, h1]

/-- Witness of C23: `import("missing.nas"); import("b.nas"); var x = 1;`. -/
theorem load_replaces_leading_imports_witness :
    (∃ (t : code_block) (s1 s0 : linker) (file : String) (libtree : code_block)
        (definitions out : List expr),
      load world_b 2 entry_missing_first 0 (link_init (linker_fresh []) "a.nas" false) =
        Except.ok (t, s1) ∧
      load_library world_b (load_nested world_b 2) (code_block.mk ⟨0, 0, 0, 0, file⟩ [])
        (link_init (linker_fresh []) "a.nas" false) = Except.ok (libtree, s0) ∧
      t.get_expressions = libtree.get_expressions ++ definitions ++ out ∧
      definitions.length =
        (entry_missing_first.get_expressions.takeWhile import_check).length ∧
      out.length = entry_missing_first.get_expressions.length ∧
      (∀ j, j < (entry_missing_first.get_expressions.takeWhile import_check).length →
        ∃ e, entry_missing_first.get_expressions[j]? = some e ∧ import_check e = true ∧
          out[j]? = some (expr.null_expr e.get_location)) ∧
      (∀ j, (entry_missing_first.get_expressions.takeWhile import_check).length ≤ j →
        out[j]? = entry_missing_first.get_expressions[j]?) ∧
      t.get_expressions.length =
        libtree.get_expressions.length +
          (entry_missing_first.get_expressions.takeWhile import_check).length +
          entry_missing_first.get_expressions.length ∧
      load_deleted entry_missing_first.get_expressions =
        entry_missing_first.get_expressions.takeWhile import_check) ∧
    (entry_missing_first.get_expressions.takeWhile import_check).length = 2 ∧
    entry_missing_first.get_expressions.length = 3 ∧
    (load world_b 2 entry_missing_first 0
        (link_init (linker_fresh []) "a.nas" false)).toOption.map
      (fun r => r.1.get_expressions.length) = some 5 :=
  ⟨load_replaces_leading_imports world_b ("a.nas" :: ["b.nas"])
      (fun f h => List.mem_cons_of_mem _ (world_b_access f h)) 2
      entry_missing_first 0 (link_init (linker_fresh []) "a.nas" false)
      (link_init_inv _ _ _ _) (by decide) (link_init_measure world_b _ _ _ ["b.nas"]),
   by decide, by decide, by decide!⟩

/-! ## The search path the constructor builds -/

theorem string_find_char_loop_spec (c : Char) (l : List Char) (i : Nat) :
    (c ∉ l ∧ string_find_char_loop c l i = none) ∨
    (∃ seg rest, l = seg ++ c :: rest ∧ c ∉ seg ∧
      string_find_char_loop c l i = some (i + seg.length)) := by
  induction l generalizing i with
  | nil => exact Or.inl ⟨by simp, rfl⟩
  | cons d ds ih =>
    by_cases hd : d = c
    · subst hd
      exact Or.inr ⟨[], ds, rfl, by simp, by simp [string_find_char_loop]⟩
    · simp only [string_find_char_loop, hd, if_false]
      rcases ih (i + 1) with ⟨hn, he⟩ | ⟨seg, rest, hl, hns, he⟩
      · refine Or.inl ⟨?_, he⟩
        simp only [List.mem_cons, not_or]
        exact ⟨fun h => hd h.symm, hn⟩
      · refine Or.inr ⟨d :: seg, rest, by rw [hl]; rfl, ?_, ?_⟩
        · simp only [List.mem_cons, not_or]
          exact ⟨fun h => hd h.symm, hns⟩
        · rw [he]
          simp only [List.length_cons]
          congr 1
          omega

theorem splitOn_single (sep : Char) (l : List Char) (h : sep ∉ l) :
    l.splitOn sep = [l] := by
  unfold List.splitOn
  apply List.splitOnP_eq_single
  intro x hx hp
  simp only [beq_iff_eq] at hp
  exact h (hp ▸ hx)

theorem splitOn_first (sep : Char) (seg rest : List Char) (h : sep ∉ seg) :
    (seg ++ sep :: rest).splitOn sep = seg :: rest.splitOn sep := by
  unfold List.splitOn
  apply List.splitOnP_first
  · intro x hx hp
    simp only [beq_iff_eq] at hp
    exact h (hp ▸ hx)
  · simp

theorem segments_cons (seg : List Char) (segs : List (List Char)) (envpath : List String) :
    (if (String.mk seg).length ≠ 0 then envpath ++ [String.mk seg] else envpath) ++
        ((segs.filter (fun seg => decide (seg ≠ []))).map String.mk) =
      envpath ++ (((seg :: segs).filter (fun seg => decide (seg ≠ []))).map String.mk) := by
  cases seg with
  | nil => simp [String.length]
  | cons c cs => simp [String.length]

theorem linker_envpath_loop_spec (PATH : String) (sep : Char)
    (hw : PATH.length < usize_width) :
    ∀ (fuel last : Nat) (envpath : List String), last ≤ PATH.length →
      (PATH.data.drop last).length + 1 ≤ fuel →
      ∃ last1 envpath1,
        linker_envpath_loop PATH sep fuel last (string_find_char PATH sep last) envpath =
          Except.ok (last1, envpath1) ∧
        (if last1 ≠ PATH.length then envpath1 ++ [string_substr_from PATH last1]
          else envpath1) =
          envpath ++ ((((PATH.data.drop last).splitOn sep).filter
            (fun seg => decide (seg ≠ []))).map String.mk) := by
  intro fuel
  induction fuel with
  | zero => intro last envpath _ hf; omega
  | succ fuel ih =>
    intro last envpath hlast hfuel
    have hlen : PATH.data.length = PATH.length := rfl
    rcases string_find_char_loop_spec sep (PATH.data.drop last) last with
      ⟨hn, he⟩ | ⟨seg, rest, hl, hns, he⟩
    · refine ⟨last, envpath, ?_, ?_⟩
      · unfold string_find_char
        rw [he]
        rfl
      · rw [splitOn_single sep _ hn]
        by_cases hend : last = PATH.length
        · have hnil : PATH.data.drop last = [] := by
            rw [hend]; exact List.drop_length _
          simp [hend, hnil]
        · have hne : PATH.data.drop last ≠ [] := by
            intro hnil
            have := congrArg List.length hnil
            rw [List.length_drop] at this
            simp only [List.length_nil] at this
            omega
          simp [hend, hne, string_substr_from]
    · have hrem : (PATH.data.drop last).length = seg.length + (rest.length + 1) := by
        rw [hl]; simp
      have hdl : (PATH.data.drop last).length = PATH.length - last := by
        rw [List.length_drop, hlen]
      have hpos : last + seg.length + 1 ≤ PATH.length := by omega
      have hsub : usize_sub (last + seg.length) last = seg.length := by
        rw [usize_sub_small _ _ (by omega) (by omega)]; omega
      have hmod : (last + seg.length + 1) % usize_width = last + seg.length + 1 :=
        Nat.mod_eq_of_lt (by omega)
      have hdir : string_substr PATH last seg.length = String.mk seg := by
        unfold string_substr
        rw [hl]
        simp
      have hdrop : PATH.data.drop (last + seg.length + 1) = rest := by
        have e : last + seg.length + 1 = last + (seg.length + 1) := by omega
        rw [e, ← List.drop_drop, hl]
        simp
      obtain ⟨last1, envpath1, hloop, hfinal⟩ := ih (last + seg.length + 1)
        (if (String.mk seg).length ≠ 0 then envpath ++ [String.mk seg] else envpath)
        hpos (by rw [hdrop]; omega)
      refine ⟨last1, envpath1, ?_, ?_⟩
      · unfold string_find_char
        rw [he]
        simp only [linker_envpath_loop, hsub, hmod, hdir]
        exact hloop
      · rw [hfinal, hdrop, hl, splitOn_first sep seg rest hns]
        exact segments_cons seg _ envpath

/-- The constructor's list is the list of the specification. -/
theorem linker_envpath_eq (PATH : String) (sep : Char) (fuel : Nat)
    (hw : PATH.length < usize_width) (hfuel : PATH.length + 1 ≤ fuel) :
    linker_envpath PATH sep fuel = Except.ok (spec_search_path PATH sep) := by
  obtain ⟨last1, envpath1, hloop, hfinal⟩ :=
    linker_envpath_loop_spec PATH sep hw fuel 0 [] (Nat.zero_le _) (by simpa using hfuel)
  unfold linker_envpath
  rw [hloop]
  simp only []
  rw [hfinal]
  simp [spec_search_path]

theorem splitOn_no_sep (sep : Char) :
    ∀ (n : Nat) (l : List Char), l.length ≤ n → ∀ seg ∈ l.splitOn sep, sep ∉ seg := by
  intro n
  induction n with
  | zero =>
    intro l hl seg hseg
    have hnil : l = [] := List.length_eq_zero.1 (by omega)
    rw [hnil, splitOn_single sep [] (by simp)] at hseg
    rw [List.mem_singleton.1 hseg]
    simp
  | succ n ih =>
    intro l hl seg hseg
    rcases string_find_char_loop_spec sep l 0 with ⟨hn, _⟩ | ⟨seg1, rest, hsplit, hns, _⟩
    · rw [splitOn_single sep l hn] at hseg
      rw [List.mem_singleton.1 hseg]
      exact hn
    · rw [hsplit, splitOn_first sep seg1 rest hns] at hseg
      rcases List.mem_cons.1 hseg with h1 | h1
      · rw [h1]; exact hns
      · refine ih rest ?_ seg h1
        have := congrArg List.length hsplit
        simp only [List.length_append, List.length_cons] at this
        omega

theorem spec_search_path_entries (PATH : String) (sep : Char) :
    ∀ e ∈ spec_search_path PATH sep, e.length ≠ 0 ∧ sep ∉ e.data := by
  intro e he
  simp only [spec_search_path, List.mem_map, List.mem_filter, decide_eq_true_eq] at he
  obtain ⟨seg, ⟨hseg, hne⟩, rfl⟩ := he
  refine ⟨?_, splitOn_no_sep sep _ _ (le_refl _) seg hseg⟩
  show seg.length ≠ 0
  intro h
  exact hne (List.length_eq_zero.1 h)

/-- C24: the list `envpath` that the constructor builds from the text of
    `PATH` and a separator is the list of the segments of `PATH` between
    separators, in their order, without the empty ones. The segments are
    those of `List.splitOn`: joined with the separator they give `PATH` back,
    and none holds the separator. So no entry is empty, no entry holds the
    separator, and a separator at the start, at the end or after another one
    adds nothing. The constructor takes `;` with Windows and `:` without. The
    length of a `std::string` is below `2 ^ 64`; the fuel covers one round
    for every character. -/
theorem linker_search_path (PATH : String) (sep : Char) (fuel : Nat)
    (hw : PATH.length < usize_width) (hfuel : PATH.length + 1 ≤ fuel) :
    linker_envpath PATH sep fuel =
      Except.ok (((PATH.data.splitOn sep).filter (fun seg => decide (seg ≠ []))).map
        String.mk) ∧
    [sep].intercalate (PATH.data.splitOn sep) = PATH.data ∧
    (∀ seg ∈ PATH.data.splitOn sep, sep ∉ seg) ∧
    (∀ envpath, linker_envpath PATH sep fuel = Except.ok envpath →
      ∀ e ∈ envpath, e.length ≠ 0 ∧ sep ∉ e.data) ∧
    (∀ W : World,
      linker_new W (some PATH) fuel =
        Except.ok (linker_fresh
          (((PATH.data.splitOn (if W.is_windows = true then ';' else ':')).filter
            (fun seg => decide (seg ≠ []))).map String.mk))) := by
  have h := linker_envpath_eq PATH sep fuel hw hfuel
  refine ⟨h, List.intercalate_splitOn _ _, splitOn_no_sep sep _ _ (le_refl _), ?_, ?_⟩
  · intro envpath he e hmem
    rw [h] at he
    cases he
    exact spec_search_path_entries PATH sep e hmem
  · intro W
    have hW := linker_envpath_eq PATH (if W.is_windows = true then ';' else ':') fuel hw hfuel
    unfold linker_new
    simp only [hW]
    rfl

/-- Witness of C24: a separator at the start, a doubled one and one at the
    end. -/
theorem linker_search_path_witness :
    linker_envpath ":/usr/bin::/bin:" ':' 17 = Except.ok ["/usr/bin", "/bin"] ∧
    linker_new world_empty (some ":/usr/bin::/bin:") 17 =
      Except.ok (linker_fresh ["/usr/bin", "/bin"]) := by
  have h := linker_search_path ":/usr/bin::/bin:" ':' 17 (by decide) (by decide)
  have e : ((":/usr/bin::/bin:".data.splitOn ':').filter
      (fun seg => decide (seg ≠ []))).map String.mk = ["/usr/bin", "/bin"] := by decide
  rw [e] at h
  refine ⟨h.1, ?_⟩
  have h2 := h.2.2.2.2 world_empty
  have e2 : (if world_empty.is_windows = true then ';' else ':') = ':' := rfl
  rw [e2, e] at h2
  exact h2

/-! ## The first import of the entry file and the index that `find` returns -/

theorem bit_names_length (n : Nat) : (bit_names n).length = 2 ^ n := by
  induction n with
  | zero => rfl
  | succ n ih =>
    simp only [bit_names, List.length_append, List.length_map, ih]
    omega

theorem bit_names_digits (n : Nat) (l : List Char) (h : l ∈ bit_names n) :
    ∀ c ∈ l, c = '0' ∨ c = '1' := by
  induction n generalizing l with
  | zero =>
    simp only [bit_names, List.mem_singleton] at h
    rw [h]
    intro c hc
    cases hc
  | succ n ih =>
    simp only [bit_names, List.mem_append, List.mem_map] at h
    rcases h with ⟨x, hx, rfl⟩ | ⟨x, hx, rfl⟩
    · intro c hc
      rcases List.mem_cons.1 hc with h1 | h1
      · exact Or.inl h1
      · exact ih x hx c h1
    · intro c hc
      rcases List.mem_cons.1 hc with h1 | h1
      · exact Or.inr h1
      · exact ih x hx c h1

theorem bit_names_nodup (n : Nat) : (bit_names n).Nodup := by
  induction n with
  | zero => simp [bit_names]
  | succ n ih =>
    simp only [bit_names]
    refine List.Nodup.append ?_ ?_ ?_
    · exact List.Nodup.map (fun a b hab => (List.cons.inj hab).2) ih
    · exact List.Nodup.map (fun a b hab => (List.cons.inj hab).2) ih
    · intro x h0 h1
      simp only [List.mem_map] at h0 h1
      obtain ⟨a, _, ha⟩ := h0
      obtain ⟨b, _, hb⟩ := h1
      rw [← ha] at hb
      exact absurd (List.cons.inj hb).1 (by decide)

theorem module_names_length (n : Nat) (h : n ≤ 65536) : (module_names n).length = n := by
  simp only [module_names, List.length_map, List.length_take, bit_names_length]
  omega

theorem module_names_nodup (n : Nat) : (module_names n).Nodup := by
  unfold module_names
  apply List.Nodup.map _ ((bit_names_nodup 16).sublist (List.take_sublist _ _))
  intro a b hab
  have h1 := congrArg String.data hab
  exact (List.cons.inj h1).2

theorem module_names_data (n : Nat) (m : String) (h : m ∈ module_names n) :
    ∃ l, m.data = 'm' :: l ∧ ∀ c ∈ l, c = '0' ∨ c = '1' := by
  simp only [module_names, List.mem_map] at h
  obtain ⟨l, hl, hk⟩ := h
  exact ⟨l, by rw [← hk], bit_names_digits 16 l (List.mem_of_mem_take hl)⟩

theorem module_names_ne (n : Nat) (m f : String) (h : m ∈ module_names n)
    (hf : f.data.head? ≠ some 'm') : m ≠ f := by
  obtain ⟨l, hk, _⟩ := module_names_data n m h
  intro e
  rw [← e, hk] at hf
  exact hf rfl

theorem module_names_no_b (n : Nat) (m : String) (h : m ∈ module_names n) :
    'b' ∉ m.data := by
  obtain ⟨l, hk, hl⟩ := module_names_data n m h
  rw [hk]
  intro hb
  rcases List.mem_cons.1 hb with h1 | h1
  · exact absurd h1 (by decide)
  · rcases hl _ h1 with h2 | h2
    · exact absurd h2 (by decide)
    · exact absurd h2 (by decide)

theorem module_names_length_ne (n : Nat) (m : String) (h : m ∈ module_names n) :
    m.length ≠ 0 := by
  obtain ⟨l, hk, _⟩ := module_names_data n m h
  show m.data.length ≠ 0
  rw [hk]
  simp

theorem import_check_import_call (loc : span) (file : String) :
    import_check (import_call loc file) = true :=
  (import_check_call_expr loc loc "import" _).2
    ⟨rfl, Or.inr ⟨loc, { nd_loc := loc, content := file }, rfl⟩⟩

theorem takeWhile_import_calls (loc : span) (ms : List String) :
    (ms.map (import_call loc)).takeWhile import_check = ms.map (import_call loc) ∧
    (ms.map (import_call loc)).dropWhile import_check = [] := by
  induction ms with
  | nil => exact ⟨rfl, rfl⟩
  | cons m rest ih =>
    simp only [List.map_cons, List.takeWhile_cons, List.dropWhile_cons,
      import_check_import_call, if_true]
    exact ⟨by rw [ih.1], ih.2⟩

theorem find_file_present (W : World) (f : String) (loc : span) (s : linker)
    (h : W.access f = true) : find_file W f loc s = (f, s) := by
  apply find_file_resolved
  simp [find_file_fpath, List.find?, h]

/-- What a nested `load` returns for a file without a statement when the
    library is loaded. -/
theorem load_nested_empty_file (W : World) (k : Nat) (b : code_block) (i : Nat)
    (s : linker) (t : code_block) (s1 : linker)
    (hb : b.get_expressions = []) (hlib : s.lib_loaded = true)
    (h : load_nested W k b i s = Except.ok (t, s1)) :
    s1 = s ∧ t.get_expressions = [] := by
  cases k with
  | zero => cases h
  | succ k =>
    have h1 : load W k b i s = Except.ok (t, s1) := h
    obtain ⟨definitions, heach, ht⟩ := load_without_library W k b i s t s1 hlib h1
    rw [hb] at heach ht
    simp only [List.takeWhile_nil, import_each, Except.ok.injEq, Prod.mk.injEq] at heach
    refine ⟨heach.2.symm, ?_⟩
    rw [ht, ← heach.1]
    rfl

/-- The import of a new file without a statement, the library being loaded:
    the file is appended to `files`, nothing else changes, and the block
    carries the name that `files` holds at the index `find` returned. -/
theorem import_regular_file_module (W : World) (k : Nat) (loc : span) (m : String)
    (s : linker) (blk : code_block) (s1 : linker)
    (hacc : W.access m = true) (hscan : W.scan_geterr m = false)
    (hcomp : W.compile_geterr m = false)
    (hempty : (W.parse_result m).get_expressions = [])
    (hlen : m.length ≠ 0) (hoff : m ∉ s.module_load_stack) (hnew : m ∉ s.files)
    (hlib : s.lib_loaded = true)
    (h : import_regular_file W (load_nested W k)
      (call_expr.mk loc (expr.identifier { nd_loc := loc, name := "import" })
        [call.call_function loc [expr.string_literal { nd_loc := loc, content := m }]])
      s = Except.ok (blk, s1)) :
    s1 = { s with files := s.files ++ [m] } ∧ blk.get_expressions = [] ∧
    (s.files ++ [m])[s.files.length % 65536]? = some blk.get_location.file := by
  have hpath := get_path_call W loc loc
    (expr.identifier { nd_loc := loc, name := "import" }) { nd_loc := loc, content := m }
  have hF : (find_file W m loc s).1 = m := by rw [find_file_present W m loc s hacc]
  rw [import_regular_file_resolved W _ _ s m m hpath hF hlen hoff] at h
  have hex : (exist m s).2 = { s with files := s.files ++ [m] } := by
    rcases exist_eq m s with ⟨hm, _⟩ | ⟨_, he⟩
    · exact absurd hm hnew
    · rw [he]
  have hent : enter_file m s =
      { s with files := s.files ++ [m], module_load_stack := s.module_load_stack ++ [m] } := by
    unfold enter_file
    rw [hex]
  have hfind : find m (enter_file m s) = Except.ok (s.files.length % 65536) := by
    rw [hent, find_eq m
      { s with files := s.files ++ [m], module_load_stack := s.module_load_stack ++ [m] }
      (List.mem_append_right _ (List.mem_singleton_self m))]
    show Except.ok ((s.files ++ [m]).indexOf m % 65536) = _
    rw [List.indexOf_append_of_not_mem hnew]
    simp
  simp only [hscan, hcomp, Bool.false_eq_true, or_self, if_false, hfind] at h
  cases hl : load_nested W k (W.parse_result m) (s.files.length % 65536) (enter_file m s) with
  | error f => simp [hl] at h
  | ok r =>
    obtain ⟨t, s2⟩ := r
    simp only [hl] at h
    split_ifs at h
    simp only [Except.ok.injEq, Prod.mk.injEq] at h
    have hlib1 : (enter_file m s).lib_loaded = true := by rw [hent]; exact hlib
    obtain ⟨hs2, ht⟩ := load_nested_empty_file W k _ _ _ _ _ hempty hlib1 hl
    obtain ⟨file, hfile, hloc⟩ := load_nested_location W k _ _ _ _ _ hl
    rw [← h.1, ← h.2, hs2, hent]
    refine ⟨?_, ht, ?_⟩
    · simp
    · rw [hent] at hfile
      rw [hloc]
      exact hfile

theorem string_substr_chars (path : String) (a b : Nat) :
    ∀ c ∈ (string_substr path a b).data, c ∈ path.data := by
  intro c hc
  unfold string_substr at hc
  exact List.mem_of_mem_drop (List.mem_of_mem_take hc)

/-- The name `generate_module_name` returns is the fallback or a piece of the
    path. -/
theorem generate_module_name_chars (path : String) (s : linker) :
    (generate_module_name path s).1 = "module@[" ++ path ++ "]" ∨
    ∀ c ∈ (generate_module_name path s).1.data, c ∈ path.data := by
  by_cases h : path.length = 0
  · rw [generate_module_name_empty path s h]; exact Or.inl rfl
  · cases hf : string_find path ".nas" with
    | none => rw [generate_module_name_no_suffix path s h hf]; exact Or.inl rfl
    | some p =>
      by_cases hp : p + 4 = path.length
      · rw [generate_module_name_extracted path s p hf hp]
        refine Or.inr ?_
        unfold module_name_at
        cases module_split_position path with
        | none => exact string_substr_chars path _ _
        | some q => exact string_substr_chars path _ _
      · rw [generate_module_name_inner_suffix path s p h hf hp]; exact Or.inl rfl

theorem generate_module_name_ne_b (path : String) (s : linker) (h : 'b' ∉ path.data) :
    (generate_module_name path s).1 ≠ "b" := by
  intro e
  rcases generate_module_name_chars path s with h1 | h1
  · rw [e] at h1
    have h2 := congrArg String.length h1
    rw [String.length_append, String.length_append] at h2
    have h3 : ("module@[" : String).length = 8 := by decide
    have h4 : ("b" : String).length = 1 := by decide
    omega
  · rw [e] at h1
    exact h (h1 'b' (by decide))

theorem defined_symbol_wrapper (W : World) (blk : code_block) (s : linker) :
    defined_symbol (generate_module_definition W blk s).1 =
      some { name := (generate_module_name blk.get_location.file s).1 } := by
  rw [generate_module_definition_eq]
  rfl

/-- The imports of new files without a statement, the library being loaded and
    the indices fitting a `u16`: the files are appended to `files` in their
    order, the stack, the flag and the search path stay, and no wrapper is
    bound to `b`. -/
theorem import_each_modules (W : World) (k : Nat) (loc : span) (ms : List String) :
    ∀ (s : linker) (definitions : List expr) (s1 : linker),
      (∀ m ∈ ms, W.access m = true ∧ W.scan_geterr m = false ∧
        W.compile_geterr m = false ∧ (W.parse_result m).get_expressions = [] ∧
        m.length ≠ 0 ∧ m ∉ s.module_load_stack ∧ m ∉ s.files ∧ 'b' ∉ m.data) →
      ms.Nodup → s.lib_loaded = true → s.files.length + ms.length ≤ 65536 →
      import_each W (load_nested W k) (ms.map (import_call loc)) s =
        Except.ok (definitions, s1) →
      s1.files = s.files ++ ms ∧ s1.module_load_stack = s.module_load_stack ∧
      s1.lib_loaded = true ∧ s1.envpath = s.envpath ∧
      ∀ d ∈ definitions, defined_symbol d ≠ some { name := "b" } := by
  induction ms with
  | nil =>
    intro s definitions s1 _ _ hlib _ h
    simp only [List.map_nil, import_each, Except.ok.injEq, Prod.mk.injEq] at h
    rw [← h.1, ← h.2]
    exact ⟨by simp, rfl, hlib, rfl, by simp⟩
  | cons m rest ih =>
    intro s definitions s1 hall hnd hlib hlen h
    obtain ⟨hacc, hscan, hcomp, hempty, hmlen, hoff, hnew, hnob⟩ :=
      hall m (List.mem_cons_self _ _)
    simp only [List.map_cons, import_call, import_each] at h
    cases hi : import_regular_file W (load_nested W k)
        (call_expr.mk loc (expr.identifier { nd_loc := loc, name := "import" })
          [call.call_function loc [expr.string_literal { nd_loc := loc, content := m }]])
        s with
    | error f => simp [hi] at h
    | ok r =>
      obtain ⟨blk, s2⟩ := r
      simp only [hi] at h
      obtain ⟨hs2, _, hfile⟩ := import_regular_file_module W k loc m s blk s2
        hacc hscan hcomp hempty hmlen hoff hnew hlib hi
      have hsmall : s.files.length < 65536 := by
        simp only [List.length_cons] at hlen; omega
      rw [Nat.mod_eq_of_lt hsmall, getElem?_append_length] at hfile
      have hblk : blk.get_location.file = m := by
        cases hfile; rfl
      obtain ⟨e, hframe⟩ := generate_module_definition_frame W blk s2
      cases hr : import_each W (load_nested W k)
          (rest.map (import_call loc)) (generate_module_definition W blk s2).2 with
      | error f => simp [hr] at h
      | ok r2 =>
        obtain ⟨defs, s3⟩ := r2
        simp only [hr, Except.ok.injEq, Prod.mk.injEq] at h
        obtain ⟨hdefs, hs3⟩ := h
        subst hs3
        have hst : (generate_module_definition W blk s2).2 =
            { s with files := s.files ++ [m], err := e } := by
          rw [hframe, hs2]
        rw [hst] at hr
        have hnd1 := List.nodup_cons.1 hnd
        obtain ⟨h1, h2, h3, h4, h5⟩ := ih { s with files := s.files ++ [m], err := e } defs s3
          (by
            intro m1 hm1
            obtain ⟨a1, a2, a3, a4, a5, a6, a7, a8⟩ := hall m1 (List.mem_cons_of_mem _ hm1)
            refine ⟨a1, a2, a3, a4, a5, a6, ?_, a8⟩
            show m1 ∉ s.files ++ [m]
            intro hmem
            rcases List.mem_append.1 hmem with hm | hm
            · exact a7 hm
            · exact hnd1.1 (List.mem_singleton.1 hm ▸ hm1))
          hnd1.2 hlib
          (by
            show (s.files ++ [m]).length + rest.length ≤ 65536
            simp only [List.length_append, List.length_singleton, List.length_cons,
              List.length_nil] at hlen ⊢
            omega)
          hr
        refine ⟨?_, h2, h3, h4, ?_⟩
        · rw [h1]
          show (s.files ++ [m]) ++ rest = s.files ++ m :: rest
          simp
        · intro d hd
          rw [← hdefs] at hd
          rcases List.mem_cons.1 hd with hd1 | hd1
          · rw [hd1, defined_symbol_wrapper, hblk]
            intro hb
            injection hb with hb
            injection hb with hb
            exact generate_module_name_ne_b m s2 hnob hb
          · exact h5 d hd1

/-- The block of an import that resolves to a file off the active stack and
    lexes and parses carries the name that `files` holds, after `exist`, at the
    index `find` returns: that of the file, modulo `2 ^ 16`. -/
theorem import_regular_file_tag (W : World) (fuel : Nat) (node : call_expr)
    (s : linker) (path F : String) (blk : code_block) (s1 : linker)
    (hpath : get_path W node = some path)
    (hF : (find_file W path node.get_location s).1 = F)
    (hres : F.length ≠ 0) (hoff : F ∉ s.module_load_stack)
    (hscan : W.scan_geterr F = false) (hcomp : W.compile_geterr F = false)
    (h : import_regular_file W (load_nested W fuel) node s = Except.ok (blk, s1)) :
    (exist F s).2.files[(exist F s).2.files.indexOf F % 65536]? =
      some blk.get_location.file := by
  rw [import_regular_file_resolved W _ node s path F hpath hF hres hoff] at h
  have hfind : find F (enter_file F s) =
      Except.ok ((exist F s).2.files.indexOf F % 65536) :=
    find_eq F (enter_file F s) (exist_files F s).2.2.1
  simp only [hscan, hcomp, Bool.false_eq_true, or_self, if_false, hfind] at h
  cases hl : load_nested W fuel (W.parse_result F)
      ((exist F s).2.files.indexOf F % 65536) (enter_file F s) with
  | error f => simp [hl] at h
  | ok r =>
    obtain ⟨t, s2⟩ := r
    simp only [hl] at h
    split_ifs at h
    simp only [Except.ok.injEq, Prod.mk.injEq] at h
    obtain ⟨file, hfile, hloc⟩ := load_nested_location W fuel _ _ _ _ _ hl
    rw [← h.1, hloc]
    exact hfile

/-- What `link` returns for an entry file whose first statement imports a
    file that resolves and is off the active stack. -/
theorem link_first_import (W : World) (existing : List String)
    (hfin : ∀ f, W.access f = true → f ∈ existing)
    (fuel : Nat) (hfuel : existing.length + 1 ≤ fuel)
    (s : linker) (self : String) (spath : Bool)
    (loc : span) (node : call_expr) (rest : List expr)
    (hc : import_check (expr.call_expr node) = true)
    (path F : String) (hpath : get_path W node = some path)
    (hF : (find_file W path node.get_location s).1 = F) (hres : F.length ≠ 0)
    (libtree : code_block) (s0 : linker)
    (hlib : load_library W (load_nested W fuel) (code_block.mk ⟨0, 0, 0, 0, self⟩ [])
      (link_init s self spath) = Except.ok (libtree, s0))
    (hoff : F ∉ s0.module_load_stack) :
    ∃ tree s1 blk s2 more,
      link W fuel s (code_block.mk loc (expr.call_expr node :: rest)) self spath =
        Except.ok (tree, s1) ∧
      import_regular_file W (load_nested W fuel) node s0 = Except.ok (blk, s2) ∧
      import_each W (load_nested W fuel) (rest.takeWhile import_check)
        (generate_module_definition W blk s2).2 = Except.ok (more, s1) ∧
      (find_file W path node.get_location s0).1 = F ∧
      F ∈ s1.files ∧
      tree.get_expressions =
        libtree.get_expressions ++ [(generate_module_definition W blk s2).1] ++ more ++
        (import_placeholder (expr.call_expr node) ::
          (rest.takeWhile import_check).map import_placeholder ++
          rest.dropWhile import_check) := by
  obtain ⟨tree, s1, hlink⟩ := link_returns W existing hfin fuel hfuel s
    (code_block.mk loc (expr.call_expr node :: rest)) self spath
  have hbody := hlink
  unfold link at hbody
  rw [load_eq_load_body] at hbody
  obtain ⟨file, libtree1, s01, definitions, hfile, hlib1, heach, htree⟩ :=
    load_body_ok W _ _ _ _ _ _ hbody
  have hself : file = self := by
    have : (link_init s self spath).files[0]? = some self := rfl
    rw [this] at hfile
    cases hfile
    rfl
  subst hself
  rw [hlib] at hlib1
  simp only [Except.ok.injEq, Prod.mk.injEq] at hlib1
  obtain ⟨hl1, hl2⟩ := hlib1
  subst hl1 hl2
  have htake : (code_block.mk loc (expr.call_expr node :: rest)).get_expressions.takeWhile
      import_check = expr.call_expr node :: rest.takeWhile import_check := by
    show (expr.call_expr node :: rest).takeWhile import_check = _
    rw [List.takeWhile_cons, hc]
    rfl
  have hdrop : (code_block.mk loc (expr.call_expr node :: rest)).get_expressions.dropWhile
      import_check = rest.dropWhile import_check := by
    show (expr.call_expr node :: rest).dropWhile import_check = _
    rw [List.dropWhile_cons, hc]
    rfl
  rw [htake] at heach htree
  rw [hdrop] at htree
  simp only [import_each] at heach
  cases hi : import_regular_file W (load_nested W fuel) node s0 with
  | error f => simp [hi] at heach
  | ok r =>
    obtain ⟨blk, s2⟩ := r
    simp only [hi] at heach
    cases hr : import_each W (load_nested W fuel) (rest.takeWhile import_check)
        (generate_module_definition W blk s2).2 with
    | error f => simp [hr] at heach
    | ok r2 =>
      obtain ⟨defs, s3⟩ := r2
      simp only [hr, Except.ok.injEq, Prod.mk.injEq] at heach
      obtain ⟨hdefs, hs3⟩ := heach
      subst hs3
      have henv : s0.envpath = s.envpath :=
        load_library_keeps _ (envpath_closed s.envpath) W _ _ (link_init s _ spath) _ _
          (load_nested_keeps _ (envpath_closed _) W fuel) rfl hlib
      have hF0 : (find_file W path node.get_location s0).1 = F := by
        rw [← hF]
        exact find_file_fst_congr W path _ _ s0 s henv
      obtain ⟨hmem, _⟩ := import_regular_file_records W fuel node s0 path F blk s2
        hpath hF0 hres hoff hi
      have hmem2 : F ∈ (generate_module_definition W blk s2).2.files :=
        generate_module_definition_closed _ (mem_files_closed F) W blk s2 hmem
      have hmem3 : F ∈ s3.files :=
        import_each_keeps _ (mem_files_closed F) W _
          (load_nested_keeps _ (mem_files_closed F) W fuel) _ _ _ _ hmem2 hr
      refine ⟨tree, s3, blk, s2, defs, hlink, rfl, hr, hF0, hmem3, ?_⟩
      rw [htree, ← hdefs]
      simp [code_block.get_expressions]

theorem world_many_access_module (m : String) (h : m ∈ module_names 65534) :
    world_many.access m = true := by
  show decide (m = "lib.nas" ∨ m = "b.nas" ∨ m ∈ module_names 65534) = true
  exact decide_eq_true (Or.inr (Or.inr h))

theorem world_many_access_lib : world_many.access "lib.nas" = true := by
  show decide ("lib.nas" = "lib.nas" ∨ "lib.nas" = "b.nas" ∨ "lib.nas" ∈ module_names 65534)
    = true
  exact decide_eq_true (Or.inl rfl)

theorem world_many_access_b : world_many.access "b.nas" = true := by
  show decide ("b.nas" = "lib.nas" ∨ "b.nas" = "b.nas" ∨ "b.nas" ∈ module_names 65534)
    = true
  exact decide_eq_true (Or.inr (Or.inl rfl))

theorem world_many_access (f : String) (h : world_many.access f = true) :
    f ∈ "lib.nas" :: "b.nas" :: module_names 65534 := by
  have h1 : f = "lib.nas" ∨ f = "b.nas" ∨ f ∈ module_names 65534 := of_decide_eq_true h
  rcases h1 with h1 | h1 | h1
  · rw [h1]; exact List.mem_cons_self _ _
  · rw [h1]; exact List.mem_cons_of_mem _ (List.mem_cons_self _ _)
  · exact List.mem_cons_of_mem _ (List.mem_cons_of_mem _ h1)

theorem world_many_parse_module (m : String) (h : m ∈ module_names 65534) :
    (world_many.parse_result m).get_expressions = [] := by
  have h1 : m ≠ "lib.nas" := module_names_ne _ m _ h (by decide)
  have h2 : m ≠ "b.nas" := module_names_ne _ m _ h (by decide)
  simp [world_many, code_block.get_expressions, h1, h2]

theorem world_many_parse_lib :
    (world_many.parse_result "lib.nas").get_expressions =
      (module_names 65534).map (import_call ⟨0, 0, 0, 0, "lib.nas"⟩) := by
  simp [world_many, code_block.get_expressions]

theorem world_many_parse_b :
    (world_many.parse_result "b.nas").get_expressions = file_b := by
  simp [world_many, code_block.get_expressions]

theorem load_nested_ok_body (W : World) (fuel : Nat) (b : code_block) (i : Nat)
    (s : linker) (r : code_block × linker)
    (h : load_nested W fuel b i s = Except.ok r) :
    ∃ k, load_body W (load_nested W k) b i s = Except.ok r := by
  cases fuel with
  | zero => cases h
  | succ k =>
    have h1 : load W k b i s = Except.ok r := h
    rw [load_eq_load_body] at h1
    exact ⟨k, h1⟩

/-- The state and the tree that the library step of `link` leaves in
    `world_many`: `files` holds `a.nas`, `lib.nas` and the 65534 files, the
    stack holds `a.nas`, and no statement of the tree defines `b`. -/
theorem world_many_library (fuel : Nat) (libtree : code_block) (s0 : linker)
    (hlib : load_library world_many (load_nested world_many fuel)
      (code_block.mk ⟨0, 0, 0, 0, "a.nas"⟩ [])
      (link_init (linker_fresh []) "a.nas" false) = Except.ok (libtree, s0)) :
    s0.files = ["a.nas", "lib.nas"] ++ module_names 65534 ∧
    s0.module_load_stack = ["a.nas"] ∧ s0.lib_loaded = true ∧
    ∀ e ∈ libtree.get_expressions, defined_symbol e ≠ some { name := "b" } := by
  have hFlib : (find_file world_many "lib.nas" ⟨0, 0, 0, 0, "a.nas"⟩
      (link_init (linker_fresh []) "a.nas" false)).1 = "lib.nas" := by
    rw [find_file_present world_many "lib.nas" _ _ world_many_access_lib]
  rw [load_library_not_loaded world_many _ _ _ rfl] at hlib
  obtain ⟨i, hdesc⟩ := import_nasal_lib_descends world_many (load_nested world_many fuel)
    (link_init (linker_fresh []) "a.nas" false) "a.nas" [] "lib.nas" rfl hFlib
    (by decide) (by decide) rfl rfl
  rw [hdesc] at hlib
  cases hld : load_nested world_many fuel (world_many.parse_result "lib.nas") i
      { link_init (linker_fresh []) "a.nas" false with
        lib_path := "lib.nas",
        files := (link_init (linker_fresh []) "a.nas" false).files ++ ["lib.nas"] } with
  | error f => simp [hld] at hlib
  | ok r =>
    obtain ⟨blk, s2⟩ := r
    simp only [hld, Except.ok.injEq, Prod.mk.injEq] at hlib
    obtain ⟨htree, hs0⟩ := hlib
    obtain ⟨k, hbody⟩ := load_nested_ok_body world_many fuel _ _ _ _ hld
    obtain ⟨file, libtree1, s01, defs, _, hlib1, heach, hblk⟩ :=
      load_body_ok world_many _ _ _ _ _ _ hbody
    rw [load_library_not_loaded world_many _ _ _ rfl,
      import_nasal_lib_nested world_many _ (link_init (linker_fresh []) "a.nas" false)
        "a.nas" [] "lib.nas" rfl hFlib (by decide)] at hlib1
    simp only [Except.ok.injEq, Prod.mk.injEq] at hlib1
    obtain ⟨hlt1, hs01⟩ := hlib1
    rw [world_many_parse_lib, (takeWhile_import_calls _ _).1] at heach
    rw [world_many_parse_lib, (takeWhile_import_calls _ _).1,
      (takeWhile_import_calls _ _).2] at hblk
    rw [← hs01] at heach
    obtain ⟨h1, h2, _, _, h5⟩ := import_each_modules world_many k _ (module_names 65534)
      _ defs s2
      (by
        intro m hm
        refine ⟨world_many_access_module m hm, rfl, rfl, world_many_parse_module m hm,
          module_names_length_ne _ m hm, ?_, ?_, module_names_no_b _ m hm⟩
        · show m ∉ ["a.nas"]
          intro hmem
          exact module_names_ne _ m "a.nas" hm (by decide) (List.mem_singleton.1 hmem)
        · show m ∉ ["a.nas"] ++ ["lib.nas"]
          intro hmem
          simp only [List.singleton_append, List.mem_cons, List.mem_singleton,
            List.not_mem_nil, or_false] at hmem
          rcases hmem with hmem | hmem
          · exact module_names_ne _ m "a.nas" hm (by decide) hmem
          · exact module_names_ne _ m "lib.nas" hm (by decide) hmem)
      (module_names_nodup _) rfl
      (by
        rw [module_names_length _ (by decide)]
        decide)
      heach
    refine ⟨?_, ?_, by rw [← hs0], ?_⟩
    · rw [← hs0]
      show s2.files = _
      rw [h1]
      exact congrArg (fun l => l ++ module_names 65534)
        (rfl : (_ : List String) = ["a.nas", "lib.nas"])
    · rw [← hs0]
      show s2.module_load_stack = _
      rw [h2]
      rfl
    · intro e he
      rw [← htree, link_block_fst] at he
      rw [hblk, ← hlt1, link_block_fst] at he
      simp only [code_block.get_expressions, List.nil_append, List.append_nil,
        List.mem_append, List.mem_map] at he
      rcases he with he | ⟨x, _, hx⟩
      · exact h5 e he
      · rw [← hx]
        intro hb
        cases hb

/-- What a nested `load` returns, the library being loaded, for a file that
    does not begin with an import statement: the statements of the file, the
    state unchanged. -/
theorem load_nested_plain_file (W : World) (k : Nat) (b : code_block) (i : Nat)
    (s : linker) (t : code_block) (s1 : linker)
    (hb : b.get_expressions.takeWhile import_check = []) (hlib : s.lib_loaded = true)
    (h : load_nested W k b i s = Except.ok (t, s1)) :
    s1 = s ∧ t.get_expressions = b.get_expressions := by
  cases k with
  | zero => cases h
  | succ k =>
    have h1 : load W k b i s = Except.ok (t, s1) := h
    obtain ⟨definitions, heach, ht⟩ := load_without_library W k b i s t s1 hlib h1
    have hd : b.get_expressions.dropWhile import_check = b.get_expressions := by
      have h2 := List.takeWhile_append_dropWhile import_check b.get_expressions
      rw [hb] at h2
      exact h2
    rw [hb] at heach ht
    rw [hd] at ht
    simp only [import_each, Except.ok.injEq, Prod.mk.injEq] at heach
    refine ⟨heach.2.symm, ?_⟩
    rw [ht, ← heach.1]
    rfl

/-- The block of an import that resolves to a file off the active stack: an
    empty block that carries the name of the file when the file does not lex
    or parse, and else the block the nested `load` returns, at the index
    `find` returns. -/
theorem import_regular_file_block (W : World) (fuel : Nat) (node : call_expr)
    (s : linker) (path F : String) (blk : code_block) (s1 : linker)
    (hpath : get_path W node = some path)
    (hF : (find_file W path node.get_location s).1 = F)
    (hres : F.length ≠ 0) (hoff : F ∉ s.module_load_stack)
    (h : import_regular_file W (load_nested W fuel) node s = Except.ok (blk, s1)) :
    (W.scan_geterr F = true ∨ W.compile_geterr F = true →
      blk = code_block.mk ⟨0, 0, 0, 0, F⟩ []) ∧
    (W.scan_geterr F = false → W.compile_geterr F = false →
      ∃ s2, load_nested W fuel (W.parse_result F)
        ((exist F s).2.files.indexOf F % 65536) (enter_file F s) = Except.ok (blk, s2)) := by
  rw [import_regular_file_resolved W _ node s path F hpath hF hres hoff] at h
  have hfind : find F (enter_file F s) =
      Except.ok ((exist F s).2.files.indexOf F % 65536) :=
    find_eq F (enter_file F s) (exist_files F s).2.2.1
  refine ⟨fun herr => ?_, fun hscan hcomp => ?_⟩
  · rw [if_pos (by simpa using herr)] at h
    simp only [Except.ok.injEq, Prod.mk.injEq] at h
    exact h.1.symm
  · simp only [hscan, hcomp, Bool.false_eq_true, or_self, if_false, hfind] at h
    cases hl : load_nested W fuel (W.parse_result F)
        ((exist F s).2.files.indexOf F % 65536) (enter_file F s) with
    | error f => simp [hl] at h
    | ok r =>
      obtain ⟨t, s2⟩ := r
      simp only [hl] at h
      split_ifs at h
      simp only [Except.ok.injEq, Prod.mk.injEq] at h
      exact ⟨s2, by rw [h.1]⟩

/-- C20: an entry file whose first statement imports a file `F` that
    resolves and is not on the active stack when the statement is reached.
    `link` returns, given that the files on disk are finitely many and the
    fuel covers them; `F` is in `files` afterwards; and the new root holds,
    after the statements of the library, the wrapper of the block `blk` that
    `import_regular_file` returns for the statement, then the wrappers of the
    further leading imports, then the statements of the entry file, each
    leading import being replaced by its placeholder. The wrapper is the
    definition whose value is the call of the function that holds the
    statements of `blk` and the return statement, and it is bound to the module
    name of the file that the span of `blk` names. That file is `F` when
    fewer than 65536 names are in `files` when the statement is reached, and
    when `F` does not lex or parse; in general it is the name that `files`
    holds at the index of `F` modulo `2 ^ 16`, the `u16` that `find` returns.
    `s0` is the state in which the statement is reached, the one the library
    step leaves. -/
theorem link_records_first_import (W : World) (existing : List String)
    (hfin : ∀ f, W.access f = true → f ∈ existing)
    (fuel : Nat) (hfuel : existing.length + 1 ≤ fuel)
    (s : linker) (self : String) (spath : Bool)
    (loc : span) (node : call_expr) (rest : List expr)
    (hc : import_check (expr.call_expr node) = true)
    (path F : String) (hpath : get_path W node = some path)
    (hF : (find_file W path node.get_location s).1 = F) (hres : F.length ≠ 0)
    (libtree : code_block) (s0 : linker)
    (hlib : load_library W (load_nested W fuel) (code_block.mk ⟨0, 0, 0, 0, self⟩ [])
      (link_init s self spath) = Except.ok (libtree, s0))
    (hoff : F ∉ s0.module_load_stack) :
    ∃ tree s1 blk s2 more,
      link W fuel s (code_block.mk loc (expr.call_expr node :: rest)) self spath =
        Except.ok (tree, s1) ∧
      F ∈ s1.files ∧
      import_regular_file W (load_nested W fuel) node s0 = Except.ok (blk, s2) ∧
      (s0.files.length < 65536 → blk.get_location.file = F) ∧
      (W.scan_geterr F = true ∨ W.compile_geterr F = true → blk.get_location.file = F) ∧
      (W.scan_geterr F = false → W.compile_geterr F = false →
        (exist F s0).2.files[(exist F s0).2.files.indexOf F % 65536]? =
          some blk.get_location.file) ∧
      import_each W (load_nested W fuel) (rest.takeWhile import_check)
        (generate_module_definition W blk s2).2 = Except.ok (more, s1) ∧
      more.length = (rest.takeWhile import_check).length ∧
      tree.get_expressions =
        libtree.get_expressions ++
        [expr.definition_expr blk.get_location
          (some { nd_loc := blk.get_location,
                  name := (generate_module_name blk.get_location.file s).1 })
          none none
          (expr.call_expr (call_expr.mk blk.get_location
            (expr.function blk.get_location []
              (code_block.mk blk.get_location
                (blk.get_expressions ++ [generate_module_return W blk])))
            [call.call_function blk.get_location []]))] ++
        more ++
        (import_placeholder (expr.call_expr node) ::
          (rest.takeWhile import_check).map import_placeholder ++
          rest.dropWhile import_check) := by
  obtain ⟨tree, s1, blk, s2, more, hlink, hi, hr, hF0, hmem, htree⟩ :=
    link_first_import W existing hfin fuel hfuel s self spath loc node rest hc path F
      hpath hF hres libtree s0 hlib hoff
  refine ⟨tree, s1, blk, s2, more, hlink, hmem,  hi,
    (import_regular_file_records W fuel node s0 path F blk s2 hpath hF0 hres hoff hi).2,
    fun herr => ?_,
    fun hscan hcomp =>
      import_regular_file_tag W fuel node s0 path F blk s2 hpath hF0 hres hoff hscan hcomp hi,
    hr, import_each_length W _ _ _ _ _ hr, ?_⟩
  · rw [(import_regular_file_block W fuel node s0 path F blk s2 hpath hF0 hres hoff hi).1
      herr]
    rfl
  · rw [htree, generate_module_definition_eq,
      generate_module_name_fst_congr blk.get_location.file s2 s]

set_option maxRecDepth 100000 in
/-- Witness of C20: `a.nas` is `import("b.nas"); var x = 1;` and `b.nas` is
    `var y = 2;`. The names the statements of the new root define are `b`,
    none for the placeholder, and `x`. -/
theorem link_records_first_import_witness :
    (generate_module_name "b.nas" (linker_fresh [])).1 = "b" ∧
    ((link world_b 2 (linker_fresh []) entry_a "a.nas" false).toOption.map
      (fun r => (r.1.get_expressions.map defined_symbol, r.2.files))) =
      some ([some { name := "b" }, none, some { name := "x" }], ["a.nas", "b.nas"]) ∧
    ∃ libtree s0,
      load_library world_b (load_nested world_b 2) (code_block.mk ⟨0, 0, 0, 0, "a.nas"⟩ [])
        (link_init (linker_fresh []) "a.nas" false) = Except.ok (libtree, s0) ∧
      "b.nas" ∉ s0.module_load_stack ∧ s0.files.length < 65536 ∧
      ∃ tree s1 blk s2 more,
        link world_b 2 (linker_fresh []) entry_a "a.nas" false = Except.ok (tree, s1) ∧
        "b.nas" ∈ s1.files ∧
        import_regular_file world_b (load_nested world_b 2) node_import_b s0 =
          Except.ok (blk, s2) ∧
        (s0.files.length < 65536 → blk.get_location.file = "b.nas") ∧
        (world_b.scan_geterr "b.nas" = true ∨ world_b.compile_geterr "b.nas" = true →
          blk.get_location.file = "b.nas") ∧
        (world_b.scan_geterr "b.nas" = false → world_b.compile_geterr "b.nas" = false →
          (exist "b.nas" s0).2.files[(exist "b.nas" s0).2.files.indexOf "b.nas" % 65536]? =
            some blk.get_location.file) ∧
        import_each world_b (load_nested world_b 2)
          ([var_definition ⟨2, 0, 2, 10, "a.nas"⟩ "x" f64_one].takeWhile import_check)
          (generate_module_definition world_b blk s2).2 = Except.ok (more, s1) ∧
        more.length =
          ([var_definition ⟨2, 0, 2, 10, "a.nas"⟩ "x" f64_one].takeWhile import_check).length ∧
        tree.get_expressions =
          libtree.get_expressions ++
          [expr.definition_expr blk.get_location
            (some { nd_loc := blk.get_location,
                    name := (generate_module_name blk.get_location.file (linker_fresh [])).1 })
            none none
            (expr.call_expr (call_expr.mk blk.get_location
              (expr.function blk.get_location []
                (code_block.mk blk.get_location
                  (blk.get_expressions ++ [generate_module_return world_b blk])))
              [call.call_function blk.get_location []]))] ++
          more ++
          (import_placeholder (expr.call_expr node_import_b) ::
            ([var_definition ⟨2, 0, 2, 10, "a.nas"⟩ "x" f64_one].takeWhile import_check).map
              import_placeholder ++
            [var_definition ⟨2, 0, 2, 10, "a.nas"⟩ "x" f64_one].dropWhile import_check) :=
  ⟨by decide, by decide!, _, _, rfl, by decide, by decide,
    link_records_first_import world_b ["b.nas"] world_b_access 2 (by decide)
      (linker_fresh []) "a.nas" false ⟨1, 0, 2, 10, "a.nas"⟩ node_import_b
      [var_definition ⟨2, 0, 2, 10, "a.nas"⟩ "x" f64_one] rfl
      "b.nas" "b.nas" rfl rfl (by decide) _ _ rfl (by decide)⟩

theorem length_succ_le (a b : String) (l : List String) (h : l.length = 65534) :
    (a :: b :: l).length + 1 ≤ 65537 := by
  simp only [List.length_cons, h]
  norm_num

theorem world_many_fuel :
    ("lib.nas" :: "b.nas" :: module_names 65534).length + 1 ≤ 65537 :=
  length_succ_le _ _ _ (module_names_length 65534 (by decide))

theorem length_two_append (a b : String) (l files : List String) (h : l.length = 65534)
    (hf : files = [a, b] ++ l) : files.length = 65536 := by
  rw [hf, List.length_append, h]
  simp only [List.length_cons, List.length_nil]

theorem index_wraps (a b f : String) (l files : List String) (h : l.length = 65534)
    (hf : files = [a, b] ++ l) (hnew : f ∉ files) :
    (files ++ [f]).indexOf f % 65536 = 0 ∧ (files ++ [f])[0]? = some a := by
  refine ⟨?_, ?_⟩
  · rw [List.indexOf_append_of_not_mem hnew, length_two_append a b l files h hf,
      List.indexOf_cons_self, Nat.add_zero, Nat.mod_self]
  · rw [hf]
    simp only [List.cons_append, List.getElem?_cons_zero]

theorem world_many_files_length (files : List String)
    (h : files = ["a.nas", "lib.nas"] ++ module_names 65534) : files.length = 65536 :=
  length_two_append _ _ _ files (module_names_length 65534 (by decide)) h

theorem world_many_index (files : List String)
    (h : files = ["a.nas", "lib.nas"] ++ module_names 65534) :
    "b.nas" ∉ files ∧ (files ++ ["b.nas"]).indexOf "b.nas" % 65536 = 0 ∧
    (files ++ ["b.nas"])[0]? = some "a.nas" := by
  have hnew : "b.nas" ∉ files := by
    rw [h]
    intro hm
    rcases List.mem_append.1 hm with hm | hm
    · revert hm
      decide
    · exact module_names_ne _ _ "b.nas" hm (by decide) rfl
  exact ⟨hnew, index_wraps _ _ _ _ files (module_names_length 65534 (by decide)) h hnew⟩

/-- Counterexample of C20: `a.nas` is `import("b.nas"); var x = 1;`, `b.nas`
    is `var y = 2;`, and the library `lib.nas` imports 65534 files without a
    statement. When the import of `b.nas` is reached `files` holds 65536
    names and `b.nas` is off the active stack; `b.nas` is appended at index
    65536, `find` returns 0, and the wrapper that holds the statements of
    `b.nas` is bound to `a`, the module name of `files[0]`. No statement of the
    new root defines `b`. -/
theorem link_records_first_import_counterexample :
    import_check (expr.call_expr node_import_b) = true ∧
    get_path world_many node_import_b = some "b.nas" ∧
    (find_file world_many "b.nas" node_import_b.get_location (linker_fresh [])).1 = "b.nas" ∧
    (generate_module_name "b.nas" (linker_fresh [])).1 = "b" ∧
    ∃ libtree s0 tree s1,
      load_library world_many (load_nested world_many 65537)
        (code_block.mk ⟨0, 0, 0, 0, "a.nas"⟩ [])
        (link_init (linker_fresh []) "a.nas" false) = Except.ok (libtree, s0) ∧
      "b.nas" ∉ s0.module_load_stack ∧
      s0.files.length = 65536 ∧
      link world_many 65537 (linker_fresh []) entry_a "a.nas" false = Except.ok (tree, s1) ∧
      "b.nas" ∈ s1.files ∧
      (∃ wloc ret,
        wloc.file = "a.nas" ∧
        tree.get_expressions =
          libtree.get_expressions ++
          [expr.definition_expr wloc (some { nd_loc := wloc, name := "a" }) none none
            (expr.call_expr (call_expr.mk wloc
              (expr.function wloc [] (code_block.mk wloc (file_b ++ [ret])))
              [call.call_function wloc []])),
           import_placeholder (expr.call_expr node_import_b),
           var_definition ⟨2, 0, 2, 10, "a.nas"⟩ "x" f64_one]) ∧
      ∀ e ∈ tree.get_expressions, defined_symbol e ≠ some { name := "b" } := by
  have hFb : (find_file world_many "b.nas" node_import_b.get_location (linker_fresh [])).1
      = "b.nas" := by
    rw [find_file_present world_many "b.nas" _ _ world_many_access_b]
  refine ⟨rfl, rfl, hFb, by decide, ?_⟩
  have hfuel := world_many_fuel
  obtain ⟨tree0, s10, hlink0⟩ := link_returns world_many _ world_many_access 65537 hfuel
    (linker_fresh []) entry_a "a.nas" false
  unfold link at hlink0
  rw [load_eq_load_body] at hlink0
  obtain ⟨file, libtree, s0, definitions, hfile, hlib, _, _⟩ :=
    load_body_ok world_many _ _ _ _ _ _ hlink0
  have hself : file = "a.nas" := by
    have : (link_init (linker_fresh []) "a.nas" false).files[0]? = some "a.nas" := rfl
    rw [this] at hfile
    cases hfile
    rfl
  subst hself
  obtain ⟨hfiles, hstack, hloaded, hlibsym⟩ := world_many_library 65537 libtree s0 hlib
  have hoff : "b.nas" ∉ s0.module_load_stack := by
    rw [hstack]
    decide
  have hlen : s0.files.length = 65536 := world_many_files_length _ hfiles
  obtain ⟨hnewb, hidx, hzero⟩ := world_many_index _ hfiles
  obtain ⟨tree, s1, blk, s2, more, hlink, hi, hr, hF0, hmem, htree⟩ :=
    link_first_import world_many _ world_many_access 65537 hfuel (linker_fresh [])
      "a.nas" false ⟨1, 0, 2, 10, "a.nas"⟩ node_import_b
      [var_definition ⟨2, 0, 2, 10, "a.nas"⟩ "x" f64_one] rfl "b.nas" "b.nas" rfl hFb
      (by decide) libtree s0 hlib hoff
  have htw : [var_definition ⟨2, 0, 2, 10, "a.nas"⟩ "x" f64_one].takeWhile import_check
      = [] := rfl
  have hdw : [var_definition ⟨2, 0, 2, 10, "a.nas"⟩ "x" f64_one].dropWhile import_check
      = [var_definition ⟨2, 0, 2, 10, "a.nas"⟩ "x" f64_one] := rfl
  rw [htw] at hr
  rw [htw, hdw] at htree
  simp only [import_each, Except.ok.injEq, Prod.mk.injEq] at hr
  have hex : (exist "b.nas" s0).2 = { s0 with files := s0.files ++ ["b.nas"] } := by
    rcases exist_eq "b.nas" s0 with ⟨hm, _⟩ | ⟨_, he⟩
    · exact absurd hm hnewb
    · rw [he]
  have htag := import_regular_file_tag world_many 65537 node_import_b s0 "b.nas" "b.nas"
    blk s2 rfl hF0 (by decide) hoff rfl rfl hi
  rw [hex] at htag
  have hname : blk.get_location.file = "a.nas" := by
    have h1 : (s0.files ++ ["b.nas"])[(s0.files ++ ["b.nas"]).indexOf "b.nas" % 65536]? =
        some blk.get_location.file := htag
    rw [hidx, hzero] at h1
    exact (Option.some.inj h1).symm
  obtain ⟨s3, hl⟩ := (import_regular_file_block world_many 65537 node_import_b s0 "b.nas"
    "b.nas" blk s2 rfl hF0 (by decide) hoff hi).2 rfl rfl
  have hloaded1 : (enter_file "b.nas" s0).lib_loaded = true := by
    unfold enter_file
    rw [hex]
    exact hloaded
  have hstmts : blk.get_expressions = file_b := by
    rw [(load_nested_plain_file world_many 65537 _ _ _ _ _
      (by rw [world_many_parse_b]; rfl) hloaded1 hl).2, world_many_parse_b]
  have hroot : tree.get_expressions =
      libtree.get_expressions ++
      [expr.definition_expr blk.get_location
        (some { nd_loc := blk.get_location, name := "a" }) none none
        (expr.call_expr (call_expr.mk blk.get_location
          (expr.function blk.get_location []
            (code_block.mk blk.get_location
              (file_b ++ [generate_module_return world_many blk])))
          [call.call_function blk.get_location []])),
       import_placeholder (expr.call_expr node_import_b),
       var_definition ⟨2, 0, 2, 10, "a.nas"⟩ "x" f64_one] := by
    have hn : (generate_module_name "a.nas" s2).1 = "a" := by
      rw [generate_module_name_fst_congr "a.nas" s2 (linker_fresh [])]
      decide
    rw [htree, generate_module_definition_eq, hname, hn, hstmts, ← hr.1]
    simp
  refine ⟨libtree, s0, tree, s1, hlib, hoff, hlen, hlink, hmem,
    ⟨blk.get_location, generate_module_return world_many blk, hname, hroot⟩, ?_⟩
  intro e he
  rw [hroot] at he
  rcases List.mem_append.1 he with he | he
  · exact hlibsym e he
  · simp only [List.mem_cons, List.mem_singleton, List.not_mem_nil, or_false] at he
    rcases he with he | he | he
    · rw [he]
      show (some { name := "a" } : Option symbol_info) ≠ some { name := "b" }
      decide
    · rw [he]
      decide
    · rw [he]
      decide

end nasal
